import Mathlib

/-!
# Genome-Guard: client-side encryption, content publishing and attestation

A shallow embedding of `web/src/services/encryption.js`,
`web/src/services/ipfs.js`, `web/src/services/aptos.js` and the upload handlers
of `web/src/pages/Upload.jsx`.

* JavaScript strings are lists of UTF-16 code units, byte arrays are lists of
  naturals reduced modulo 256 where a `Uint8Array` is built.
* The browser functions the services call and whose behaviour the claims turn
  on (`btoa`, `atob`, `TextEncoder`, `TextDecoder`, `JSON.stringify`,
  `JSON.parse`, the IndexedDB object store, `localStorage`) are modelled after
  their specifications; the Web Crypto primitives, the network, the wallets,
  the ledger node, the sources of randomness and the number of arguments the
  engine takes in one call are parameters.
* An `async` method becomes a function from the state before the call to an
  `Outcome` and the state after it.
-/

namespace GenomeGuard

/-! ## Strings and errors -/

/-- A JavaScript string, as its sequence of UTF-16 code units. -/
abbrev JSString := List Nat

/-- UTF-16 code units of one Unicode scalar value. -/
def utf16Units (c : Nat) : List Nat :=
  if c < 0x10000 then [c]
  else [0xD800 + (c - 0x10000) / 0x400, 0xDC00 + (c - 0x10000) % 0x400]

/-- The JavaScript string written by a string literal. -/
def js (s : String) : JSString :=
  s.data.flatMap fun ch => utf16Units ch.toNat

/-- Every code unit is a 16-bit value. -/
def IsJSString (s : JSString) : Prop := ∀ u ∈ s, u < 65536

/-- Every element is an 8-bit value. -/
def IsBytes (b : List Nat) : Prop := ∀ x ∈ b, x < 256

instance (s : JSString) : Decidable (IsJSString s) := by
  unfold IsJSString; infer_instance

instance (b : List Nat) : Decidable (IsBytes b) := by
  unfold IsBytes; infer_instance

/-- Exceptions the modelled code can raise. -/
inductive JSError where
  /-- `new Error(message)` thrown by the services themselves. -/
  | error (message : JSString)
  /-- `InvalidCharacterError` DOMException of `btoa` and `atob`. -/
  | invalidCharacter
  /-- `OperationError` DOMException: AES-GCM authentication failed. -/
  | operationError
  /-- `DataError` DOMException: `crypto.subtle.importKey` rejected the key data. -/
  | dataError
  /-- `SyntaxError` of `JSON.parse` and of `response.json()`. -/
  | syntaxError
  /-- `TypeError`: a property read on `null`. -/
  | typeError
  /-- A rejected `fetch` (network failure) or a failed body read. -/
  | networkError
  /-- `RangeError`: a call with more arguments than the engine takes. -/
  | rangeError
  deriving DecidableEq, Repr

/-- How an `async` call ends. `pending` is a promise that is never settled:
the IndexedDB helpers settle theirs from inside event handlers, and an
exception raised in a handler is reported to the page and settles nothing. -/
inductive Outcome (α : Type) where
  | returned (value : α)
  | threw (e : JSError)
  | pending
  deriving DecidableEq, Repr

/-! ## UTF-16 and UTF-8 -/

/-- A lead (high) surrogate code unit. -/
def isLeadSurrogate (u : Nat) : Bool := 0xD800 ≤ u && u ≤ 0xDBFF

/-- A trail (low) surrogate code unit. -/
def isTrailSurrogate (u : Nat) : Bool := 0xDC00 ≤ u && u ≤ 0xDFFF

/-- Conversion of a string to scalar values (Web IDL `USVString`): a surrogate
pair is one supplementary code point, an unpaired surrogate becomes U+FFFD. -/
def toScalarValues : JSString → List Nat
  | [] => []
  | [u] => if isLeadSurrogate u || isTrailSurrogate u then [0xFFFD] else [u]
  | u :: v :: rest =>
    if isLeadSurrogate u then
      if isTrailSurrogate v then
        (0x10000 + (u - 0xD800) * 0x400 + (v - 0xDC00)) :: toScalarValues rest
      else 0xFFFD :: toScalarValues (v :: rest)
    else if isTrailSurrogate u then 0xFFFD :: toScalarValues (v :: rest)
    else u :: toScalarValues (v :: rest)

/-- The string has no unpaired surrogate (`String.prototype.isWellFormed`). -/
def isWellFormed : JSString → Bool
  | [] => true
  | [u] => !(isLeadSurrogate u || isTrailSurrogate u)
  | u :: v :: rest =>
    if isLeadSurrogate u then isTrailSurrogate v && isWellFormed rest
    else !isTrailSurrogate u && isWellFormed (v :: rest)

/-- UTF-8 bytes of one scalar value. -/
def utf8EncodeScalar (c : Nat) : List Nat :=
  if c < 0x80 then [c]
  else if c < 0x800 then [0xC0 + c / 0x40, 0x80 + c % 0x40]
  else if c < 0x10000 then [0xE0 + c / 0x1000, 0x80 + c / 0x40 % 0x40, 0x80 + c % 0x40]
  else [0xF0 + c / 0x40000, 0x80 + c / 0x1000 % 0x40, 0x80 + c / 0x40 % 0x40, 0x80 + c % 0x40]

/-- The call `new TextEncoder().encode(s)`. -/
def textEncode (s : JSString) : List Nat :=
  (toScalarValues s).flatMap utf8EncodeScalar

/-- State of the UTF-8 decoder of the Encoding standard. -/
structure Utf8State where
  codePoint : Nat
  bytesSeen : Nat
  bytesNeeded : Nat
  lower : Nat
  upper : Nat
  deriving DecidableEq, Repr

/-- The decoder state between two code points. -/
def Utf8State.initial : Utf8State := ⟨0, 0, 0, 0x80, 0xBF⟩

/-- One byte read while no sequence is open (`bytes needed` is 0): the code
points emitted and the next state. U+FFFD is the replacement for an error. -/
def utf8Lead (b : Nat) : List Nat × Utf8State :=
  if b ≤ 0x7F then ([b], Utf8State.initial)
  else if 0xC2 ≤ b ∧ b ≤ 0xDF then ([], ⟨b % 0x20, 0, 1, 0x80, 0xBF⟩)
  else if 0xE0 ≤ b ∧ b ≤ 0xEF then
    ([], ⟨b % 0x10, 0, 2, if b = 0xE0 then 0xA0 else 0x80, if b = 0xED then 0x9F else 0xBF⟩)
  else if 0xF0 ≤ b ∧ b ≤ 0xF4 then
    ([], ⟨b % 0x08, 0, 3, if b = 0xF0 then 0x90 else 0x80, if b = 0xF4 then 0x8F else 0xBF⟩)
  else ([0xFFFD], Utf8State.initial)

/-- One byte through the decoder. A byte outside the expected range ends the
open sequence with an error and is read again as a lead byte. -/
def utf8Step (st : Utf8State) (b : Nat) : List Nat × Utf8State :=
  if st.bytesNeeded = 0 then utf8Lead b
  else if b < st.lower ∨ st.upper < b then
    (0xFFFD :: (utf8Lead b).1, (utf8Lead b).2)
  else if st.bytesSeen + 1 = st.bytesNeeded then
    ([st.codePoint * 0x40 + b % 0x40], Utf8State.initial)
  else ([], ⟨st.codePoint * 0x40 + b % 0x40, st.bytesSeen + 1, st.bytesNeeded, 0x80, 0xBF⟩)

/-- The decoder run to the end of the input, errors replaced by U+FFFD. -/
def utf8Decode : Utf8State → List Nat → List Nat
  | st, [] => if st.bytesNeeded = 0 then [] else [0xFFFD]
  | st, b :: rest => (utf8Step st b).1 ++ utf8Decode (utf8Step st b).2 rest

/-- A leading U+FEFF is dropped from the decoder output (`ignoreBOM` unset). -/
def stripBOM : List Nat → List Nat
  | 0xFEFF :: rest => rest
  | cs => cs

/-- The call `new TextDecoder().decode(bytes)`: UTF-8, not fatal, BOM dropped. -/
def textDecode (bytes : List Nat) : JSString :=
  (stripBOM (utf8Decode Utf8State.initial bytes)).flatMap utf16Units

/-! ## Base64 -/

/-- Character of the base64 alphabet for a 6-bit value. -/
def base64Char (i : Nat) : Nat :=
  if i < 26 then 65 + i
  else if i < 52 then 71 + i
  else if i < 62 then i - 4
  else if i = 62 then 43
  else 47

/-- Inverse of `base64Char`; `none` for a character outside the alphabet. -/
def base64Index (c : Nat) : Option Nat :=
  if 65 ≤ c ∧ c ≤ 90 then some (c - 65)
  else if 97 ≤ c ∧ c ≤ 122 then some (c - 71)
  else if 48 ≤ c ∧ c ≤ 57 then some (c + 4)
  else if c = 43 then some 62
  else if c = 47 then some 63
  else none

/-- Base64 with padding, three bytes to four characters. -/
def base64Encode : List Nat → JSString
  | [] => []
  | [a] => [base64Char (a / 4), base64Char (a % 4 * 16), 61, 61]
  | [a, b] => [base64Char (a / 4), base64Char (a % 4 * 16 + b / 16), base64Char (b % 16 * 4), 61]
  | a :: b :: c :: rest =>
    base64Char (a / 4) :: base64Char (a % 4 * 16 + b / 16) ::
      base64Char (b % 16 * 4 + c / 64) :: base64Char (c % 64) :: base64Encode rest

/-- The call `btoa(data)`: fails on a code unit above U+00FF. -/
def btoa (data : JSString) : Except JSError JSString :=
  if data.all (fun u => decide (u ≤ 255)) then .ok (base64Encode data)
  else .error .invalidCharacter

/-- ASCII whitespace: TAB, LF, FF, CR, SPACE. -/
def isAsciiWhitespace (c : Nat) : Bool :=
  c == 9 || c == 10 || c == 12 || c == 13 || c == 32

/-- When the length is a multiple of four, one or two trailing `=` are removed. -/
def stripPadding (d : JSString) : JSString :=
  if d.length % 4 = 0 then
    if d.getLast? = some 61 then
      if d.dropLast.getLast? = some 61 then d.dropLast.dropLast else d.dropLast
    else d
  else d

/-- Alphabet positions of all characters, `none` if one is outside the alphabet. -/
def base64Indices : JSString → Option (List Nat)
  | [] => some []
  | c :: rest =>
    match base64Index c, base64Indices rest with
    | some i, some is => some (i :: is)
    | _, _ => none

/-- Bytes of a run of 6-bit values; the bits left over at the end (four after
two values, two after three) are discarded. -/
def sextetsToBytes : List Nat → List Nat
  | a :: b :: c :: d :: rest =>
    (a * 4 + b / 16) :: (b % 16 * 16 + c / 4) :: (c % 4 * 64 + d) :: sextetsToBytes rest
  | [a, b, c] => [a * 4 + b / 16, b % 16 * 16 + c / 4]
  | [a, b] => [a * 4 + b / 16]
  | _ => []

/-- The call `atob(data)`, the forgiving base64 decoder. Lengths are taken in
code units: a string holding a surrogate is rejected whichever way its length
is counted, since no surrogate is in the alphabet. -/
def atob (data : JSString) : Except JSError JSString :=
  let d := stripPadding (data.filter fun c => !isAsciiWhitespace c)
  if d.length % 4 = 1 then .error .invalidCharacter
  else
    match base64Indices d with
    | none => .error .invalidCharacter
    | some sextets => .ok (sextetsToBytes sextets)

/-! ## Values and JSON -/

/-- The JavaScript values a key record can be made of: what `JSON.parse`
returns and what `crypto.subtle.exportKey("jwk", …)` builds. Numbers are left
out: they are IEEE doubles. An array carries its elements and, apart from
them, its named own properties (`JSON.parse` creates none, `storeKey` may add
`kid`). Properties are kept in the order `Object.keys` lists them. -/
inductive JSValue where
  | null
  | bool (b : Bool)
  | str (s : JSString)
  | arr (items : List JSValue) (props : List (JSString × JSValue))
  | obj (props : List (JSString × JSValue))
  deriving Repr

namespace JSValue

/-- JavaScript truthiness (`ToBoolean`). -/
def truthy : JSValue → Bool
  | null => false
  | bool b => b
  | str s => !s.isEmpty
  | arr _ _ => true
  | obj _ => true

end JSValue

/-- Truthiness of a value that may be `undefined` or `null`. -/
def isTruthy : Option JSValue → Bool
  | none => false
  | some v => v.truthy

/-- Own property lookup by name. -/
def getProp : List (JSString × JSValue) → JSString → Option JSValue
  | [], _ => none
  | (k, v) :: rest, name => if k = name then some v else getProp rest name

/-- Value of a decimal digit character. -/
def digitValue (c : Nat) : Option Nat :=
  if 48 ≤ c ∧ c ≤ 57 then some (c - 48) else none

/-- Value of a run of decimal digits read after the value `acc`. -/
def digitsValue : Nat → JSString → Option Nat
  | acc, [] => some acc
  | acc, c :: rest =>
    match digitValue c with
    | some d => digitsValue (acc * 10 + d) rest
    | none => none

/-- The array index a property name denotes, if it is one: a canonical decimal
numeral below 2^32 - 1. -/
def arrayIndex (name : JSString) : Option Nat :=
  match name with
  | [] => none
  | [48] => some 0
  | 48 :: _ => none
  | _ =>
    match digitsValue 0 name with
    | some n => if n < 4294967295 then some n else none
    | none => none

/-- Insertion of a new property named by the array index `i`: array indices
come first, in ascending order. -/
def insertIndexProp (i : Nat) (name : JSString) (value : JSValue) :
    List (JSString × JSValue) → List (JSString × JSValue)
  | [] => [(name, value)]
  | (k, v) :: rest =>
    match arrayIndex k with
    | some j =>
      if j < i then (k, v) :: insertIndexProp i name value rest
      else (name, value) :: (k, v) :: rest
    | none => (name, value) :: (k, v) :: rest

/-- Replacement of the value of an existing property, its position kept. -/
def replaceProp (name : JSString) (value : JSValue) :
    List (JSString × JSValue) → List (JSString × JSValue)
  | [] => []
  | (k, v) :: rest =>
    if k = name then (k, value) :: rest else (k, v) :: replaceProp name value rest

/-- Definition of a data property on an ordinary object: an existing property
keeps its place, a new array index goes among the indices, any other new name
goes last. -/
def setProp (props : List (JSString × JSValue)) (name : JSString) (value : JSValue) :
    List (JSString × JSValue) :=
  match getProp props name with
  | some _ => replaceProp name value props
  | none =>
    match arrayIndex name with
    | some i => insertIndexProp i name value props
    | none => props ++ [(name, value)]

/-- Lowercase hexadecimal digit. -/
def hexDigit (n : Nat) : Nat := if n < 10 then 48 + n else 87 + n

/-- The escape `\uXXXX` of a code unit. -/
def unicodeEscape (u : Nat) : JSString :=
  [92, 117, hexDigit (u / 4096 % 16), hexDigit (u / 256 % 16), hexDigit (u / 16 % 16),
    hexDigit (u % 16)]

/-- One code unit that is not half of a surrogate pair, inside a JSON string
(`QuoteJSONString`). -/
def quoteUnit (u : Nat) : JSString :=
  if u = 8 then [92, 98]
  else if u = 9 then [92, 116]
  else if u = 10 then [92, 110]
  else if u = 12 then [92, 102]
  else if u = 13 then [92, 114]
  else if u = 34 then [92, 34]
  else if u = 92 then [92, 92]
  else if u < 32 ∨ isLeadSurrogate u ∨ isTrailSurrogate u then unicodeEscape u
  else [u]

/-- The characters of a JSON string between its quotes: surrogate pairs are
copied, unpaired surrogates escaped. -/
def quoteUnits : JSString → JSString
  | [] => []
  | [u] => quoteUnit u
  | u :: v :: rest =>
    if isLeadSurrogate u && isTrailSurrogate v then u :: v :: quoteUnits rest
    else quoteUnit u ++ quoteUnits (v :: rest)

/-- The abstract operation `QuoteJSONString`. -/
def quoteJSONString (s : JSString) : JSString := 34 :: quoteUnits s ++ [34]

namespace JSValue

mutual
/-- The call `JSON.stringify(value)` (no replacer, no indentation). -/
def stringify : JSValue → JSString
  | null => js "null"
  | bool b => if b then js "true" else js "false"
  | str s => quoteJSONString s
  | arr items _ => 91 :: stringifyItems items ++ [93]
  | obj props => 123 :: stringifyProps props ++ [125]
/-- Array elements separated by commas. -/
def stringifyItems : List JSValue → JSString
  | [] => []
  | [v] => stringify v
  | v :: w :: rest => stringify v ++ 44 :: stringifyItems (w :: rest)
/-- Object members `"name":value` separated by commas. -/
def stringifyProps : List (JSString × JSValue) → JSString
  | [] => []
  | [(k, v)] => quoteJSONString k ++ 58 :: stringify v
  | (k, v) :: p :: rest => quoteJSONString k ++ 58 :: stringify v ++ 44 :: stringifyProps (p :: rest)
end

end JSValue

/-- Result of a parsing step. `unmodelled` marks input the value model does not
cover: a number literal was met. -/
inductive Parsed (α : Type) where
  | ok (value : α) (rest : JSString)
  | syntaxError
  | unmodelled
  deriving Repr

/-- JSON whitespace (TAB, LF, CR, SPACE) skipped. -/
def skipWs : JSString → JSString
  | [] => []
  | c :: rest => if c = 9 ∨ c = 10 ∨ c = 13 ∨ c = 32 then skipWs rest else c :: rest

/-- Value of a hexadecimal digit character. -/
def hexValue (c : Nat) : Option Nat :=
  if 48 ≤ c ∧ c ≤ 57 then some (c - 48)
  else if 97 ≤ c ∧ c ≤ 102 then some (c - 87)
  else if 65 ≤ c ∧ c ≤ 70 then some (c - 55)
  else none

/-- The code unit written by the four hexadecimal digits of a `\u` escape. -/
def hex4Value (a b c d : Nat) : Option Nat :=
  match hexValue a, hexValue b, hexValue c, hexValue d with
  | some w, some x, some y, some z => some (w * 4096 + x * 256 + y * 16 + z)
  | _, _, _, _ => none

/-- The characters of a JSON string after its opening quote, up to and
including the closing quote. -/
def parseStringBody : JSString → Parsed JSString
  | [] => .syntaxError
  | 34 :: rest => .ok [] rest
  | 92 :: 117 :: a :: b :: c :: d :: rest =>
    match hex4Value a b c d with
    | some u =>
      match parseStringBody rest with
      | .ok s r => .ok (u :: s) r
      | e => e
    | none => .syntaxError
  | 92 :: e :: rest =>
    let unit : Option Nat :=
      if e = 34 then some 34 else if e = 92 then some 92 else if e = 47 then some 47
      else if e = 98 then some 8 else if e = 102 then some 12 else if e = 110 then some 10
      else if e = 114 then some 13 else if e = 116 then some 9 else none
    match unit with
    | some u =>
      match parseStringBody rest with
      | .ok s r => .ok (u :: s) r
      | e => e
    | none => .syntaxError
  | c :: rest =>
    if c < 32 ∨ c = 92 then .syntaxError
    else
      match parseStringBody rest with
      | .ok s r => .ok (c :: s) r
      | e => e

mutual
/-- A JSON value at the head of the input. The first argument bounds the
recursion; `jsonParse` supplies more than any input uses. -/
def parseValue : Nat → JSString → Parsed JSValue
  | 0, _ => .unmodelled
  | fuel + 1, input =>
    match skipWs input with
    | 110 :: 117 :: 108 :: 108 :: rest => .ok .null rest
    | 116 :: 114 :: 117 :: 101 :: rest => .ok (.bool true) rest
    | 102 :: 97 :: 108 :: 115 :: 101 :: rest => .ok (.bool false) rest
    | 34 :: rest =>
      match parseStringBody rest with
      | .ok s r => .ok (.str s) r
      | .syntaxError => .syntaxError
      | .unmodelled => .unmodelled
    | 91 :: rest =>
      match skipWs rest with
      | 93 :: r => .ok (.arr [] []) r
      | r =>
        match parseElements fuel r with
        | .ok items r1 => .ok (.arr items []) r1
        | .syntaxError => .syntaxError
        | .unmodelled => .unmodelled
    | 123 :: rest =>
      match skipWs rest with
      | 125 :: r => .ok (.obj []) r
      | r =>
        match parseMembers fuel r with
        | .ok members r1 => .ok (.obj (members.foldl (fun o m => setProp o m.1 m.2) [])) r1
        | .syntaxError => .syntaxError
        | .unmodelled => .unmodelled
    | c :: _ => if c = 45 ∨ (48 ≤ c ∧ c ≤ 57) then .unmodelled else .syntaxError
    | [] => .syntaxError
/-- The elements of a non-empty array, up to and including the closing bracket. -/
def parseElements : Nat → JSString → Parsed (List JSValue)
  | 0, _ => .unmodelled
  | fuel + 1, input =>
    match parseValue fuel input with
    | .ok v rest =>
      match skipWs rest with
      | 44 :: r =>
        match parseElements fuel r with
        | .ok vs r1 => .ok (v :: vs) r1
        | e => e
      | 93 :: r => .ok [v] r
      | _ => .syntaxError
    | .syntaxError => .syntaxError
    | .unmodelled => .unmodelled
/-- The members of a non-empty object in source order, up to and including the
closing brace. -/
def parseMembers : Nat → JSString → Parsed (List (JSString × JSValue))
  | 0, _ => .unmodelled
  | fuel + 1, input =>
    match skipWs input with
    | 34 :: rest =>
      match parseStringBody rest with
      | .ok name r =>
        match skipWs r with
        | 58 :: r1 =>
          match parseValue fuel r1 with
          | .ok v r2 =>
            match skipWs r2 with
            | 44 :: r3 =>
              match parseMembers fuel r3 with
              | .ok ms r4 => .ok ((name, v) :: ms) r4
              | e => e
            | 125 :: r3 => .ok [(name, v)] r3
            | _ => .syntaxError
          | .syntaxError => .syntaxError
          | .unmodelled => .unmodelled
        | _ => .syntaxError
      | .syntaxError => .syntaxError
      | .unmodelled => .unmodelled
    | _ => .syntaxError
end

/-- The call `JSON.parse(text)`: `none` when the text is outside the value
model (a number literal was met), otherwise the value or a `SyntaxError`. -/
def jsonParse (text : JSString) : Option (Except JSError JSValue) :=
  match parseValue (2 * text.length + 2) text with
  | .ok v rest => if skipWs rest = [] then some (.ok v) else some (.error .syntaxError)
  | .syntaxError => some (.error .syntaxError)
  | .unmodelled => none

/-! ## The IndexedDB database `GenomeGuardDB` -/

/-- An IndexedDB key. Of the key types, strings and arrays are the ones a
value of `JSValue` can convert to. -/
inductive IDBKey where
  | str (s : JSString)
  | arr (items : List IDBKey)
  deriving Repr

namespace IDBKey

mutual
/-- Equality of keys. -/
def beq : IDBKey → IDBKey → Bool
  | str a, str b => decide (a = b)
  | arr xs, arr ys => beqList xs ys
  | _, _ => false
/-- Equality of key lists, element by element. -/
def beqList : List IDBKey → List IDBKey → Bool
  | [], [] => true
  | x :: xs, y :: ys => beq x y && beqList xs ys
  | _, _ => false
end

end IDBKey

namespace JSValue

mutual
/-- Conversion of a value to a key; `none` when the value is not a valid key
(`null`, a boolean, a plain object, or an array holding one of these). -/
def toKey : JSValue → Option IDBKey
  | str s => some (.str s)
  | arr items _ => (toKeys items).map IDBKey.arr
  | _ => none
/-- Conversion of array elements to keys. -/
def toKeys : List JSValue → Option (List IDBKey)
  | [] => some []
  | v :: rest =>
    match toKey v, toKeys rest with
    | some k, some ks => some (k :: ks)
    | _, _ => none
end

end JSValue

/-- The state of the database `GenomeGuardDB` in the browser profile. -/
inductive DB where
  /-- The database has never been opened. -/
  | absent
  /-- The database is at version 1 and has no object store `keys`: it was created
  by an `open` request that had no `onupgradeneeded` handler. -/
  | noStore
  /-- The object store `keys` (key path `kid`) with its records, each under its key. -/
  | keys (records : List (IDBKey × JSValue))
  deriving Repr

/-- The records held by the object store `keys`. -/
def DB.records : DB → List (IDBKey × JSValue)
  | .keys rs => rs
  | _ => []

/-- `indexedDB.open("GenomeGuardDB", 1)` with the `onupgradeneeded` handler of
`storeKey` and `getKey`: a new database gets the object store `keys`. -/
def openWithUpgrade : DB → DB
  | .absent => .keys []
  | db => db

/-- `indexedDB.open("GenomeGuardDB", 1)` as `deleteKey` issues it, with no
`onupgradeneeded` handler: a new database is created without object stores. -/
def openPlain : DB → DB
  | .absent => .noStore
  | db => db

/-- The record stored under a key (`store.get(key)`). -/
def lookupRecord (key : IDBKey) : List (IDBKey × JSValue) → Option JSValue
  | [] => none
  | (k, v) :: rest => if k.beq key then some v else lookupRecord key rest

/-- Insertion or replacement of the record under a key (`store.put(value)`). -/
def putRecord (key : IDBKey) (value : JSValue) :
    List (IDBKey × JSValue) → List (IDBKey × JSValue)
  | [] => [(key, value)]
  | (k, v) :: rest =>
    if k.beq key then (key, value) :: rest else (k, v) :: putRecord key value rest

/-- Removal of the record under a key (`store.delete(key)`). -/
def deleteRecord (key : IDBKey) : List (IDBKey × JSValue) → List (IDBKey × JSValue)
  | [] => []
  | (k, v) :: rest => if k.beq key then deleteRecord key rest else (k, v) :: deleteRecord key rest

/-- The key `"default"`. -/
def defaultKey : IDBKey := .str (js "default")

/-- The property `kid` of key data, `none` for `undefined`. -/
def kidOf : JSValue → Option JSValue
  | .obj props => getProp props (js "kid")
  | .arr _ props => getProp props (js "kid")
  | _ => none

/-- The statement `if (!keyData.kid) \x7b keyData.kid = "default"; \x7d` on an
object or an array; `none` where it raises a `TypeError`: reading `kid` of
`null`, or (the file is a module, hence strict code) creating a property on a
primitive value. -/
def ensureKid : JSValue → Option JSValue
  | .obj props =>
    if isTruthy (getProp props (js "kid")) then some (.obj props)
    else some (.obj (setProp props (js "kid") (.str (js "default"))))
  | .arr items props =>
    if isTruthy (getProp props (js "kid")) then some (.arr items props)
    else some (.arr items (setProp props (js "kid") (.str (js "default"))))
  | _ => none

/-- The method `storeKey(keyData)`: the outcome, carrying `keyData` as the
handler left it, and the database afterwards. The promise is settled only by
`putRequest.onsuccess`; the conditions under which the `onsuccess` handler of
the `open` request raises (no object store `keys` for the transaction, the
`TypeError` of `ensureKid`, the `DataError` of `put` when `kid` is not a valid
key) leave it pending. The database is taken to open and to write without
storage errors. -/
def storeKey (db : DB) (keyData : JSValue) : Outcome JSValue × DB :=
  match openWithUpgrade db with
  | .keys records =>
    match ensureKid keyData with
    | some keyData1 =>
      match (kidOf keyData1).bind JSValue.toKey with
      | some key => (.returned keyData1, .keys (putRecord key keyData1 records))
      | none => (.pending, .keys records)
    | none => (.pending, .keys records)
  | db1 => (.pending, db1)

/-- The method `getKey()`: the record under `"default"`, `none` when there is
none (`undefined`) or when the database has no object store `keys` (`null`). -/
def getKey (db : DB) : Option JSValue × DB :=
  match openWithUpgrade db with
  | .keys records => (lookupRecord defaultKey records, .keys records)
  | db1 => (none, db1)

/-- The method `deleteKey()`. -/
def deleteKey (db : DB) : Outcome Unit × DB :=
  match openPlain db with
  | .keys records => (.returned (), .keys (deleteRecord defaultKey records))
  | db1 => (.returned (), db1)

/-! ## Web Crypto -/

/-- The usage a key is imported for. -/
inductive KeyUsage where
  | encrypt
  | decrypt
  deriving DecidableEq, Repr

/-- The Web Crypto operations the service calls, for the algorithm
`AES-GCM` with a 256-bit key. -/
structure WebCrypto where
  /-- `generateKey(algorithm, true, ["encrypt", "decrypt"])` followed by
  `exportKey("jwk", key)`: the members of the JSON Web Key of the key drawn
  from the given entropy. -/
  generateJwk : Nat → List (JSString × JSValue)
  /-- `importKey("jwk", keyData, algorithm, true, [usage])`: the key, or the
  exception raised for key data that is not an acceptable JSON Web Key. -/
  importJwk : JSValue → KeyUsage → Except JSError (List Nat)
  /-- `encrypt` with AES-GCM under a key and an initialisation vector: the
  ciphertext followed by the authentication tag. -/
  encrypt : List Nat → List Nat → List Nat → List Nat
  /-- `decrypt` with AES-GCM: the plaintext, or `none` when the operation fails
  (`OperationError`: the tag does not verify). -/
  decrypt : List Nat → List Nat → List Nat → Option (List Nat)

/-- What is assumed of the Web Crypto implementation. -/
structure WebCrypto.Lawful (W : WebCrypto) : Prop where
  /-- The output of `encrypt` is an `ArrayBuffer`: its elements are bytes. -/
  encrypt_bytes : ∀ key iv data, IsBytes data → IsBytes (W.encrypt key iv data)
  /-- Decryption under the key and initialisation vector of the encryption
  returns the plaintext. -/
  decrypt_encrypt : ∀ key iv data, IsBytes data →
    W.decrypt key iv (W.encrypt key iv data) = some data
  /-- An exported key has no `kid` member. -/
  generated_kid : ∀ seed, getProp (W.generateJwk seed) (js "kid") = none
  /-- An exported key, with the `kid` that `storeKey` adds, imports for
  encryption. -/
  generated_imports : ∀ seed, ∃ key,
    W.importJwk (.obj (setProp (W.generateJwk seed) (js "kid") (.str (js "default"))))
      KeyUsage.encrypt = .ok key
  /-- A record that imports for encryption and for decryption gives the same
  key both times. -/
  import_usage : ∀ keyData k1 k2, W.importJwk keyData KeyUsage.encrypt = .ok k1 →
    W.importJwk keyData KeyUsage.decrypt = .ok k2 → k1 = k2

/-! ## The encryption service (`encryption.js`) -/

/-- Storage of the values in a `Uint8Array`. -/
def uint8Array (values : List Nat) : List Nat := values.map (· % 256)

/-- The call `crypto.getRandomValues(new Uint8Array(n))`: the array filled
from the random source. -/
def getRandomValues (n : Nat) (random : Nat → Nat) : List Nat :=
  (List.range n).map fun i => random i % 256

/-- The call `String.fromCharCode(...values)`, which passes one argument for
each value: with more arguments than the engine takes (`maxArguments` of them,
a property of the engine) the call raises a `RangeError`. -/
def fromCharCode (maxArguments : Nat) (values : List Nat) : Except JSError JSString :=
  if values.length ≤ maxArguments then .ok (values.map (· % 65536)) else .error .rangeError

/-- The values `c.charCodeAt(0)` for the items `c` the string iterator yields:
the first code unit of each code point. -/
def firstCodeUnits : JSString → List Nat
  | [] => []
  | [u] => [u]
  | u :: v :: rest =>
    if isLeadSurrogate u && isTrailSurrogate v then u :: firstCodeUnits rest
    else u :: firstCodeUnits (v :: rest)

/-- The call `Uint8Array.from(s, (c) => c.charCodeAt(0))`. -/
def uint8ArrayFromString (s : JSString) : List Nat := uint8Array (firstCodeUnits s)

/-- The method `generateKey()`: the exported key as `storeKey` left it. -/
def generateKey (W : WebCrypto) (db : DB) (seed : Nat) : Outcome JSValue × DB :=
  storeKey db (.obj (W.generateJwk seed))

/-- The object `encryptFile` returns. -/
structure Encrypted where
  encrypted : JSString
  keyId : JSValue
  deriving Repr

/-- The expression `keyData.kid || "default"`. -/
def keyIdOf (keyData : JSValue) : JSValue :=
  match kidOf keyData with
  | some kid => if kid.truthy then kid else .str (js "default")
  | none => .str (js "default")

/-- The array `combined` of `encryptFile`, the initialisation vector followed
by the encrypted data, and its conversion to base64. -/
def combineBase64 (maxArguments : Nat) (iv encryptedData : List Nat) :
    Except JSError JSString :=
  match fromCharCode maxArguments (uint8Array (iv ++ encryptedData)) with
  | .error e => .error e
  | .ok binary => btoa binary

/-- The conversion from base64 in `decryptFile` and the two slices of the
result: `combined.slice(0, 12)` and `combined.slice(12)`. -/
def splitBase64 (encryptedBase64 : JSString) : Except JSError (List Nat × List Nat) :=
  match atob encryptedBase64 with
  | .error e => .error e
  | .ok binary => .ok ((uint8ArrayFromString binary).take 12, (uint8ArrayFromString binary).drop 12)

/-- The part of `encryptFile` after the key data is at hand. -/
def encryptWith (W : WebCrypto) (maxArguments : Nat) (keyData : JSValue) (random : Nat → Nat)
    (fileContent : JSString) : Outcome Encrypted :=
  match W.importJwk keyData KeyUsage.encrypt with
  | .error e => .threw e
  | .ok key =>
    let iv := getRandomValues 12 random
    let data := textEncode fileContent
    let encryptedData := W.encrypt key iv data
    match combineBase64 maxArguments iv encryptedData with
    | .error e => .threw e
    | .ok base64 => .returned ⟨base64, keyIdOf keyData⟩

/-- The method `encryptFile(fileContent)`. `maxArguments` is the number of
arguments the engine takes in a call, `seed` the entropy of a key generation,
`random` the source `getRandomValues` reads. -/
def encryptFile (W : WebCrypto) (maxArguments : Nat) (db : DB) (seed : Nat)
    (random : Nat → Nat) (fileContent : JSString) : Outcome Encrypted × DB :=
  match getKey db with
  | (some keyData, db1) =>
    if keyData.truthy then (encryptWith W maxArguments keyData random fileContent, db1)
    else
      match generateKey W db1 seed with
      | (.returned generated, db2) => (encryptWith W maxArguments generated random fileContent, db2)
      | (.threw e, db2) => (.threw e, db2)
      | (.pending, db2) => (.pending, db2)
  | (none, db1) =>
    match generateKey W db1 seed with
    | (.returned generated, db2) => (encryptWith W maxArguments generated random fileContent, db2)
    | (.threw e, db2) => (.threw e, db2)
    | (.pending, db2) => (.pending, db2)

/-- The error `decryptFile` raises when no key is stored. -/
def keyNotFound : JSError := .error (js "Encryption key not found. Cannot decrypt.")

/-- The part of `decryptFile` after the key data is at hand. -/
def decryptWith (W : WebCrypto) (keyData : JSValue) (encryptedBase64 : JSString) :
    Outcome JSString :=
  match W.importJwk keyData KeyUsage.decrypt with
  | .error e => .threw e
  | .ok key =>
    match splitBase64 encryptedBase64 with
    | .error e => .threw e
    | .ok (iv, encryptedData) =>
      match W.decrypt key iv encryptedData with
      | none => .threw .operationError
      | some decryptedData => .returned (textDecode decryptedData)

/-- The method `decryptFile(encryptedBase64)`. -/
def decryptFile (W : WebCrypto) (db : DB) (encryptedBase64 : JSString) :
    Outcome JSString × DB :=
  match getKey db with
  | (some keyData, db1) =>
    if keyData.truthy then (decryptWith W keyData encryptedBase64, db1)
    else (.threw keyNotFound, db1)
  | (none, db1) => (.threw keyNotFound, db1)

/-- The error `exportKey` raises when no key is stored. -/
def noKeyToExport : JSError := .error (js "No key to export")

/-- The method `exportKey()`. -/
def exportKey (db : DB) : Outcome JSString × DB :=
  match getKey db with
  | (some keyData, db1) =>
    if keyData.truthy then
      match btoa keyData.stringify with
      | .ok base64Key => (.returned base64Key, db1)
      | .error e => (.threw e, db1)
    else (.threw noKeyToExport, db1)
  | (none, db1) => (.threw noKeyToExport, db1)

/-- The method `importKey(base64Key)`, `none` when the decoded text is outside
the value model (see `jsonParse`). The value returned is the object with the
one member `success: true`. -/
def importKey (db : DB) (base64Key : JSString) : Option (Outcome Unit × DB) :=
  match atob base64Key with
  | .error e => some (.threw e, db)
  | .ok keyJson =>
    match jsonParse keyJson with
    | none => none
    | some (.error e) => some (.threw e, db)
    | some (.ok keyData) =>
      match storeKey db keyData with
      | (.returned _, db1) => some (.returned (), db1)
      | (.threw e, db1) => some (.threw e, db1)
      | (.pending, db1) => some (.pending, db1)

/-! ## The content publisher (`ipfs.js`) -/

/-- The call `s.startsWith(p)`. -/
def startsWith (s p : JSString) : Bool := p.isPrefixOf s

/-- Decimal numeral of a natural number (`Date.now()` turned into a string). -/
def decimal (n : Nat) : JSString := (Nat.toDigits 10 n).map Char.toNat

/-- The page state the publisher touches. -/
structure Browser where
  /-- The entries of `localStorage`. -/
  localStorage : List (JSString × JSString)
  /-- The object `window._mockIPFS`, `none` while it is `undefined`. -/
  mockIPFS : Option (List (JSString × JSString))
  deriving DecidableEq, Repr

/-- Lookup in a string-keyed table. -/
def getEntry : List (JSString × JSString) → JSString → Option JSString
  | [], _ => none
  | (k, v) :: rest, name => if k = name then some v else getEntry rest name

/-- Assignment in a string-keyed table. -/
def setEntry : List (JSString × JSString) → JSString → JSString → List (JSString × JSString)
  | [], name, value => [(name, value)]
  | (k, v) :: rest, name, value =>
    if k = name then (k, value) :: rest else (k, v) :: setEntry rest name value

/-- The credentials the module reads from the environment when it loads. -/
structure Credentials where
  pinataApiKey : JSString
  pinataSecretKey : JSString
  deriving DecidableEq, Repr

/-- What the environment supplies to one `mockUpload` call. -/
structure MockEnv where
  /-- `Date.now()`. -/
  now : Nat
  /-- `Math.random().toString(36).substr(2, 9)`. -/
  randomSuffix : JSString
  /-- `new Date().toISOString()`. -/
  isoTime : JSString
  /-- Whether `localStorage.setItem` raises (quota exceeded). -/
  setItemThrows : Bool
  deriving DecidableEq, Repr

/-- The record `uploadEncryptedFile` returns. A member that the object does
not have, or whose value is `undefined`, is `none`. -/
structure UploadRecord where
  success : Bool
  ipfsHash : Option JSString
  pinSize : Option Nat
  timestamp : Option JSString
  url : JSString
  mock : Option Bool
  deriving DecidableEq, Repr

/-- The identifier `mockUpload` makes up. -/
def mockHashOf (env : MockEnv) : JSString :=
  js "Qmmock" ++ decimal env.now ++ env.randomSuffix

/-- The method `mockUpload(content)`. -/
def mockUpload (w : Browser) (env : MockEnv) (content : JSString) : UploadRecord × Browser :=
  let mockHash := mockHashOf env
  let storageKey := js "ipfs_" ++ mockHash
  let w1 : Browser :=
    if env.setItemThrows then
      { w with mockIPFS := some (setEntry (w.mockIPFS.getD []) mockHash content) }
    else { w with localStorage := setEntry w.localStorage storageKey content }
  (⟨true, some mockHash, some content.length, some env.isoTime, js "mock://ipfs/" ++ mockHash,
    some true⟩, w1)

/-- The names of the members an object literal inherits from `Object.prototype`. -/
def objectPrototypeNames : List JSString :=
  [js "constructor", js "__defineGetter__", js "__defineSetter__", js "hasOwnProperty",
    js "__lookupGetter__", js "__lookupSetter__", js "isPrototypeOf",
    js "propertyIsEnumerable", js "toString", js "valueOf", js "__proto__",
    js "toLocaleString"]

/-- The content of a downloaded record: a string, or the member of
`Object.prototype` that a lookup in `window._mockIPFS` finds under an inherited
name. -/
inductive Content where
  | text (s : JSString)
  | inherited (name : JSString)
  deriving DecidableEq, Repr

/-- The record `downloadEncryptedFile` returns. -/
structure DownloadRecord where
  success : Bool
  content : Content
  mock : Option Bool
  deriving DecidableEq, Repr

/-- The expression `window._mockIPFS[name]` on the object literal `mockUpload`
creates: the entry stored under the name, else the member inherited under it,
else `undefined`. -/
def memberOf (table : List (JSString × JSString)) (name : JSString) : Option Content :=
  match getEntry table name with
  | some value => some (.text value)
  | none => if name ∈ objectPrototypeNames then some (.inherited name) else none

/-- The condition `!content` for a string that may be `null` or `undefined`. -/
def isBlank : Option JSString → Bool
  | none => true
  | some s => s.isEmpty

/-- The method `mockDownload(ipfsHash)`. -/
def mockDownload (w : Browser) (ipfsHash : JSString) : Outcome DownloadRecord :=
  let storageKey := js "ipfs_" ++ ipfsHash
  let stored := getEntry w.localStorage storageKey
  let content : Option Content :=
    match w.mockIPFS with
    | some table => if isBlank stored then memberOf table ipfsHash else stored.map .text
    | none => stored.map .text
  match content with
  | some (.text text) =>
    if text.isEmpty then .threw (.error (js "Mock IPFS file not found: " ++ ipfsHash))
    else .returned ⟨true, .text text, some true⟩
  | some (.inherited name) => .returned ⟨true, .inherited name, some true⟩
  | none => .threw (.error (js "Mock IPFS file not found: " ++ ipfsHash))

/-- What `response.json()` gives for the answer of the pinning service. -/
inductive PinBody where
  /-- The body is not JSON: `json()` rejects. -/
  | unreadable
  /-- The body is `null`: reading `result.IpfsHash` raises a `TypeError`. -/
  | nullish
  /-- An object with the members `IpfsHash`, `PinSize`, `Timestamp` it has. -/
  | result (ipfsHash : Option JSString) (pinSize : Option Nat) (timestamp : Option JSString)
  deriving DecidableEq, Repr

/-- How a `fetch` ends: rejected (network error), or a response with its `ok`,
its `statusText` and its body. -/
inductive FetchResult (β : Type) where
  | rejected
  | response (ok : Bool) (statusText : JSString) (body : β)
  deriving DecidableEq, Repr

/-- Whether both credentials are non-empty. -/
def Credentials.configured (c : Credentials) : Bool :=
  !c.pinataApiKey.isEmpty && !c.pinataSecretKey.isEmpty

/-- The `try` block of `uploadEncryptedFile`. `pin` is the answer the pinning
service gives to the request, should it be sent. -/
def uploadTry (c : Credentials) (w : Browser) (env : MockEnv) (pin : FetchResult PinBody)
    (encryptedContent : JSString) (metadata : JSValue) : Outcome UploadRecord × Browser :=
  if !c.configured then
    (.returned (mockUpload w env encryptedContent).1, (mockUpload w env encryptedContent).2)
  else
    match metadata with
    | .null => (.threw .typeError, w)
    | _ =>
      match pin with
      | .rejected => (.threw .networkError, w)
      | .response ok statusText body =>
        if !ok then (.threw (.error (js "IPFS upload failed: " ++ statusText)), w)
        else
          match body with
          | .unreadable => (.threw .syntaxError, w)
          | .nullish => (.threw .typeError, w)
          | .result ipfsHash pinSize timestamp =>
            (.returned ⟨true, ipfsHash, pinSize, timestamp,
              js "https://gateway.pinata.cloud/ipfs/" ++ ipfsHash.getD (js "undefined"), none⟩, w)

/-- The method `uploadEncryptedFile(encryptedContent, metadata)`: the `catch`
block answers every exception of the `try` block with `mockUpload`. -/
def uploadEncryptedFile (c : Credentials) (w : Browser) (env : MockEnv)
    (pin : FetchResult PinBody) (encryptedContent : JSString) (metadata : JSValue) :
    Outcome UploadRecord × Browser :=
  match uploadTry c w env pin encryptedContent metadata with
  | (.threw _, w1) => (.returned (mockUpload w1 env encryptedContent).1,
      (mockUpload w1 env encryptedContent).2)
  | r => r

/-- What `downloadEncryptedFile` does to the outside, in order. -/
inductive Event where
  /-- A `fetch` of the URL. -/
  | fetch (url : JSString)
  /-- A `mockDownload` call: a read of the local fallback store. -/
  | localRead (ipfsHash : JSString)
  deriving DecidableEq, Repr

/-- URL of an identifier on the Pinata gateway. -/
def primaryUrl (ipfsHash : JSString) : JSString := js "https://gateway.pinata.cloud/ipfs/" ++ ipfsHash

/-- URL of an identifier on the public gateway. -/
def alternateUrl (ipfsHash : JSString) : JSString := js "https://ipfs.io/ipfs/" ++ ipfsHash

/-- The answers of the two gateways for an identifier, should they be asked.
The body is what `response.text()` gives, `none` when it rejects. -/
structure Gateways where
  primary : FetchResult (Option JSString)
  alternate : FetchResult (Option JSString)
  deriving DecidableEq, Repr

/-- The statements of `downloadEncryptedFile` from the second test of
`response.ok` on, for the response at hand. -/
def downloadFinish (w : Browser) (ipfsHash : JSString) (trace : List Event) :
    FetchResult (Option JSString) → Outcome DownloadRecord × List Event
  | .rejected => (.threw .networkError, trace)
  | .response ok statusText body =>
    if !ok then
      if startsWith ipfsHash (js "Qmmock") then
        (mockDownload w ipfsHash, trace ++ [.localRead ipfsHash])
      else (.threw (.error (js "IPFS download failed: " ++ statusText)), trace)
    else
      match body with
      | some text => (.returned ⟨true, .text text, none⟩, trace)
      | none => (.threw .networkError, trace)

/-- The `try` block of `downloadEncryptedFile`, with the trace of its fetches
and local reads. -/
def downloadTry (w : Browser) (g : Gateways) (ipfsHash : JSString) :
    Outcome DownloadRecord × List Event :=
  match g.primary with
  | .rejected => (.threw .networkError, [.fetch (primaryUrl ipfsHash)])
  | .response ok statusText body =>
    if !ok then
      downloadFinish w ipfsHash [.fetch (primaryUrl ipfsHash), .fetch (alternateUrl ipfsHash)]
        g.alternate
    else
      downloadFinish w ipfsHash [.fetch (primaryUrl ipfsHash)] (.response ok statusText body)

/-- The method `downloadEncryptedFile(ipfsHash)`: after an exception of the
`try` block, the `catch` block reads the local store for an identifier that
starts with `Qmmock` and raises the exception again for any other. -/
def downloadEncryptedFile (w : Browser) (g : Gateways) (ipfsHash : JSString) :
    Outcome DownloadRecord × List Event :=
  match downloadTry w g ipfsHash with
  | (.threw e, trace) =>
    if startsWith ipfsHash (js "Qmmock") then
      (mockDownload w ipfsHash, trace ++ [.localRead ipfsHash])
    else (.threw e, trace)
  | r => r

/-! ## Call sequences on the key store -/

/-- A call of one of the methods that write to the key store. -/
inductive Call where
  | generateKey (seed : Nat)
  | encryptFile (seed : Nat) (random : Nat → Nat) (fileContent : JSString)
  | importKey (base64Key : JSString)
  | deleteKey

/-- The database after a call, `none` when the call is outside the model (see
`importKey`). A call whose promise stays pending has still written what it
wrote before. -/
def runCall (W : WebCrypto) (maxArguments : Nat) (db : DB) : Call → Option DB
  | .generateKey seed => some (generateKey W db seed).2
  | .encryptFile seed random fileContent =>
    some (encryptFile W maxArguments db seed random fileContent).2
  | .importKey base64Key => (importKey db base64Key).map (·.2)
  | .deleteKey => some (deleteKey db).2

/-- The database after a sequence of calls. -/
def runCalls (W : WebCrypto) (maxArguments : Nat) : DB → List Call → Option DB
  | db, [] => some db
  | db, c :: rest =>
    match runCall W maxArguments db c with
    | some db1 => runCalls W maxArguments db1 rest
    | none => none

/-- The `kid` an `importKey` call would hand to `storeKey` is absent, falsy or
`"default"`. -/
def DefaultKid : Call → Prop
  | .importKey base64Key => ∀ keyJson keyData, atob base64Key = .ok keyJson →
      jsonParse keyJson = some (.ok keyData) →
      isTruthy (kidOf keyData) = false ∨ kidOf keyData = some (.str (js "default"))
  | _ => True

/-! ## Bit flips -/

/-- The list with bit `bit` of its element at `pos` inverted. -/
def flipBit : List Nat → Nat → Nat → List Nat
  | [], _, _ => []
  | x :: rest, 0, bit => (if x / 2 ^ bit % 2 = 0 then x + 2 ^ bit else x - 2 ^ bit) :: rest
  | x :: rest, pos + 1, bit => x :: flipBit rest pos bit

/-- The authentication of AES-GCM, for changes of one bit: when one bit of the
initialisation vector, of the ciphertext or of the tag is inverted, decryption
under the key of the encryption fails. -/
def WebCrypto.Authentic (W : WebCrypto) : Prop :=
  ∀ key iv data pos bit, iv.length = 12 → IsBytes data → bit < 8 →
    pos < (iv ++ W.encrypt key iv data).length →
    W.decrypt key ((flipBit (iv ++ W.encrypt key iv data) pos bit).take 12)
      ((flipBit (iv ++ W.encrypt key iv data) pos bit).drop 12) = none

/-! ## A small implementation of the Web Crypto interface

It instantiates `WebCrypto` where a statement needs a concrete value: the
plaintext is left as it is and followed by a 16-byte checksum of key,
initialisation vector and data. -/

/-- The 16-byte tag of the sample cipher. -/
def sampleTag (key iv data : List Nat) : List Nat :=
  List.replicate 16 ((key.sum + iv.sum + data.sum) % 256)

/-- Decryption of the sample cipher: the tag is split off and checked. -/
def sampleDecrypt (key iv data : List Nat) : Option (List Nat) :=
  if 16 ≤ data.length ∧
      data.drop (data.length - 16) = sampleTag key iv (data.take (data.length - 16)) then
    some (data.take (data.length - 16))
  else none

/-- Members of the JSON Web Key the sample implementation exports. -/
def sampleJwk (seed : Nat) : List (JSString × JSValue) :=
  [(js "alg", .str (js "A256GCM")), (js "ext", .bool true), (js "k", .str (decimal seed)),
    (js "key_ops", .arr [.str (js "encrypt"), .str (js "decrypt")] []),
    (js "kty", .str (js "oct"))]

/-- Key import of the sample implementation: the member `k` of an object. -/
def sampleImport (keyData : JSValue) (_usage : KeyUsage) : Except JSError (List Nat) :=
  match keyData with
  | .obj props =>
    match getProp props (js "k") with
    | some (.str k) => .ok k
    | _ => .error .dataError
  | _ => .error .dataError

/-- The sample implementation. -/
def sampleCrypto : WebCrypto where
  generateJwk := sampleJwk
  importJwk := sampleImport
  encrypt := fun key iv data => uint8Array data ++ sampleTag key iv (uint8Array data)
  decrypt := sampleDecrypt

/-! ## The ledger client (`aptos.js`) -/

/-- A value the ledger node or a wallet hands back where the code reads it
without looking at its type: an analysis identifier, a status code. Numbers are
the integers (below 10^21 in magnitude, where JavaScript writes all digits). -/
inductive LedgerValue where
  | int (n : Int)
  | str (s : JSString)
  | bool (b : Bool)
  | null
  | undefined
  deriving DecidableEq, Repr

/-- The two wallets the page looks for: `window.aptos` (Petra) and
`window.martian` (Martian). -/
inductive WalletKind where
  | petra
  | martian
  deriving DecidableEq, Repr

/-- The object `connect()` and `account()` of a wallet resolve to. -/
structure WalletAccount where
  address : Option JSString
  publicKey : Option JSString
  deriving DecidableEq, Repr

/-- The transaction payload `requestAnalysis` builds. -/
structure Payload where
  type : JSString
  function : JSString
  typeArguments : List JSString
  arguments : List (Option JSString)
  deriving DecidableEq, Repr

/-- A wallet object, by what its methods answer. A promise that resolves to
`null` or `undefined` is `returned none`. -/
structure Wallet where
  connect : Outcome (Option WalletAccount)
  account : Outcome (Option WalletAccount)
  /-- The member `hash` of the pending transaction, `none` when it has none. -/
  signAndSubmitTransaction : Payload → Outcome (Option (Option JSString))

/-- The wallets installed in the page. -/
structure Wallets where
  aptos : Option Wallet
  martian : Option Wallet

/-- An event of a transaction. `type` is `none` when the event has no `type`
or one without a method `includes` (a `type` that is an array is not among the
values modelled); `data` is `none` when it has no `data`, and otherwise holds
`data.analysis_id`, which is `undefined` when `data` has no such member. -/
structure TxnEvent where
  type : Option JSString
  data : Option LedgerValue
  deriving DecidableEq, Repr

/-- A transaction as `getTransactionByHash` returns it. -/
inductive Txn where
  /-- The value is `null` or `undefined`. -/
  | nullish
  /-- An object whose `events` is truthy and not an array: it has no method
  `find`. -/
  | noEventList
  /-- An object; `events` is `none` when it has no `events` or a falsy one, and
  an element of the list is `none` when it is `null`. -/
  | value (events : Option (List (Option TxnEvent)))
  deriving DecidableEq, Repr

/-- The ledger node, by what the calls of the SDK client answer. -/
structure LedgerClient where
  /-- `generateTransaction(sender, payload, options)`: `returned false` is a
  result that is `null` or `undefined`. -/
  generateTransaction : JSString → Payload → Outcome Bool
  waitForTransaction : JSString → Outcome Unit
  getTransactionByHash : JSString → Outcome Txn
  /-- `view(payload)` for the function named; `returned none` is `null`. -/
  view : JSString → LedgerValue → Outcome (Option (List LedgerValue))

/-- A call `aptos.js` makes to a wallet or to the ledger node. -/
inductive LedgerCall where
  | connect (wallet : WalletKind)
  | account (wallet : WalletKind)
  | signAndSubmitTransaction (wallet : WalletKind) (payload : Payload)
  | generateTransaction (sender : JSString) (payload : Payload)
  | waitForTransaction (hash : JSString)
  | getTransactionByHash (hash : JSString)
  | view (function : JSString) (argument : LedgerValue)
  deriving DecidableEq, Repr

/-- The call is made to the ledger node. -/
def LedgerCall.toNode : LedgerCall → Bool
  | .generateTransaction _ _ => true
  | .waitForTransaction _ => true
  | .getTransactionByHash _ => true
  | .view _ _ => true
  | _ => false

/-- The call `s.includes(p)`. -/
def includes : JSString → JSString → Bool
  | [], p => p.isEmpty
  | c :: rest, p => startsWith (c :: rest) p || includes rest p

/-- The condition `!s` for a string that may be `undefined`. -/
def isFalsyString : Option JSString → Bool
  | none => true
  | some s => s.isEmpty

/-- The record `connectWallet` returns. -/
structure Connection where
  address : JSString
  publicKey : Option JSString
  connected : Bool
  walletType : JSString
  deriving DecidableEq, Repr

/-- The error `connectWallet` raises when no wallet is installed. -/
def noWalletFound : JSError :=
  .error (js "No Aptos wallet found. Please install Petra (https://petra.app) or Martian (https://martianwallet.xyz)")

/-- The part of `connectWallet` for one wallet: `connect()`, the test of the
response, the record. -/
def connectWith (kind : WalletKind) (wallet : Wallet) (walletType failure : JSString) :
    Outcome Connection × List LedgerCall :=
  match wallet.connect with
  | .threw e => (.threw e, [.connect kind])
  | .pending => (.pending, [.connect kind])
  | .returned none => (.threw (.error failure), [.connect kind])
  | .returned (some response) =>
    match response.address with
    | none => (.threw (.error failure), [.connect kind])
    | some address =>
      if address.isEmpty then (.threw (.error failure), [.connect kind])
      else (.returned ⟨address, response.publicKey, true, walletType⟩, [.connect kind])

/-- The method `connectWallet()`, with the calls it makes. -/
def connectWallet (w : Wallets) : Outcome Connection × List LedgerCall :=
  match w.aptos with
  | some wallet =>
    connectWith .petra wallet (js "petra") (js "Failed to get address from Petra wallet")
  | none =>
    match w.martian with
    | some wallet =>
      connectWith .martian wallet (js "martian") (js "Failed to get address from Martian wallet")
    | none => (.threw noWalletFound, [])

/-- The call `txn.events.find((e) => e.type.includes("AnalysisRequestedEvent"))`:
`some none` when no event is found (`undefined`), `none` when the callback
raises a `TypeError` (an event on the way is `null` or has no string `type`). -/
def findRequestEvent : List (Option TxnEvent) → Option (Option TxnEvent)
  | [] => some none
  | none :: _ => none
  | some e :: rest =>
    match e.type with
    | none => none
    | some t => if includes t (js "AnalysisRequestedEvent") then some (some e) else findRequestEvent rest

/-- The method `extractAnalysisIdFromTransaction(txn)`. A `TypeError` inside the
`try` block (the transaction is `null`, `events` has no `find`, the search
raises, the event found has no `data`) ends in `null`. -/
def extractAnalysisIdFromTransaction : Txn → LedgerValue
  | .nullish => .null
  | .noEventList => .null
  | .value none => .null
  | .value (some events) =>
    match findRequestEvent events with
    | none => .null
    | some none => .null
    | some (some e) =>
      match e.data with
      | none => .null
      | some analysisId => analysisId

/-- The record `requestAnalysis` returns. -/
structure AnalysisRecord where
  success : Bool
  transactionHash : JSString
  analysisId : LedgerValue
  mock : Option Bool
  message : Option JSString
  deriving DecidableEq, Repr

/-- The condition under which `requestAnalysis` takes the contract for not
deployed: the address is the placeholder, missing or empty, or shorter than
10 characters. -/
def unconfigured : Option JSString → Bool
  | none => true
  | some address => address == js "0x..." || address.isEmpty || decide (address.length < 10)

/-- The payload of `requestAnalysis`. -/
def requestPayload (contract : JSString) (encryptedFileHash : Option JSString) : Payload :=
  ⟨js "entry_function_payload", contract ++ js "::privacy_analysis::request_analysis", [],
    [encryptedFileHash]⟩

/-- The statements of `requestAnalysis` after the hash of the pending
transaction is at hand. -/
def confirmAnalysis (client : LedgerClient) (txHash : JSString)
    (trace : List LedgerCall) : Outcome AnalysisRecord × List LedgerCall :=
  match client.waitForTransaction txHash with
  | .threw e => (.threw e, trace ++ [.waitForTransaction txHash])
  | .pending => (.pending, trace ++ [.waitForTransaction txHash])
  | .returned _ =>
    match client.getTransactionByHash txHash with
    | .threw e =>
      (.threw e, trace ++ [.waitForTransaction txHash, .getTransactionByHash txHash])
    | .pending =>
      (.pending, trace ++ [.waitForTransaction txHash, .getTransactionByHash txHash])
    | .returned txn =>
      (.returned ⟨true, txHash, extractAnalysisIdFromTransaction txn, none, none⟩,
        trace ++ [.waitForTransaction txHash, .getTransactionByHash txHash])

/-- The statements of `requestAnalysis` for a deployed contract, from
`wallet.account()` on. -/
def submitAnalysis (client : LedgerClient) (kind : WalletKind) (wallet : Wallet)
    (payload : Payload) : Outcome AnalysisRecord × List LedgerCall :=
  match wallet.account with
  | .threw e => (.threw e, [.account kind])
  | .pending => (.pending, [.account kind])
  | .returned account =>
    match account.bind (·.address) with
    | none =>
      (.threw (.error (js "Wallet not connected. Please connect your wallet first.")),
        [.account kind])
    | some address =>
      if address.isEmpty then
        (.threw (.error (js "Wallet not connected. Please connect your wallet first.")),
          [.account kind])
      else
        match client.generateTransaction address payload with
        | .threw e => (.threw e, [.account kind, .generateTransaction address payload])
        | .pending => (.pending, [.account kind, .generateTransaction address payload])
        | .returned false =>
          (.threw .typeError, [.account kind, .generateTransaction address payload])
        | .returned true =>
          match wallet.signAndSubmitTransaction payload with
          | .threw e =>
            (.threw e, [.account kind, .generateTransaction address payload,
              .signAndSubmitTransaction kind payload])
          | .pending =>
            (.pending, [.account kind, .generateTransaction address payload,
              .signAndSubmitTransaction kind payload])
          | .returned none =>
            (.threw .typeError, [.account kind, .generateTransaction address payload,
              .signAndSubmitTransaction kind payload])
          | .returned (some hash) =>
            match hash with
            | none =>
              (.threw (.error (js "Failed to get transaction hash")),
                [.account kind, .generateTransaction address payload,
                  .signAndSubmitTransaction kind payload])
            | some txHash =>
              if txHash.isEmpty then
                (.threw (.error (js "Failed to get transaction hash")),
                  [.account kind, .generateTransaction address payload,
                    .signAndSubmitTransaction kind payload])
              else
                confirmAnalysis client txHash
                  [.account kind, .generateTransaction address payload,
                    .signAndSubmitTransaction kind payload]

/-- The wallet `window.aptos || window.martian`. -/
def anyWallet (w : Wallets) : Option (WalletKind × Wallet) :=
  match w.aptos with
  | some wallet => some (.petra, wallet)
  | none =>
    match w.martian with
    | some wallet => some (.martian, wallet)
    | none => none

/-- The record `requestAnalysis` returns while the contract is not deployed. -/
def mockAnalysis (now : Nat) : AnalysisRecord :=
  ⟨true, js "0xmock" ++ decimal now, .int 1, some true,
    some (js "Mock transaction (contract not deployed). Deploy contract to use real blockchain.")⟩

/-- The method `requestAnalysis(encryptedFileHash)`, with the calls it makes.
`contract` is the constant `CONTRACT_ADDRESS`, `now` is `Date.now()`. -/
def requestAnalysis (w : Wallets) (contract : Option JSString) (client : LedgerClient)
    (now : Nat) (encryptedFileHash : Option JSString) :
    Outcome AnalysisRecord × List LedgerCall :=
  match anyWallet w with
  | none =>
    (.threw (.error (js "No Aptos wallet connected. Please install Petra or Martian.")), [])
  | some (kind, wallet) =>
    match contract with
    | none => (.returned (mockAnalysis now), [])
    | some address =>
      if unconfigured (some address) then (.returned (mockAnalysis now), [])
      else submitAnalysis client kind wallet (requestPayload address encryptedFileHash)

/-- The string a value has as a property key (`ToString`). -/
def propertyKey : LedgerValue → JSString
  | .int n => if n < 0 then 45 :: decimal n.natAbs else decimal n.toNat
  | .str s => s
  | .bool b => if b then js "true" else js "false"
  | .null => js "null"
  | .undefined => js "undefined"

/-- What `getAnalysisStatus` returns: a string, or a member of
`Object.prototype` (a function, or for `__proto__` the prototype itself). -/
inductive StatusResult where
  | text (s : JSString)
  | inherited (name : JSString)
  deriving DecidableEq, Repr

/-- The expression `statusMap[v] || "UNKNOWN"`. -/
def statusOf (v : LedgerValue) : StatusResult :=
  if propertyKey v = js "0" then .text (js "PENDING")
  else if propertyKey v = js "1" then .text (js "PROCESSING")
  else if propertyKey v = js "2" then .text (js "COMPLETED")
  else if propertyKey v = js "3" then .text (js "FAILED")
  else if propertyKey v ∈ objectPrototypeNames then .inherited (propertyKey v)
  else .text (js "UNKNOWN")

/-- The name of a function of the contract module, `CONTRACT_ADDRESS` being
possibly `undefined`. -/
def moduleFunction (contract : Option JSString) (name : JSString) : JSString :=
  contract.getD (js "undefined") ++ js "::privacy_analysis::" ++ name

/-- The method `getAnalysisStatus(analysisId)`, with the calls it makes. -/
def getAnalysisStatus (contract : Option JSString) (client : LedgerClient)
    (analysisId : LedgerValue) : Outcome StatusResult × List LedgerCall :=
  match client.view (moduleFunction contract (js "get_analysis_status")) analysisId with
  | .threw e => (.threw e, [.view (moduleFunction contract (js "get_analysis_status")) analysisId])
  | .pending => (.pending, [.view (moduleFunction contract (js "get_analysis_status")) analysisId])
  | .returned none =>
    (.threw .typeError, [.view (moduleFunction contract (js "get_analysis_status")) analysisId])
  | .returned (some status) =>
    (.returned (statusOf (status.head?.getD .undefined)),
      [.view (moduleFunction contract (js "get_analysis_status")) analysisId])

/-! ## Pinning and hashing -/

/-- The record `pinFile` returns; `error` is the exception whose message the
record carries. -/
structure PinRecord where
  success : Bool
  message : Option JSString
  error : Option JSError
  deriving DecidableEq, Repr

/-- URL of the pin-by-hash request. -/
def pinByHashUrl : JSString := js "https://api.pinata.cloud/pinning/pinByHash"

/-- The `try` block of `pinFile`. `pin` is the answer of the pinning service to
the request, should it be sent. -/
def pinTry (c : Credentials) (pin : FetchResult Unit) : Outcome PinRecord × List Event :=
  if !c.configured then (.returned ⟨true, some (js "Mock pinning successful"), none⟩, [])
  else
    match pin with
    | .rejected => (.threw .networkError, [.fetch pinByHashUrl])
    | .response ok statusText _ =>
      if !ok then (.threw (.error (js "Pin failed: " ++ statusText)), [.fetch pinByHashUrl])
      else (.returned ⟨true, some (js "File pinned successfully"), none⟩, [.fetch pinByHashUrl])

/-- The method `pinFile(ipfsHash)`, with the requests it makes. The identifier
goes into the body of the request and nowhere else. -/
def pinFile (c : Credentials) (pin : FetchResult Unit) (_ipfsHash : JSString) :
    Outcome PinRecord × List Event :=
  match pinTry c pin with
  | (.threw e, trace) => (.returned ⟨false, none, some e⟩, trace)
  | r => r

/-- The call `n.toString(16)`. -/
def toString16 (n : Nat) : JSString := (Nat.toDigits 16 n).map Char.toNat

/-- The call `s.padStart(2, "0")`. -/
def padStart2 (s : JSString) : JSString := List.replicate (2 - s.length) 48 ++ s

/-- The method `generateHash(content)`; `sha256` is
`crypto.subtle.digest("SHA-256", …)`. -/
def generateHash (sha256 : List Nat → List Nat) (content : JSString) : JSString :=
  (uint8Array (sha256 (textEncode content))).flatMap fun b => padStart2 (toString16 b)

/-! ## The upload page (`Upload.jsx`) -/

/-- A file the user drops: its name, its size in bytes. -/
structure File where
  name : JSString
  size : Nat
  deriving DecidableEq, Repr

/-- The second argument of `analysisAPI.upload` in the blockchain path. -/
structure BlockchainData where
  blockchain : Bool
  ipfsHash : Option JSString
  txHash : JSString
  analysisId : LedgerValue
  mock : Bool
  deriving DecidableEq, Repr

/-- The services the page calls, by what each call answers. -/
structure Services where
  /-- `readFileAsText(file)`: the text the `FileReader` loads. -/
  readFileAsText : File → Outcome JSString
  encryptFile : JSString → Outcome Encrypted
  /-- `uploadEncryptedFile(content, { filename, size })`. -/
  uploadEncryptedFile : JSString → JSString → Nat → Outcome UploadRecord
  requestAnalysis : Option JSString → Outcome AnalysisRecord
  /-- `analysisAPI.upload(file, data)`: `returned none` is a response without
  `data`, `returned (some id)` one whose `data.analysis_id` is `id`. -/
  upload : File → Option BlockchainData → Outcome (Option LedgerValue)

/-- What the upload handler does, in order. -/
inductive Step where
  | toastError (message : JSString)
  /-- The `toast.error` of the `catch` block, for the exception caught. -/
  | toastFailure (e : JSError)
  | toastSuccess (message : JSString)
  | setUploading (value : Bool)
  | readFile (file : File)
  | encrypt (fileContent : JSString)
  | publish (content : JSString) (filename : JSString) (size : Nat)
  | attest (fileHash : Option JSString)
  | backendUpload (file : File) (data : Option BlockchainData)
  | setAnalysisId (id : LedgerValue)
  deriving DecidableEq, Repr

/-- The step is a stage of the pipeline: a file read, an encryption, a
publication, an attestation or a backend upload. -/
def Step.isStage : Step → Bool
  | .readFile _ => true
  | .encrypt _ => true
  | .publish _ _ _ => true
  | .attest _ => true
  | .backendUpload _ _ => true
  | _ => false

/-- The call `s.endsWith(p)`. -/
def endsWith (s p : JSString) : Bool := p.isSuffixOf s

/-- The statements after `analysisAPI.upload` has answered: the analysis
identifier is taken from `response.data` and shown. -/
def finishUpload (message : JSString) (trace : List Step) :
    Outcome (Option LedgerValue) → Outcome Unit × List Step
  | .threw e => (.threw e, trace)
  | .pending => (.pending, trace)
  | .returned none => (.threw .typeError, trace)
  | .returned (some id) => (.returned (), trace ++ [.setAnalysisId id, .toastSuccess message])

/-- The function `handleTraditionalUpload(file)`. -/
def handleTraditionalUpload (s : Services) (file : File) : Outcome Unit × List Step :=
  finishUpload (js "File uploaded successfully! Analysis started.")
    [.backendUpload file none] (s.upload file none)

/-- The function `handleBlockchainUpload(file)`. The progress texts and the
notice shown before the wallet is asked are not among the steps. -/
def handleBlockchainUpload (s : Services) (file : File) : Outcome Unit × List Step :=
  match s.readFileAsText file with
  | .threw e => (.threw e, [.readFile file])
  | .pending => (.pending, [.readFile file])
  | .returned fileContent =>
    match s.encryptFile fileContent with
    | .threw e => (.threw e, [.readFile file, .encrypt fileContent])
    | .pending => (.pending, [.readFile file, .encrypt fileContent])
    | .returned enc =>
      match s.uploadEncryptedFile enc.encrypted file.name file.size with
      | .threw e =>
        (.threw e, [.readFile file, .encrypt fileContent,
          .publish enc.encrypted file.name file.size])
      | .pending =>
        (.pending, [.readFile file, .encrypt fileContent,
          .publish enc.encrypted file.name file.size])
      | .returned ipfsResult =>
        match s.requestAnalysis ipfsResult.ipfsHash with
        | .threw e =>
          (.threw e, [.readFile file, .encrypt fileContent,
            .publish enc.encrypted file.name file.size, .attest ipfsResult.ipfsHash])
        | .pending =>
          (.pending, [.readFile file, .encrypt fileContent,
            .publish enc.encrypted file.name file.size, .attest ipfsResult.ipfsHash])
        | .returned txResult =>
          finishUpload (js "✅ Blockchain-secured analysis started!")
            [.readFile file, .encrypt fileContent,
              .publish enc.encrypted file.name file.size, .attest ipfsResult.ipfsHash,
              .backendUpload file
                (some ⟨true, ipfsResult.ipfsHash, txResult.transactionHash, txResult.analysisId,
                  txResult.mock.getD false⟩)]
            (s.upload file
              (some ⟨true, ipfsResult.ipfsHash, txResult.transactionHash, txResult.analysisId,
                txResult.mock.getD false⟩))

/-- The handler `onDrop(acceptedFiles)`, for the page state `useBlockchain`,
`walletConnected`: `true` when the handler runs to its end, `false` when it
waits for ever on a promise, and the steps it takes. -/
def onDrop (s : Services) (useBlockchain walletConnected : Bool) (acceptedFiles : List File) :
    Bool × List Step :=
  match acceptedFiles with
  | [] => (true, [.toastError (js "No file selected")])
  | file :: _ =>
    if !endsWith file.name (js ".vcf") then (true, [.toastError (js "Please upload a VCF file")])
    else
      match (if useBlockchain && walletConnected then handleBlockchainUpload s file
          else handleTraditionalUpload s file) with
      | (.returned _, trace) => (true, .setUploading true :: trace ++ [.setUploading false])
      | (.threw e, trace) =>
        (true, .setUploading true :: trace ++ [.toastFailure e, .setUploading false])
      | (.pending, trace) => (false, .setUploading true :: trace)

/-- The option `maxSize` of the dropzone, in bytes. -/
def maxSize : Nat := 100 * 1024 * 1024

/-- The files the dropzone hands to `onDrop` as `acceptedFiles`, for the
options `accept`, `maxFiles: 1` and `maxSize`: the files of an accepted type
that are not larger than `maxSize`, and none of them when they are more than
one. `acceptsType` is the test of a file against `accept`. -/
def dropzoneAccepted (acceptsType : File → Bool) (files : List File) : List File :=
  if ((files.filter fun f => acceptsType f && decide (f.size ≤ maxSize)).length ≤ 1) then
    files.filter fun f => acceptsType f && decide (f.size ≤ maxSize)
  else []

/-- A drop of files on the page: the dropzone, then `onDrop`. -/
def dropFiles (s : Services) (useBlockchain walletConnected : Bool) (acceptsType : File → Bool)
    (files : List File) : Bool × List Step :=
  onDrop s useBlockchain walletConnected (dropzoneAccepted acceptsType files)

/-! ## Definitions used in the proofs -/

/-- The 6-bit values base64 writes for a byte sequence, without padding. -/
def base64Sextets : List Nat → List Nat
  | [] => []
  | [a] => [a / 4, a % 4 * 16]
  | [a, b] => [a / 4, a % 4 * 16 + b / 16, b % 16 * 4]
  | a :: b :: c :: rest =>
    a / 4 :: (a % 4 * 16 + b / 16) :: (b % 16 * 4 + c / 64) :: c % 64 :: base64Sextets rest

/-- A Unicode scalar value: a code point that is not a surrogate. -/
def IsScalar (c : Nat) : Prop := c < 0x110000 ∧ ¬ (0xD800 ≤ c ∧ c ≤ 0xDFFF)

/-- The record `storeKey` writes for a key that `generateKey` exported: the
exported members and `kid: "default"`. -/
def storedKey (W : WebCrypto) (seed : Nat) : JSValue :=
  .obj (setProp (W.generateJwk seed) (js "kid") (.str (js "default")))

/-- The store the sample implementation leaves after its first `encryptFile`. -/
def sampleStore : DB := .keys [(defaultKey, storedKey sampleCrypto 7)]

/-- The gateway does not deliver: the `fetch` is rejected or the response is not OK. -/
def FetchResult.failed {β : Type} : FetchResult β → Bool
  | .rejected => true
  | .response ok _ _ => !ok

/-- The store holds no record, or one record, under `"default"`, whose `kid`
is `"default"`. -/
def SingleDefaultKey (db : DB) : Prop :=
  db.records = [] ∨
    ∃ K, db.records = [(defaultKey, K)] ∧ kidOf K = some (.str (js "default"))

/-- What `parseStringBody` does with one more character in front. -/
def consParsed (u : Nat) : Parsed JSString → Parsed JSString
  | .ok s r => .ok (u :: s) r
  | e => e

/-- A property named `k`, added to an object whose properties are named
`seen`, is new and goes last. -/
def keyFollows (seen : List JSString) (k : JSString) : Bool :=
  decide (k ∉ seen) &&
    match arrayIndex k with
    | none => true
    | some i =>
      seen.all fun k1 =>
        match arrayIndex k1 with
        | some j => decide (j < i)
        | none => false

/-- The properties are in the order in which an object lists them after the
properties named `seen`: no name twice, array indices first and ascending. -/
def canonicalFrom (seen : List JSString) : List (JSString × JSValue) → Bool
  | [] => true
  | (k, _) :: rest => keyFollows seen k && canonicalFrom (seen ++ [k]) rest

mutual
/-- The value is one `JSON.parse` can return: strings are made of 16-bit code
units, arrays have no named properties, properties are in object order. -/
def JSValue.isPlain : JSValue → Bool
  | .null => true
  | .bool _ => true
  | .str s => decide (IsJSString s)
  | .arr items props => props.isEmpty && isPlainItems items
  | .obj props => canonicalFrom [] props && isPlainProps props
/-- Every element is plain. -/
def isPlainItems : List JSValue → Bool
  | [] => true
  | v :: rest => v.isPlain && isPlainItems rest
/-- Every property has a 16-bit name and a plain value. -/
def isPlainProps : List (JSString × JSValue) → Bool
  | [] => true
  | (k, v) :: rest => decide (IsJSString k) && v.isPlain && isPlainProps rest
end

/-- A character a JSON text of a value can begin with. -/
def IsValueHead (c : Nat) : Prop :=
  c = 110 ∨ c = 116 ∨ c = 102 ∨ c = 34 ∨ c = 91 ∨ c = 123

/-- A wallet that answers every call: the account `0xabc`, the transaction
hash `0xtx1`. -/
def sampleWallet : Wallet where
  connect := .returned (some ⟨some (js "0xabc"), some (js "0xpub")⟩)
  account := .returned (some ⟨some (js "0xabc"), some (js "0xpub")⟩)
  signAndSubmitTransaction := fun _ => .returned (some (some (js "0xtx1")))

/-- A ledger node that answers every call; the transaction carries one
request event with the analysis identifier `"7"`, the view returns `status`. -/
def sampleClient (status : LedgerValue) : LedgerClient where
  generateTransaction := fun _ _ => .returned true
  waitForTransaction := fun _ => .returned ()
  getTransactionByHash := fun _ =>
    .returned (.value (some [some ⟨some (js "0x1::privacy_analysis::AnalysisRequestedEvent"),
      some (.str (js "7"))⟩]))
  view := fun _ _ => .returned (some [status])

/-- A wallet whose `account()` answers `null`. -/
def lockedWallet : Wallet where
  connect := .returned none
  account := .returned none
  signAndSubmitTransaction := fun _ => .returned none

/-- A stand-in for the digest: 32 bytes that depend on the data. -/
def sampleDigest (data : List Nat) : List Nat :=
  (List.range 32).map fun i => (data.sum + 7 * i) % 256

/-- Services that answer every call: the file text, a ciphertext, the content
record of `QmX`, the record of `requestAnalysis` for an installed wallet and a
deployed contract, the analysis identifier `a1` of the backend. -/
def sampleServices : Services where
  readFileAsText := fun _ => .returned (js "##fileformat=VCFv4.2")
  encryptFile := fun _ => .returned ⟨js "AAAAAAAAAAAAAAAAAAAA", .str (js "default")⟩
  uploadEncryptedFile := fun _ _ _ =>
    .returned ⟨true, some (js "QmX"), some 20, some (js "2024-10-27T00:00:00.000Z"),
      js "https://gateway.pinata.cloud/ipfs/QmX", none⟩
  requestAnalysis := fun hash =>
    (requestAnalysis ⟨some sampleWallet, none⟩ (some (js "0x1234567890")) (sampleClient .null)
      1730000000000 hash).1
  upload := fun _ _ => .returned (some (.str (js "a1")))

/-- The sample services with an encryption that fails. -/
def failingServices : Services :=
  { sampleServices with encryptFile := fun _ => .threw .operationError }

/-- The event is an object with a string `type` that does not contain
`"AnalysisRequestedEvent"`: the search passes over it. -/
def passedOver (event : Option TxnEvent) : Bool :=
  match event with
  | some e =>
    match e.type with
    | some t => !includes t (js "AnalysisRequestedEvent")
    | none => false
  | none => false

/-- A transaction with three events: a deposit, a request with the identifier
`7`, a request with the identifier `9`. -/
def sampleEvents : List (Option TxnEvent) :=
  [some ⟨some (js "0x1::coin::DepositEvent"), some (.int 100)⟩,
    some ⟨some (js "0x1::privacy_analysis::AnalysisRequestedEvent"), some (.int 7)⟩,
    some ⟨some (js "0x2::other::AnalysisRequestedEvent"), some (.int 9)⟩]

/-- Services wired to the service models for a run in which the pinning request
fails and the contract is deployed: the encryption of the sample Web Crypto
implementation on a page without a key, `uploadEncryptedFile` with credentials
and a rejected request, `requestAnalysis` with the sample wallet and a contract
address. The metadata object is passed without its `size`, numbers being
outside the values modelled; `uploadEncryptedFile` reads it only when the
request goes out. -/
def fallbackServices : Services where
  readFileAsText := fun _ => .returned (js "##fileformat")
  encryptFile := fun fileContent =>
    (encryptFile sampleCrypto 120000 .absent 7 (fun _ => 0) fileContent).1
  uploadEncryptedFile := fun content filename _ =>
    (uploadEncryptedFile ⟨js "key", js "secret"⟩ ⟨[], none⟩
      ⟨1730000000000, js "k3j9x2m1q", js "2024-10-27T03:33:20.000Z", false⟩ .rejected content
      (.obj [(js "filename", .str filename)])).1
  requestAnalysis := fun hash =>
    (requestAnalysis ⟨some sampleWallet, none⟩ (some (js "0x1234567890")) (sampleClient .null)
      1730000000000 hash).1
  upload := fun _ _ => .returned (some (.str (js "a1")))

/-! # Theorems -/

/-! ## Base64 -/

theorem base64Index_base64Char (i : Nat) (h : i < 64) : base64Index (base64Char i) = some i := by
  unfold base64Char base64Index
  split_ifs <;> first | omega | (simp; omega) | simp_all 

theorem base64Char_ne_pad (i : Nat) : base64Char i ≠ 61 := by
  unfold base64Char
  split_ifs <;> omega

theorem base64Char_not_whitespace (i : Nat) : isAsciiWhitespace (base64Char i) = false := by
  unfold base64Char isAsciiWhitespace
  split_ifs <;> simp <;> omega

theorem base64Encode_length (b : List Nat) : (base64Encode b).length % 4 = 0 := by
  induction b using base64Encode.induct with
  | case1 => rfl
  | case2 a => simp [base64Encode]
  | case3 a b => simp [base64Encode]
  | case4 a b c rest ih => simp only [base64Encode, List.length_cons]; omega

theorem filter_base64Encode (b : List Nat) :
    (base64Encode b).filter (fun c => !isAsciiWhitespace c) = base64Encode b := by
  induction b using base64Encode.induct with
  | case1 => rfl
  | case2 a =>
    have h61 : isAsciiWhitespace 61 = false := by decide
    simp only [base64Encode, List.filter, base64Char_not_whitespace, h61, Bool.not_false]
  | case3 a b =>
    have h61 : isAsciiWhitespace 61 = false := by decide
    simp only [base64Encode, List.filter, base64Char_not_whitespace, h61, Bool.not_false]
  | case4 a b c rest ih =>
    simp only [base64Encode, List.filter, base64Char_not_whitespace, Bool.not_false, ih]

theorem stripPadding_quad (x1 x2 x3 x4 : Nat) (e : List Nat) (h4 : x4 ≠ 61)
    (hlen : e.length % 4 = 0) :
    stripPadding (x1 :: x2 :: x3 :: x4 :: e) = x1 :: x2 :: x3 :: x4 :: stripPadding e := by
  match e, hlen with
  | [], _ => simp [stripPadding, h4]
  | [_], h => simp at h
  | [_, _], h => simp at h
  | [_, _, _], h => simp at h
  | e1 :: e2 :: e3 :: e4 :: e5, h =>
    have h1 : (e5.length + 1 + 1 + 1 + 1 + 1 + 1 + 1 + 1) % 4 = 0 := by
      simp only [List.length_cons] at h; omega
    have h2 : (e5.length + 1 + 1 + 1 + 1) % 4 = 0 := by
      simp only [List.length_cons] at h; omega
    simp only [stripPadding, List.length_cons, h1, h2, if_true, List.getLast?_cons_cons,
      List.dropLast_cons₂]
    split_ifs <;> rfl

theorem stripPadding_base64Encode (b : List Nat) :
    stripPadding (base64Encode b) = (base64Sextets b).map base64Char := by
  induction b using base64Encode.induct with
  | case1 => rfl
  | case2 a => simp [base64Encode, base64Sextets, stripPadding]
  | case3 a b => simp [base64Encode, base64Sextets, stripPadding, base64Char_ne_pad]
  | case4 a b c rest ih =>
    simp only [base64Encode, base64Sextets, List.map_cons]
    rw [stripPadding_quad _ _ _ _ _ (base64Char_ne_pad _) (base64Encode_length rest), ih]

theorem base64Sextets_length (b : List Nat) : (base64Sextets b).length % 4 ≠ 1 := by
  induction b using base64Sextets.induct with
  | case1 => simp [base64Sextets]
  | case2 a => simp [base64Sextets]
  | case3 a b => simp [base64Sextets]
  | case4 a b c rest ih => simp only [base64Sextets, List.length_cons]; omega

theorem base64Indices_sextets (b : List Nat) (hb : IsBytes b) :
    base64Indices ((base64Sextets b).map base64Char) = some (base64Sextets b) := by
  induction b using base64Sextets.induct with
  | case1 => rfl
  | case2 a =>
    have ha : a < 256 := hb a (by simp)
    simp only [base64Sextets, List.map_cons, List.map_nil, base64Indices]
    rw [base64Index_base64Char _ (by omega), base64Index_base64Char _ (by omega)]
  | case3 a b =>
    have ha : a < 256 := hb a (by simp)
    have hb1 : b < 256 := hb b (by simp)
    simp only [base64Sextets, List.map_cons, List.map_nil, base64Indices]
    rw [base64Index_base64Char _ (by omega), base64Index_base64Char _ (by omega),
      base64Index_base64Char _ (by omega)]
  | case4 a b c rest ih =>
    have ha : a < 256 := hb a (by simp)
    have hb1 : b < 256 := hb b (by simp)
    have hc : c < 256 := hb c (by simp)
    have hrest : IsBytes rest := fun x hx => hb x (by simp [hx])
    simp only [base64Sextets, List.map_cons, base64Indices]
    rw [base64Index_base64Char _ (by omega), base64Index_base64Char _ (by omega),
      base64Index_base64Char _ (by omega), base64Index_base64Char _ (by omega), ih hrest]

theorem sextetsToBytes_sextets (b : List Nat) (hb : IsBytes b) :
    sextetsToBytes (base64Sextets b) = b := by
  induction b using base64Sextets.induct with
  | case1 => rfl
  | case2 a =>
    have ha : a < 256 := hb a (by simp)
    simp only [base64Sextets, sextetsToBytes, List.cons.injEq, and_true]; omega
  | case3 a b =>
    have ha : a < 256 := hb a (by simp)
    have hb1 : b < 256 := hb b (by simp)
    simp only [base64Sextets, sextetsToBytes, List.cons.injEq, and_true]; omega
  | case4 a b c rest ih =>
    have ha : a < 256 := hb a (by simp)
    have hb1 : b < 256 := hb b (by simp)
    have hc : c < 256 := hb c (by simp)
    have hrest : IsBytes rest := fun x hx => hb x (by simp [hx])
    simp only [base64Sextets, sextetsToBytes, List.cons.injEq, ih hrest, and_true]; omega

theorem atob_base64Encode (b : List Nat) (hb : IsBytes b) : atob (base64Encode b) = .ok b := by
  unfold atob
  simp only [filter_base64Encode, stripPadding_base64Encode, List.length_map]
  rw [if_neg (base64Sextets_length b)]
  simp only [base64Indices_sextets b hb, sextetsToBytes_sextets b hb]

/-! ## UTF-8 and UTF-16 -/

theorem utf8Step_initial (b : Nat) : utf8Step Utf8State.initial b = utf8Lead b := by
  simp [utf8Step, Utf8State.initial]

theorem utf8Lead_one (b : Nat) (h : b ≤ 0x7F) : utf8Lead b = ([b], Utf8State.initial) := by
  unfold utf8Lead; rw [if_pos h]

theorem utf8Lead_two (b : Nat) (h : 0xC2 ≤ b ∧ b ≤ 0xDF) :
    utf8Lead b = ([], ⟨b % 0x20, 0, 1, 0x80, 0xBF⟩) := by
  unfold utf8Lead; rw [if_neg (show ¬ b ≤ 0x7F by omega), if_pos h]

theorem utf8Lead_three (b : Nat) (h : 0xE0 ≤ b ∧ b ≤ 0xEF) :
    utf8Lead b = ([], ⟨b % 0x10, 0, 2, if b = 0xE0 then 0xA0 else 0x80,
      if b = 0xED then 0x9F else 0xBF⟩) := by
  unfold utf8Lead
  rw [if_neg (show ¬ b ≤ 0x7F by omega), if_neg (show ¬ (0xC2 ≤ b ∧ b ≤ 0xDF) by omega), if_pos h]

theorem utf8Lead_four (b : Nat) (h : 0xF0 ≤ b ∧ b ≤ 0xF4) :
    utf8Lead b = ([], ⟨b % 0x08, 0, 3, if b = 0xF0 then 0x90 else 0x80,
      if b = 0xF4 then 0x8F else 0xBF⟩) := by
  unfold utf8Lead
  rw [if_neg (show ¬ b ≤ 0x7F by omega), if_neg (show ¬ (0xC2 ≤ b ∧ b ≤ 0xDF) by omega),
    if_neg (show ¬ (0xE0 ≤ b ∧ b ≤ 0xEF) by omega), if_pos h]

theorem utf8Step_last (cp seen needed lo up b : Nat) (hn : needed ≠ 0)
    (hr : lo ≤ b ∧ b ≤ up) (hl : seen + 1 = needed) :
    utf8Step ⟨cp, seen, needed, lo, up⟩ b = ([cp * 0x40 + b % 0x40], Utf8State.initial) := by
  unfold utf8Step
  rw [if_neg hn, if_neg (show ¬ (b < lo ∨ up < b) by omega), if_pos hl]

theorem utf8Step_more (cp seen needed lo up b : Nat) (hn : needed ≠ 0)
    (hr : lo ≤ b ∧ b ≤ up) (hl : seen + 1 ≠ needed) :
    utf8Step ⟨cp, seen, needed, lo, up⟩ b =
      ([], ⟨cp * 0x40 + b % 0x40, seen + 1, needed, 0x80, 0xBF⟩) := by
  unfold utf8Step
  rw [if_neg hn, if_neg (show ¬ (b < lo ∨ up < b) by omega), if_neg hl]

theorem utf8Decode_encodeScalar (c : Nat) (hc : IsScalar c) (rest : List Nat) :
    utf8Decode Utf8State.initial (utf8EncodeScalar c ++ rest) =
      c :: utf8Decode Utf8State.initial rest := by
  obtain ⟨h1, h2⟩ := hc
  unfold utf8EncodeScalar
  split_ifs with a1 a2 a3
  · simp only [List.cons_append, List.nil_append, utf8Decode, utf8Step_initial]
    rw [utf8Lead_one c (by omega)]
    rfl
  · simp only [List.cons_append, List.nil_append, utf8Decode, utf8Step_initial]
    rw [utf8Lead_two _ (by omega)]
    simp only [List.nil_append]
    rw [utf8Step_last _ _ _ _ _ _ (by decide) (by omega) (by decide)]
    simp only [List.singleton_append, List.cons.injEq]
    exact ⟨by omega, rfl⟩
  · simp only [List.cons_append, List.nil_append, utf8Decode, utf8Step_initial]
    rw [utf8Lead_three _ (by omega)]
    simp only [List.nil_append]
    rw [utf8Step_more _ _ _ _ _ _ (by decide) (by split_ifs <;> omega) (by decide)]
    simp only [List.nil_append]
    rw [utf8Step_last _ _ _ _ _ _ (by decide) (by omega) (by decide)]
    simp only [List.singleton_append, List.cons.injEq]
    exact ⟨by omega, rfl⟩
  · simp only [List.cons_append, List.nil_append, utf8Decode, utf8Step_initial]
    rw [utf8Lead_four _ (by omega)]
    simp only [List.nil_append]
    rw [utf8Step_more _ _ _ _ _ _ (by decide) (by split_ifs <;> omega) (by decide)]
    simp only [List.nil_append]
    rw [utf8Step_more _ _ _ _ _ _ (by decide) (by omega) (by decide)]
    simp only [List.nil_append]
    rw [utf8Step_last _ _ _ _ _ _ (by decide) (by omega) (by decide)]
    simp only [List.singleton_append, List.cons.injEq]
    exact ⟨by omega, rfl⟩

theorem utf8Decode_flatMap (cs : List Nat) (h : ∀ c ∈ cs, IsScalar c) :
    utf8Decode Utf8State.initial (cs.flatMap utf8EncodeScalar) = cs := by
  induction cs with
  | nil => rfl
  | cons c cs ih =>
    rw [List.flatMap_cons, utf8Decode_encodeScalar c (h c (by simp)),
      ih (fun x hx => h x (by simp [hx]))]

theorem utf8EncodeScalar_bytes (c : Nat) (hc : c < 0x110000) : IsBytes (utf8EncodeScalar c) := by
  unfold utf8EncodeScalar IsBytes
  split_ifs <;> simp <;> omega

theorem toScalarValues_scalar (s : JSString) (hs : IsJSString s) :
    ∀ c ∈ toScalarValues s, IsScalar c := by
  induction s using toScalarValues.induct with
  | case1 => simp [toScalarValues]
  | case2 u h =>
    simp only [toScalarValues, h, if_true]
    intro c hc
    have h := List.mem_singleton.1 hc
    unfold IsScalar; omega
  | case3 u h =>
    have hu : u < 65536 := hs u (by simp)
    simp only [toScalarValues, h]
    simp only [isLeadSurrogate, isTrailSurrogate, Bool.or_eq_true, Bool.and_eq_true,
      decide_eq_true_eq] at h
    intro c hc
    have h := List.mem_singleton.1 hc
    unfold IsScalar; omega
  | case4 u v rest h1 h2 ih =>
    have hrest : IsJSString rest := fun x hx => hs x (by simp [hx])
    simp only [toScalarValues, h1, h2, if_true]
    simp only [isLeadSurrogate, isTrailSurrogate, Bool.and_eq_true, decide_eq_true_eq] at h1 h2
    intro c hc
    rcases List.mem_cons.1 hc with h | hc
    · unfold IsScalar; omega
    · exact ih hrest c hc
  | case5 u v rest h1 h2 ih =>
    have hrest : IsJSString (v :: rest) := fun x hx => hs x (by simp [hx])
    simp only [toScalarValues, h1, h2, if_true]
    intro c hc
    rcases List.mem_cons.1 hc with h | hc
    · unfold IsScalar; omega
    · exact ih hrest c hc
  | case6 u v rest h1 h2 ih =>
    have hrest : IsJSString (v :: rest) := fun x hx => hs x (by simp [hx])
    simp only [toScalarValues, h1, h2, if_true]
    intro c hc
    rcases List.mem_cons.1 hc with h | hc
    · unfold IsScalar; omega
    · exact ih hrest c hc
  | case7 u v rest h1 h2 ih =>
    have hrest : IsJSString (v :: rest) := fun x hx => hs x (by simp [hx])
    have hu : u < 65536 := hs u (by simp)
    simp only [toScalarValues, h1, h2]
    simp only [isLeadSurrogate, isTrailSurrogate, Bool.and_eq_true, decide_eq_true_eq] at h1 h2
    intro c hc
    rcases List.mem_cons.1 hc with h | hc
    · unfold IsScalar; omega
    · exact ih hrest c hc

theorem textEncode_bytes (s : JSString) (hs : IsJSString s) : IsBytes (textEncode s) := by
  intro x hx
  unfold textEncode at hx
  obtain ⟨c, hc, hxc⟩ := List.mem_flatMap.1 hx
  exact utf8EncodeScalar_bytes c (toScalarValues_scalar s hs c hc).1 x hxc

theorem utf16Units_toScalarValues (s : JSString) (hs : IsJSString s)
    (hwf : isWellFormed s = true) : (toScalarValues s).flatMap utf16Units = s := by
  induction s using toScalarValues.induct with
  | case1 => rfl
  | case2 u h => simp [isWellFormed, h] at hwf
  | case3 u h =>
    have hu : u < 65536 := hs u (by simp)
    rw [toScalarValues, if_neg h]
    simp [utf16Units, hu]
  | case4 u v rest h1 h2 ih =>
    have hrest : IsJSString rest := fun x hx => hs x (by simp [hx])
    simp only [isWellFormed, h1, h2, if_true, Bool.true_and] at hwf
    simp only [toScalarValues, h1, h2, if_true, List.flatMap_cons, ih hrest hwf]
    simp only [isLeadSurrogate, isTrailSurrogate, Bool.and_eq_true, decide_eq_true_eq] at h1 h2
    unfold utf16Units
    rw [if_neg (by omega)]
    simp only [List.cons_append, List.nil_append, List.cons.injEq, and_true]
    omega
  | case5 u v rest h1 h2 ih => simp [isWellFormed, h1, h2] at hwf
  | case6 u v rest h1 h2 ih => simp [isWellFormed, h1, h2] at hwf
  | case7 u v rest h1 h2 ih =>
    have hrest : IsJSString (v :: rest) := fun x hx => hs x (by simp [hx])
    have hu : u < 65536 := hs u (by simp)
    simp only [isWellFormed, h1, h2, Bool.false_eq_true, if_false, Bool.not_false,
      Bool.true_and] at hwf
    simp only [toScalarValues, h1, h2, Bool.false_eq_true, if_false, List.flatMap_cons,
      ih hrest hwf]
    unfold utf16Units
    rw [if_pos hu]
    rfl

theorem stripBOM_toScalarValues (s : JSString) (h : s.head? ≠ some 0xFEFF) :
    stripBOM (toScalarValues s) = toScalarValues s := by
  have key : ∀ cs : List Nat, cs.head? ≠ some 0xFEFF → stripBOM cs = cs := by
    intro cs hcs
    match cs, hcs with
    | [], _ => rfl
    | c :: cs, hcs =>
      have hc : c ≠ 0xFEFF := by simpa using hcs
      unfold stripBOM
      split
      · next heq => simp at heq; omega
      · rfl
  apply key
  match s, h with
  | [], _ => simp [toScalarValues]
  | [u], h =>
    have hu : u ≠ 0xFEFF := by simpa using h
    simp only [toScalarValues]
    split_ifs
    · simp
    · simp; omega
  | u :: v :: rest, h =>
    have hu : u ≠ 0xFEFF := by simpa using h
    simp only [toScalarValues]
    split_ifs with h1 h2 h3
    · simp only [isLeadSurrogate, isTrailSurrogate, Bool.and_eq_true, decide_eq_true_eq] at h1 h2
      simp; omega
    · simp
    · simp
    · simp; omega

theorem textDecode_textEncode (s : JSString) (hs : IsJSString s) (hwf : isWellFormed s = true)
    (hbom : s.head? ≠ some 0xFEFF) : textDecode (textEncode s) = s := by
  unfold textDecode textEncode
  rw [utf8Decode_flatMap _ (toScalarValues_scalar s hs), stripBOM_toScalarValues s hbom,
    utf16Units_toScalarValues s hs hwf]

/-! ## Byte arrays -/

theorem uint8Array_of_bytes (b : List Nat) (hb : IsBytes b) : uint8Array b = b := by
  unfold uint8Array
  induction b with
  | nil => rfl
  | cons x xs ih =>
    have hx : x < 256 := hb x (by simp)
    rw [List.map_cons, ih (fun y hy => hb y (by simp [hy])), Nat.mod_eq_of_lt hx]

theorem uint8Array_bytes (b : List Nat) : IsBytes (uint8Array b) := by
  intro x hx
  unfold uint8Array at hx
  obtain ⟨y, _, rfl⟩ := List.mem_map.1 hx
  exact Nat.mod_lt _ (by decide)

theorem fromCharCode_of_bytes (maxArguments : Nat) (b : List Nat) (hb : IsBytes b) :
    fromCharCode maxArguments b =
      if b.length ≤ maxArguments then .ok b else .error .rangeError := by
  have hmap : b.map (· % 65536) = b := by
    induction b with
    | nil => rfl
    | cons x xs ih =>
      have hx : x < 256 := hb x (by simp)
      rw [List.map_cons, ih (fun y hy => hb y (by simp [hy])), Nat.mod_eq_of_lt (by omega)]
  unfold fromCharCode
  rw [hmap]

theorem firstCodeUnits_of_bytes (b : List Nat) (hb : IsBytes b) : firstCodeUnits b = b := by
  induction b using firstCodeUnits.induct with
  | case1 => rfl
  | case2 u => rfl
  | case3 u v rest h ih =>
    have hu : u < 256 := hb u (by simp)
    simp [isLeadSurrogate] at h
    omega
  | case4 u v rest h ih =>
    rw [firstCodeUnits, if_neg h, ih (fun y hy => hb y (by simp [hy]))]

theorem btoa_of_bytes (b : List Nat) (hb : IsBytes b) : btoa b = .ok (base64Encode b) := by
  unfold btoa
  rw [if_pos]
  rw [List.all_eq_true]
  intro x hx
  have := hb x hx
  simp only [decide_eq_true_eq]
  omega

theorem isBytes_append {a b : List Nat} (ha : IsBytes a) (hb : IsBytes b) : IsBytes (a ++ b) := by
  intro x hx
  rcases List.mem_append.1 hx with h | h
  · exact ha x h
  · exact hb x h

theorem getRandomValues_length (n : Nat) (random : Nat → Nat) :
    (getRandomValues n random).length = n := by
  simp [getRandomValues]

theorem getRandomValues_bytes (n : Nat) (random : Nat → Nat) :
    IsBytes (getRandomValues n random) := by
  intro x hx
  unfold getRandomValues at hx
  obtain ⟨y, _, rfl⟩ := List.mem_map.1 hx
  exact Nat.mod_lt _ (by decide)

theorem combineBase64_eq (maxArguments : Nat) (iv data : List Nat) (hiv : IsBytes iv)
    (hd : IsBytes data) :
    combineBase64 maxArguments iv data =
      if (iv ++ data).length ≤ maxArguments then .ok (base64Encode (iv ++ data))
      else .error .rangeError := by
  unfold combineBase64
  rw [uint8Array_of_bytes _ (isBytes_append hiv hd),
    fromCharCode_of_bytes _ _ (isBytes_append hiv hd)]
  by_cases hlen : (iv ++ data).length ≤ maxArguments
  · rw [if_pos hlen, if_pos hlen]
    exact btoa_of_bytes _ (isBytes_append hiv hd)
  · rw [if_neg hlen, if_neg hlen]

theorem splitBase64_base64Encode (iv data : List Nat) (hiv : IsBytes iv) (hd : IsBytes data)
    (hlen : iv.length = 12) : splitBase64 (base64Encode (iv ++ data)) = .ok (iv, data) := by
  unfold splitBase64 uint8ArrayFromString
  rw [atob_base64Encode _ (isBytes_append hiv hd)]
  simp only
  rw [firstCodeUnits_of_bytes _ (isBytes_append hiv hd),
    uint8Array_of_bytes _ (isBytes_append hiv hd)]
  rw [← hlen, List.take_left', List.drop_left']
  all_goals rfl


/-! ## The key store -/

theorem defaultKey_beq : defaultKey.beq defaultKey = true := by decide

theorem lookupRecord_putRecord (v : JSValue) (rs : List (IDBKey × JSValue)) :
    lookupRecord defaultKey (putRecord defaultKey v rs) = some v := by
  induction rs with
  | nil => simp [putRecord, lookupRecord, defaultKey_beq]
  | cons r rs ih =>
    obtain ⟨k, x⟩ := r
    by_cases hk : k.beq defaultKey = true
    · simp [putRecord, lookupRecord, hk, defaultKey_beq]
    · simp [putRecord, lookupRecord, hk, ih]

theorem lookupRecord_deleteRecord (rs : List (IDBKey × JSValue)) :
    lookupRecord defaultKey (deleteRecord defaultKey rs) = none := by
  induction rs with
  | nil => rfl
  | cons r rs ih =>
    obtain ⟨k, x⟩ := r
    by_cases hk : k.beq defaultKey = true
    · simp [deleteRecord, hk, ih]
    · simp [deleteRecord, lookupRecord, hk, ih]

theorem getProp_append_of_none (props : List (JSString × JSValue)) (name : JSString)
    (v : JSValue) (h : getProp props name = none) :
    getProp (props ++ [(name, v)]) name = some v := by
  induction props with
  | nil => simp [getProp]
  | cons p ps ih =>
    obtain ⟨k, x⟩ := p
    by_cases hk : k = name
    · simp [getProp, hk] at h
    · simp only [getProp, hk, if_false] at h
      simp [getProp, hk, ih h]

theorem getProp_replaceProp (props : List (JSString × JSValue)) (name : JSString)
    (v : JSValue) (h : getProp props name ≠ none) :
    getProp (replaceProp name v props) name = some v := by
  induction props with
  | nil => simp [getProp] at h
  | cons p ps ih =>
    obtain ⟨k, x⟩ := p
    by_cases hk : k = name
    · simp [replaceProp, getProp, hk]
    · simp only [getProp, hk, if_false] at h
      simp [replaceProp, getProp, hk, ih h]

theorem arrayIndex_kid : arrayIndex (js "kid") = none := by decide

theorem getProp_setProp_kid (props : List (JSString × JSValue)) (v : JSValue) :
    getProp (setProp props (js "kid") v) (js "kid") = some v := by
  unfold setProp
  cases h : getProp props (js "kid") with
  | some x => exact getProp_replaceProp props _ v (by simp [h])
  | none =>
    simp only [arrayIndex_kid]
    exact getProp_append_of_none props _ v h

theorem getKey_keys (rs : List (IDBKey × JSValue)) :
    getKey (.keys rs) = (lookupRecord defaultKey rs, .keys rs) := rfl

theorem getKey_snd (db : DB) : (getKey db).2 = openWithUpgrade db := by
  cases db <;> rfl

theorem getKey_fst (db : DB) : (getKey db).1 = lookupRecord defaultKey db.records := by
  cases db <;> rfl

theorem openWithUpgrade_records (db : DB) : (openWithUpgrade db).records = db.records := by
  cases db <;> rfl

theorem openWithUpgrade_idem (db : DB) : openWithUpgrade (openWithUpgrade db) = openWithUpgrade db := by
  cases db <;> rfl

theorem getKey_eq (db : DB) : getKey db = (lookupRecord defaultKey db.records, openWithUpgrade db) := by
  cases db <;> rfl

/-- `generateKey` on an open store, for a Web Crypto whose exported keys carry no `kid`. -/
theorem generateKey_keys (W : WebCrypto) (hW : W.Lawful) (rs : List (IDBKey × JSValue))
    (seed : Nat) :
    generateKey W (.keys rs) seed =
      (.returned (.obj (setProp (W.generateJwk seed) (js "kid") (.str (js "default")))),
        .keys (putRecord defaultKey
          (.obj (setProp (W.generateJwk seed) (js "kid") (.str (js "default")))) rs)) := by
  unfold generateKey storeKey
  simp only [openWithUpgrade, ensureKid, hW.generated_kid seed, isTruthy, Bool.false_eq_true,
    if_false, kidOf, getProp_setProp_kid, Option.some_bind, JSValue.toKey]
  rfl

theorem generateKey_absent (W : WebCrypto) (seed : Nat) :
    generateKey W .absent seed = generateKey W (.keys []) seed := rfl

theorem generateKey_noStore (W : WebCrypto) (seed : Nat) :
    generateKey W .noStore seed = (.pending, .noStore) := rfl


theorem encryptFile_generates (W : WebCrypto) {maxArguments : Nat} (hW : W.Lawful)
    (rs : List (IDBKey × JSValue))
    (seed : Nat) (random : Nat → Nat) (fileContent : JSString)
    (h : isTruthy (lookupRecord defaultKey rs) = false) :
    encryptFile W maxArguments (.keys rs) seed random fileContent =
      (encryptWith W maxArguments
          (.obj (setProp (W.generateJwk seed) (js "kid") (.str (js "default"))))
          random fileContent,
        .keys (putRecord defaultKey
          (.obj (setProp (W.generateJwk seed) (js "kid") (.str (js "default")))) rs)) := by
  unfold encryptFile
  rw [getKey_keys]
  cases hl : lookupRecord defaultKey rs with
  | none => simp only [generateKey_keys W hW]
  | some K =>
    have hK : K.truthy = false := by simpa [hl, isTruthy] using h
    simp only [hK, Bool.false_eq_true, if_false, generateKey_keys W hW]

theorem encryptFile_stored (W : WebCrypto) {maxArguments : Nat} (rs : List (IDBKey × JSValue))
    (seed : Nat) (random : Nat → Nat) (fileContent : JSString) (K : JSValue)
    (h : lookupRecord defaultKey rs = some K) (hK : K.truthy = true) :
    encryptFile W maxArguments (.keys rs) seed random fileContent =
      (encryptWith W maxArguments K random fileContent, .keys rs) := by
  unfold encryptFile
  rw [getKey_keys, h]
  simp only [hK, if_true]

theorem encryptFile_absent (W : WebCrypto) {maxArguments : Nat} (seed : Nat) (random : Nat → Nat)
    (fileContent : JSString) :
    encryptFile W maxArguments .absent seed random fileContent =
      encryptFile W maxArguments (.keys []) seed random fileContent := rfl

theorem encryptFile_noStore (W : WebCrypto) {maxArguments : Nat} (seed : Nat) (random : Nat → Nat)
    (fileContent : JSString) :
    encryptFile W maxArguments .noStore seed random fileContent = (.pending, .noStore) := rfl

/-- After `encryptFile` has returned, the store holds under `"default"` the key
data the call encrypted with. -/
theorem encryptFile_returned (W : WebCrypto) {maxArguments : Nat} (hW : W.Lawful) (db : DB)
    (seed : Nat)
    (random : Nat → Nat) (fileContent : JSString) (r : Encrypted) (db1 : DB)
    (h : encryptFile W maxArguments db seed random fileContent = (.returned r, db1)) :
    ∃ K, getKey db1 = (some K, db1) ∧ K.truthy = true ∧
      encryptWith W maxArguments K random fileContent = .returned r := by
  have main : ∀ rs, encryptFile W maxArguments (.keys rs) seed random fileContent =
      (.returned r, db1) →
      ∃ K, getKey db1 = (some K, db1) ∧ K.truthy = true ∧
        encryptWith W maxArguments K random fileContent = .returned r := by
    intro rs h
    by_cases ht : isTruthy (lookupRecord defaultKey rs) = true
    · cases hl : lookupRecord defaultKey rs with
      | none => simp [hl, isTruthy] at ht
      | some K =>
        have hK : K.truthy = true := by simpa [hl, isTruthy] using ht
        rw [encryptFile_stored W rs seed random fileContent K hl hK] at h
        obtain ⟨h1, h2⟩ := Prod.mk.inj h
        subst h2
        exact ⟨K, by rw [getKey_keys, hl], hK, h1⟩
    · have ht : isTruthy (lookupRecord defaultKey rs) = false := by simpa using ht
      rw [encryptFile_generates W hW rs seed random fileContent ht] at h
      obtain ⟨h1, h2⟩ := Prod.mk.inj h
      subst h2
      exact ⟨.obj (setProp (W.generateJwk seed) (js "kid") (.str (js "default"))),
        by rw [getKey_keys, lookupRecord_putRecord], rfl, h1⟩
  cases db with
  | absent => exact main [] h
  | noStore => rw [encryptFile_noStore] at h; cases h
  | keys rs => exact main rs h

theorem decryptFile_stored (W : WebCrypto) (db : DB) (K : JSValue) (s : JSString)
    (h : getKey db = (some K, db)) (hK : K.truthy = true) :
    decryptFile W db s = (decryptWith W K s, db) := by
  unfold decryptFile
  rw [h]
  simp only [hK, if_true]

theorem encryptWith_returned (W : WebCrypto) {maxArguments : Nat} (hW : W.Lawful) (K : JSValue)
    (random : Nat → Nat)
    (fileContent : JSString) (hs : IsJSString fileContent) (r : Encrypted)
    (h : encryptWith W maxArguments K random fileContent = .returned r) :
    ∃ key, W.importJwk K KeyUsage.encrypt = .ok key ∧
      r.encrypted = base64Encode (getRandomValues 12 random ++
        W.encrypt key (getRandomValues 12 random) (textEncode fileContent)) ∧
      r.keyId = keyIdOf K := by
  unfold encryptWith at h
  cases hi : W.importJwk K KeyUsage.encrypt with
  | error e => simp [hi] at h
  | ok key =>
    simp only [hi] at h
    rw [combineBase64_eq _ _ _ (getRandomValues_bytes 12 random)
      (hW.encrypt_bytes _ _ _ (textEncode_bytes _ hs))] at h
    by_cases hlen : (getRandomValues 12 random ++
        W.encrypt key (getRandomValues 12 random) (textEncode fileContent)).length ≤ maxArguments
    · rw [if_pos hlen] at h
      simp only [Outcome.returned.injEq] at h
      subst h
      exact ⟨key, rfl, rfl, rfl⟩
    · rw [if_neg hlen] at h
      cases h

/-! ## The sample implementation and the key life cycle -/

theorem sampleCrypto_lawful : sampleCrypto.Lawful where
  encrypt_bytes := by
    intro key iv data _
    apply isBytes_append (uint8Array_bytes data)
    intro x hx
    unfold sampleTag at hx
    rw [List.eq_of_mem_replicate hx]
    exact Nat.mod_lt _ (by decide)
  decrypt_encrypt := by
    intro key iv data hd
    show sampleDecrypt key iv (uint8Array data ++ sampleTag key iv (uint8Array data)) = some data
    rw [uint8Array_of_bytes data hd]
    have hlen : (data ++ sampleTag key iv data).length - 16 = data.length := by
      simp [sampleTag]
    unfold sampleDecrypt
    rw [hlen, List.take_left', List.drop_left', if_pos]
    · refine ⟨?_, rfl⟩
      simp [sampleTag]
    · rfl
    · rfl
  generated_kid := by
    intro seed
    rfl
  generated_imports := by
    intro seed
    exact ⟨decimal seed, rfl⟩
  import_usage := by
    intro keyData k1 k2 h1 h2
    have h : (Except.ok k1 : Except JSError (List Nat)) = .ok k2 := h1.symm.trans h2
    exact Except.ok.inj h

theorem keyIdOf_storedKey (W : WebCrypto) (seed : Nat) :
    keyIdOf (storedKey W seed) = .str (js "default") := by
  simp only [keyIdOf, storedKey, kidOf, getProp_setProp_kid]
  rfl

theorem encryptWith_ok (W : WebCrypto) (maxArguments : Nat) (K : JSValue) (random : Nat → Nat)
    (fileContent : JSString) (key : List Nat) (h : W.importJwk K KeyUsage.encrypt = .ok key) :
    encryptWith W maxArguments K random fileContent =
      if 12 + (W.encrypt key (getRandomValues 12 random) (textEncode fileContent)).length ≤
          maxArguments then
        .returned ⟨base64Encode (uint8Array (getRandomValues 12 random ++
          W.encrypt key (getRandomValues 12 random) (textEncode fileContent))), keyIdOf K⟩
      else .threw .rangeError := by
  have hlen : (uint8Array (getRandomValues 12 random ++
      W.encrypt key (getRandomValues 12 random) (textEncode fileContent))).length =
      12 + (W.encrypt key (getRandomValues 12 random) (textEncode fileContent)).length := by
    unfold uint8Array
    rw [List.length_map, List.length_append, getRandomValues_length]
  unfold encryptWith combineBase64
  rw [h]
  simp only
  rw [fromCharCode_of_bytes _ _ (uint8Array_bytes _), hlen]
  by_cases hle : 12 + (W.encrypt key (getRandomValues 12 random)
      (textEncode fileContent)).length ≤ maxArguments
  · rw [if_pos hle, if_pos hle]
    simp only
    rw [btoa_of_bytes _ (uint8Array_bytes _)]
  · rw [if_neg hle, if_neg hle]

/-- C4. When the key store holds no key under `"default"`, `decryptFile` of any
string raises the key-missing error ("Encryption key not found. Cannot
decrypt."), the records of the store are what they were, and the store still
holds no key. -/
theorem decryptFile_key_missing (W : WebCrypto) (db : DB) (encryptedBase64 : JSString)
    (hno : (getKey db).1 = none) :
    (decryptFile W db encryptedBase64).1 = .threw keyNotFound ∧
      keyNotFound = .error (js "Encryption key not found. Cannot decrypt.") ∧
      (decryptFile W db encryptedBase64).2.records = db.records ∧
      (getKey (decryptFile W db encryptedBase64).2).1 = none := by
  have h : decryptFile W db encryptedBase64 = (.threw keyNotFound, openWithUpgrade db) := by
    unfold decryptFile
    rw [getKey_eq] at hno ⊢
    simp only at hno
    rw [hno]
  rw [h]
  refine ⟨rfl, rfl, openWithUpgrade_records db, ?_⟩
  rw [getKey_eq] at hno ⊢
  simpa [openWithUpgrade_records] using hno

/-- C4 on a browser profile without a database. -/
theorem decryptFile_key_missing_witness :
    (decryptFile sampleCrypto .absent (js "AAAA")).1 = .threw keyNotFound ∧
      keyNotFound = .error (js "Encryption key not found. Cannot decrypt.") ∧
      (decryptFile sampleCrypto .absent (js "AAAA")).2.records = DB.absent.records ∧
      (getKey (decryptFile sampleCrypto .absent (js "AAAA")).2).1 = none :=
  decryptFile_key_missing sampleCrypto .absent (js "AAAA") rfl

/-- C5, on the stores where it holds and on the one that breaks it. From a
profile without the database, or from an object store without records, the
first `encryptFile` call stores the generated key under `"default"` and goes on
with that key; on the store it leaves, every `encryptFile` call encrypts with
the stored key and leaves the store as it is; such a call returns `keyId`
`"default"`, unless the initialisation vector and the encrypted data are more
bytes than the engine takes as arguments, where it raises a `RangeError`; after
`deleteKey`, `getKey` finds no key. On the database that `deleteKey` creates
when it is the first call on a profile, which has no object store, `getKey`
finds no key, and `encryptFile` stores none and never settles. -/
theorem encryptFile_key_lifecycle (W : WebCrypto) (maxArguments : Nat) (hW : W.Lawful)
    (seed : Nat) (random : Nat → Nat) (fileContent : JSString) :
    (∀ db, db = .absent ∨ db = .keys [] →
      encryptFile W maxArguments db seed random fileContent =
        (encryptWith W maxArguments (storedKey W seed) random fileContent,
          .keys [(defaultKey, storedKey W seed)])) ∧
    (getKey (.keys [(defaultKey, storedKey W seed)])).1 = some (storedKey W seed) ∧
    (∀ seed1 random1 content1,
      encryptFile W maxArguments (.keys [(defaultKey, storedKey W seed)]) seed1 random1
          content1 =
        (encryptWith W maxArguments (storedKey W seed) random1 content1,
          .keys [(defaultKey, storedKey W seed)])) ∧
    (∃ key, W.importJwk (storedKey W seed) KeyUsage.encrypt = .ok key ∧
      ∀ random1 content1,
        encryptWith W maxArguments (storedKey W seed) random1 content1 =
          if 12 + (W.encrypt key (getRandomValues 12 random1) (textEncode content1)).length ≤
              maxArguments then
            .returned ⟨base64Encode (uint8Array (getRandomValues 12 random1 ++
              W.encrypt key (getRandomValues 12 random1) (textEncode content1))),
              .str (js "default")⟩
          else .threw .rangeError) ∧
    (getKey (deleteKey (.keys [(defaultKey, storedKey W seed)])).2).1 = none ∧
    deleteKey .absent = (.returned (), .noStore) ∧
    (getKey .noStore).1 = none ∧
    encryptFile W maxArguments .noStore seed random fileContent = (.pending, .noStore) := by
  obtain ⟨key, hkey⟩ := hW.generated_imports seed
  have hlook : lookupRecord defaultKey [(defaultKey, storedKey W seed)] =
      some (storedKey W seed) := by
    simp [lookupRecord, defaultKey_beq]
  refine ⟨?_, ?_, ?_, ⟨key, hkey, ?_⟩, ?_, rfl, rfl, rfl⟩
  · intro db hdb
    rcases hdb with h | h <;> subst h
    · rw [encryptFile_absent]
      exact encryptFile_generates W hW [] seed random fileContent rfl
    · exact encryptFile_generates W hW [] seed random fileContent rfl
  · rw [getKey_keys, hlook]
  · intro seed1 random1 content1
    exact encryptFile_stored W _ seed1 random1 content1 _ hlook rfl
  · intro random1 content1
    have hwith := encryptWith_ok W maxArguments (storedKey W seed) random1 content1 key hkey
    rw [hwith, keyIdOf_storedKey W seed]
  · show (getKey (.keys (deleteRecord defaultKey [(defaultKey, storedKey W seed)]))).1 = none
    rw [getKey_keys, lookupRecord_deleteRecord]

/-- C5 where it breaks: `deleteKey` as the first call on a profile, then
`encryptFile`, which never settles and stores no key; and a call whose result
is larger than the engine takes as arguments. -/
theorem encryptFile_key_lifecycle_witness :
    encryptFile sampleCrypto 120000 (deleteKey .absent).2 7 (fun i => i) (js "hi") =
      (.pending, .noStore) ∧
    (getKey (encryptFile sampleCrypto 120000 (deleteKey .absent).2 7 (fun i => i)
      (js "hi")).2).1 = none ∧
    encryptFile sampleCrypto 20 .absent 7 (fun i => i) (js "hi") =
      (.threw .rangeError, .keys [(defaultKey, storedKey sampleCrypto 7)]) :=
  ⟨(encryptFile_key_lifecycle sampleCrypto 120000 sampleCrypto_lawful 7 (fun i => i)
      (js "hi")).2.2.2.2.2.2.2,
    rfl, rfl⟩

/-- C3. The value `encryptFile` returns is the base64 encoding of the 12 bytes
of the initialisation vector drawn for the call followed by the output of the
AES-GCM encryption under the stored key; the conversion and the two slices of
`decryptFile` give back the initialisation vector and the encrypted data; and
for every 12 bytes `iv` and every byte sequence `data`, what the conversion of
`encryptFile` gives is the base64 encoding of `iv` followed by `data` (it gives
it when the bytes are not more than the engine takes as arguments), and the
slices of `decryptFile` invert that concatenation. -/
theorem encryptFile_layout (W : WebCrypto) (maxArguments : Nat) (hW : W.Lawful) (db : DB)
    (seed : Nat)
    (random : Nat → Nat) (fileContent : JSString) (hs : IsJSString fileContent)
    (r : Encrypted) (db1 : DB)
    (h : encryptFile W maxArguments db seed random fileContent = (.returned r, db1)) :
    (∃ keyData key, (getKey db1).1 = some keyData ∧
      W.importJwk keyData KeyUsage.encrypt = .ok key ∧
      (getRandomValues 12 random).length = 12 ∧
      r.encrypted = base64Encode (getRandomValues 12 random ++
        W.encrypt key (getRandomValues 12 random) (textEncode fileContent)) ∧
      splitBase64 r.encrypted = .ok (getRandomValues 12 random,
        W.encrypt key (getRandomValues 12 random) (textEncode fileContent))) ∧
    (∀ iv data, iv.length = 12 → IsBytes iv → IsBytes data →
      (∀ base64, combineBase64 maxArguments iv data = .ok base64 →
        base64 = base64Encode (iv ++ data)) ∧
      ((iv ++ data).length ≤ maxArguments →
        combineBase64 maxArguments iv data = .ok (base64Encode (iv ++ data))) ∧
      splitBase64 (base64Encode (iv ++ data)) = .ok (iv, data)) := by
  obtain ⟨K, hget, _, hwith⟩ := encryptFile_returned W hW db seed random fileContent r db1 h
  obtain ⟨key, himp, henc, _⟩ := encryptWith_returned W hW K random fileContent hs r hwith
  refine ⟨⟨K, key, by rw [hget], himp, getRandomValues_length 12 random, henc, ?_⟩, ?_⟩
  · rw [henc]
    exact splitBase64_base64Encode _ _ (getRandomValues_bytes 12 random)
      (hW.encrypt_bytes _ _ _ (textEncode_bytes _ hs)) (getRandomValues_length 12 random)
  · intro iv data hlen hiv hd
    refine ⟨?_, ?_, splitBase64_base64Encode iv data hiv hd hlen⟩
    · intro base64 hb
      rw [combineBase64_eq maxArguments iv data hiv hd] at hb
      by_cases hle : (iv ++ data).length ≤ maxArguments
      · rw [if_pos hle] at hb
        exact (Except.ok.inj hb).symm
      · rw [if_neg hle] at hb
        cases hb
    · intro hle
      rw [combineBase64_eq maxArguments iv data hiv hd, if_pos hle]


theorem sampleEncrypt_hi : encryptFile sampleCrypto 120000 .absent 7 (fun i => i) (js "hi") =
      (.returned ⟨js "AAECAwQFBgcICQoLaGlKSkpKSkpKSkpKSkpKSkpK", .str (js "default")⟩,
        sampleStore) := by
  rfl

/-- C3 for the initialisation vector 0, 1, …, 11 and three bytes of data. -/
theorem encryptFile_layout_witness :
    combineBase64 120000 [0, 1, 2, 3, 4, 5, 6, 7, 8, 9, 10, 11] [104, 105, 74] =
        .ok (base64Encode ([0, 1, 2, 3, 4, 5, 6, 7, 8, 9, 10, 11] ++ [104, 105, 74])) ∧
      splitBase64 (base64Encode ([0, 1, 2, 3, 4, 5, 6, 7, 8, 9, 10, 11] ++ [104, 105, 74])) =
        .ok ([0, 1, 2, 3, 4, 5, 6, 7, 8, 9, 10, 11], [104, 105, 74]) :=
  ⟨((encryptFile_layout sampleCrypto 120000 sampleCrypto_lawful .absent 7 (fun i => i)
      (js "hi") (by decide)
      ⟨js "AAECAwQFBgcICQoLaGlKSkpKSkpKSkpKSkpKSkpK", .str (js "default")⟩
      sampleStore sampleEncrypt_hi).2 [0, 1, 2, 3, 4, 5, 6, 7, 8, 9, 10, 11] [104, 105, 74] rfl
      (by decide) (by decide)).2.1 (by decide),
    ((encryptFile_layout sampleCrypto 120000 sampleCrypto_lawful .absent 7 (fun i => i)
      (js "hi") (by decide)
      ⟨js "AAECAwQFBgcICQoLaGlKSkpKSkpKSkpKSkpKSkpK", .str (js "default")⟩
      sampleStore sampleEncrypt_hi).2 [0, 1, 2, 3, 4, 5, 6, 7, 8, 9, 10, 11] [104, 105, 74] rfl
      (by decide) (by decide)).2.2⟩

/-- C1 (as amended). For every plaintext that has no unpaired surrogate and
does not begin with U+FEFF (the empty string is one), if `encryptFile` returns
and Web Crypto imports the stored key data for decryption, `decryptFile` of the
value `encryptFile` returned, run on the store that call left, returns the
plaintext and leaves the store as it is. -/
theorem decryptFile_encryptFile (W : WebCrypto) (maxArguments : Nat) (hW : W.Lawful) (db : DB)
    (seed : Nat)
    (random : Nat → Nat) (fileContent : JSString) (hs : IsJSString fileContent)
    (hwf : isWellFormed fileContent = true) (hbom : fileContent.head? ≠ some 0xFEFF)
    (r : Encrypted) (db1 : DB)
    (h : encryptFile W maxArguments db seed random fileContent = (.returned r, db1))
    (hdec : ∀ keyData, (getKey db1).1 = some keyData →
      ∃ key, W.importJwk keyData KeyUsage.decrypt = .ok key) :
    decryptFile W db1 r.encrypted = (.returned fileContent, db1) := by
  obtain ⟨K, hget, hK, hwith⟩ := encryptFile_returned W hW db seed random fileContent r db1 h
  obtain ⟨key, himp, henc, _⟩ := encryptWith_returned W hW K random fileContent hs r hwith
  obtain ⟨key2, hkey2⟩ := hdec K (by rw [hget])
  have hk : key = key2 := hW.import_usage K key key2 himp hkey2
  subst hk
  rw [decryptFile_stored W db1 K _ hget hK]
  unfold decryptWith
  rw [hkey2, henc, splitBase64_base64Encode _ _ (getRandomValues_bytes 12 random)
      (hW.encrypt_bytes _ _ _ (textEncode_bytes _ hs)) (getRandomValues_length 12 random)]
  simp only
  rw [hW.decrypt_encrypt _ _ _ (textEncode_bytes _ hs)]
  show (Outcome.returned (textDecode (textEncode fileContent)), db1) = _
  rw [textDecode_textEncode _ hs hwf hbom]

/-- C1 (as amended) for the plaintext `hi` and the sample implementation. -/
theorem decryptFile_encryptFile_witness :
    decryptFile sampleCrypto sampleStore (js "AAECAwQFBgcICQoLaGlKSkpKSkpKSkpKSkpKSkpK") =
      (.returned (js "hi"), sampleStore) :=
  decryptFile_encryptFile sampleCrypto 120000 sampleCrypto_lawful .absent 7 (fun i => i) (js "hi")
    (by decide) (by decide) (by decide)
    ⟨js "AAECAwQFBgcICQoLaGlKSkpKSkpKSkpKSkpKSkpK", .str (js "default")⟩ sampleStore
    sampleEncrypt_hi (fun keyData hk => ⟨decimal 7, by cases hk; rfl⟩)

/-- C1 as stated fails: a plaintext that begins with U+FEFF comes back
without it, and an unpaired surrogate comes back as U+FFFD. -/
theorem decryptFile_encryptFile_counterexample :
    (∃ r db1, encryptFile sampleCrypto 120000 .absent 7 (fun i => i) [0xFEFF, 97] =
        (.returned r, db1) ∧
      decryptFile sampleCrypto db1 r.encrypted = (.returned [97], db1)) ∧
    (∃ r db1, encryptFile sampleCrypto 120000 .absent 7 (fun i => i) [0xD83D] =
        (.returned r, db1) ∧
      decryptFile sampleCrypto db1 r.encrypted = (.returned [0xFFFD], db1)) :=
  ⟨⟨_, _, rfl, rfl⟩, ⟨_, _, rfl, rfl⟩⟩

/-! ## Altered ciphertexts -/

theorem flipBit_bytes (l : List Nat) (pos bit : Nat) (hl : IsBytes l) (hbit : bit < 8) :
    IsBytes (flipBit l pos bit) := by
  induction l generalizing pos with
  | nil => simpa [flipBit] using hl
  | cons x xs ih =>
    have hx : x < 256 := hl x (by simp)
    have hxs : IsBytes xs := fun y hy => hl y (by simp [hy])
    cases pos with
    | zero =>
      intro y hy
      simp only [flipBit, List.mem_cons] at hy
      rcases hy with h | h
      · subst h
        interval_cases bit <;> simp only [Nat.reducePow] <;> split_ifs <;> omega
      · exact hxs y h
    | succ n =>
      intro y hy
      simp only [flipBit, List.mem_cons] at hy
      rcases hy with h | h
      · omega
      · exact ih n hxs y h

theorem splitBase64_of_bytes (b : List Nat) (hb : IsBytes b) :
    splitBase64 (base64Encode b) = .ok (b.take 12, b.drop 12) := by
  unfold splitBase64 uint8ArrayFromString
  rw [atob_base64Encode _ hb]
  simp only
  rw [firstCodeUnits_of_bytes _ hb, uint8Array_of_bytes _ hb]

theorem decryptWith_atob_error (W : WebCrypto) (K : JSValue) (key : List Nat) (s : JSString)
    (e : JSError) (hk : W.importJwk K KeyUsage.decrypt = .ok key) (hs : atob s = .error e) :
    decryptWith W K s = .threw e := by
  unfold decryptWith splitBase64
  rw [hk, hs]

theorem decryptWith_returned (W : WebCrypto) (K : JSValue) (key : List Nat) (s p : JSString)
    (hk : W.importJwk K KeyUsage.decrypt = .ok key) (h : decryptWith W K s = .returned p) :
    ∃ iv data plain, splitBase64 s = .ok (iv, data) ∧ W.decrypt key iv data = some plain ∧
      p = textDecode plain := by
  unfold decryptWith at h
  rw [hk] at h
  simp only at h
  cases hsp : splitBase64 s with
  | error e => rw [hsp] at h; cases h
  | ok pair =>
    obtain ⟨iv, data⟩ := pair
    rw [hsp] at h
    simp only at h
    cases hd : W.decrypt key iv data with
    | none => rw [hd] at h; cases h
    | some plain =>
      rw [hd] at h
      simp only [Outcome.returned.injEq] at h
      exact ⟨iv, data, plain, rfl, hd, h.symm⟩

theorem flipBit_length (l : List Nat) (pos bit : Nat) :
    (flipBit l pos bit).length = l.length := by
  induction l generalizing pos with
  | nil => rfl
  | cons x xs ih =>
    cases pos with
    | zero => rfl
    | succ n => simp only [flipBit, List.length_cons, ih]

theorem flipBit_append_left (a b : List Nat) (pos bit : Nat) (h : pos < a.length) :
    flipBit (a ++ b) pos bit = flipBit a pos bit ++ b := by
  induction a generalizing pos with
  | nil => simp at h
  | cons x xs ih =>
    cases pos with
    | zero => rfl
    | succ n =>
      have hstep : flipBit (x :: xs ++ b) (n + 1) bit = x :: flipBit (xs ++ b) n bit := rfl
      rw [hstep, ih n (by simpa using h)]
      rfl

theorem flipBit_append_right (a b : List Nat) (pos bit : Nat) (h : a.length ≤ pos) :
    flipBit (a ++ b) pos bit = a ++ flipBit b (pos - a.length) bit := by
  induction a generalizing pos with
  | nil => rfl
  | cons x xs ih =>
    cases pos with
    | zero => simp at h
    | succ n =>
      have hstep : flipBit (x :: xs ++ b) (n + 1) bit = x :: flipBit (xs ++ b) n bit := rfl
      rw [hstep, ih n (by simpa using h), List.length_cons, Nat.add_sub_add_right]
      rfl

theorem flipBit_sum (l : List Nat) (pos bit : Nat) (h : pos < l.length) :
    (flipBit l pos bit).sum = l.sum + 2 ^ bit ∨ (flipBit l pos bit).sum + 2 ^ bit = l.sum := by
  induction l generalizing pos with
  | nil => simp at h
  | cons x xs ih =>
    cases pos with
    | zero =>
      simp only [flipBit, List.sum_cons]
      by_cases hx : x / 2 ^ bit % 2 = 0
      · rw [if_pos hx]
        left
        omega
      · rw [if_neg hx]
        right
        have hle : 2 ^ bit ≤ x := by
          by_contra hlt
          have : x / 2 ^ bit = 0 := Nat.div_eq_of_lt (by omega)
          rw [this] at hx
          exact hx rfl
        omega
    | succ n =>
      simp only [flipBit, List.sum_cons]
      rcases ih n (by simpa using h) with h1 | h1
      · left; omega
      · right; omega

theorem flipBit_sum_mod (l : List Nat) (pos bit c : Nat) (h : pos < l.length) (hbit : bit < 8) :
    (c + (flipBit l pos bit).sum) % 256 ≠ (c + l.sum) % 256 := by
  have hp : 0 < 2 ^ bit ∧ 2 ^ bit < 256 := by
    interval_cases bit <;> simp
  rcases flipBit_sum l pos bit h with h1 | h1 <;> omega

theorem replicate_sixteen_inj (a b : Nat) (h : List.replicate 16 a = List.replicate 16 b) :
    a = b := by
  have := congrArg List.head? h
  simpa using this

/-- The sample implementation rejects every change of one bit. -/
theorem sampleCrypto_authentic : sampleCrypto.Authentic := by
  intro key iv data pos bit hiv _ hbit hpos
  show sampleDecrypt key
    ((flipBit (iv ++ (uint8Array data ++ sampleTag key iv (uint8Array data))) pos bit).take 12)
    ((flipBit (iv ++ (uint8Array data ++ sampleTag key iv (uint8Array data))) pos bit).drop 12)
    = none
  have hpos1 : pos < (iv ++ (uint8Array data ++ sampleTag key iv (uint8Array data))).length :=
    hpos
  generalize uint8Array data = d at hpos1 ⊢
  have htag : (sampleTag key iv d).length = 16 := by simp [sampleTag]
  simp only [List.length_append, hiv, htag] at hpos1
  by_cases h12 : pos < 12
  · rw [flipBit_append_left _ _ _ _ (by omega)]
    have hl : (flipBit iv pos bit).length = 12 := by rw [flipBit_length, hiv]
    rw [← hl, List.take_left', List.drop_left']
    · unfold sampleDecrypt
      have hlen : (d ++ sampleTag key iv d).length - 16 = d.length := by
        simp [htag]
      rw [hlen, List.take_left', List.drop_left', if_neg]
      · rintro ⟨_, heq⟩
        unfold sampleTag at heq
        have := replicate_sixteen_inj _ _ heq
        have hne := flipBit_sum_mod iv pos bit (key.sum + d.sum) (by omega) hbit
        omega
      · rfl
      · rfl
    · rfl
    · rfl
  · rw [flipBit_append_right _ _ _ _ (by omega), ← hiv, List.take_left', List.drop_left']
    · by_cases hd : pos - iv.length < d.length
      · rw [flipBit_append_left _ _ _ _ hd]
        unfold sampleDecrypt
        have hl : (flipBit d (pos - iv.length) bit).length = d.length := flipBit_length _ _ _
        have hlen : (flipBit d (pos - iv.length) bit ++ sampleTag key iv d).length - 16 =
            (flipBit d (pos - iv.length) bit).length := by
          simp [htag]
        rw [hlen, List.take_left', List.drop_left', if_neg]
        · rintro ⟨_, heq⟩
          unfold sampleTag at heq
          have := replicate_sixteen_inj _ _ heq
          have hne := flipBit_sum_mod d (pos - iv.length) bit (key.sum + iv.sum) hd hbit
          omega
        · rfl
        · rfl
      · rw [flipBit_append_right _ _ _ _ (by omega)]
        unfold sampleDecrypt
        have hl : (flipBit (sampleTag key iv d) (pos - iv.length - d.length) bit).length = 16 := by
          rw [flipBit_length, htag]
        have hlen : (d ++ flipBit (sampleTag key iv d) (pos - iv.length - d.length) bit).length
            - 16 = d.length := by
          simp [hl]
        rw [hlen, List.take_left', List.drop_left', if_neg]
        · rintro ⟨_, heq⟩
          have hne := flipBit_sum_mod (sampleTag key iv d) (pos - iv.length - d.length) bit 0
            (by rw [htag]; omega) hbit
          rw [heq] at hne
          exact hne rfl
        · rfl
        · rfl
    · rfl
    · rfl

/-- C2 (as amended). Let `encryptFile` have returned the base64 text of the
bytes `iv ++ encrypted`, let Web Crypto import the stored key data for
decryption, and let AES-GCM reject every change of one bit
(`WebCrypto.Authentic`). For every single-bit flip of those bytes, in the
initialisation vector, the ciphertext or the tag, `decryptFile` of the
re-encoded bytes raises `OperationError` and returns no plaintext;
`decryptFile` of a string that `atob` rejects raises that error; and whenever
`decryptFile` returns a plaintext, it is the text of data AES-GCM has
authenticated. -/
theorem decryptFile_altered (W : WebCrypto) (maxArguments : Nat) (hW : W.Lawful)
    (hA : W.Authentic) (db : DB) (seed : Nat)
    (random : Nat → Nat) (fileContent : JSString) (hs : IsJSString fileContent)
    (r : Encrypted) (db1 : DB)
    (h : encryptFile W maxArguments db seed random fileContent = (.returned r, db1))
    (keyData : JSValue) (key : List Nat) (hget : (getKey db1).1 = some keyData)
    (hkey : W.importJwk keyData KeyUsage.decrypt = .ok key) :
    r.encrypted = base64Encode (getRandomValues 12 random ++
        W.encrypt key (getRandomValues 12 random) (textEncode fileContent)) ∧
    (∀ pos bit, bit < 8 →
      pos < (getRandomValues 12 random ++
        W.encrypt key (getRandomValues 12 random) (textEncode fileContent)).length →
      decryptFile W db1 (base64Encode (flipBit (getRandomValues 12 random ++
          W.encrypt key (getRandomValues 12 random) (textEncode fileContent)) pos bit)) =
        (.threw .operationError, db1)) ∧
    (∀ altered e, atob altered = .error e → decryptFile W db1 altered = (.threw e, db1)) ∧
    (∀ altered p, decryptFile W db1 altered = (.returned p, db1) →
      ∃ iv data plain, splitBase64 altered = .ok (iv, data) ∧
        W.decrypt key iv data = some plain ∧ p = textDecode plain) := by
  obtain ⟨K, hK1, hK, hwith⟩ := encryptFile_returned W hW db seed random fileContent r db1 h
  obtain ⟨key1, himp, henc, _⟩ := encryptWith_returned W hW K random fileContent hs r hwith
  have hKd : K = keyData := by
    rw [hK1] at hget
    exact Option.some.inj hget
  subst hKd
  have hk : key1 = key := hW.import_usage K key1 key himp hkey
  subst hk
  have hbytes : IsBytes (getRandomValues 12 random ++
      W.encrypt key1 (getRandomValues 12 random) (textEncode fileContent)) :=
    isBytes_append (getRandomValues_bytes 12 random)
      (hW.encrypt_bytes _ _ _ (textEncode_bytes _ hs))
  refine ⟨henc, ?_, ?_, ?_⟩
  · intro pos bit hbit hpos
    rw [decryptFile_stored W db1 K _ hK1 hK]
    unfold decryptWith
    rw [hkey, splitBase64_of_bytes _ (flipBit_bytes _ pos bit hbytes hbit)]
    simp only
    rw [hA key1 (getRandomValues 12 random) (textEncode fileContent) pos bit
      (getRandomValues_length 12 random) (textEncode_bytes _ hs) hbit hpos]
  · intro altered e he
    rw [decryptFile_stored W db1 K _ hK1 hK, decryptWith_atob_error W K key1 altered e hkey he]
  · intro altered p hp
    rw [decryptFile_stored W db1 K _ hK1 hK] at hp
    exact decryptWith_returned W K key1 altered p hkey (Prod.mk.inj hp).1

theorem sampleEncrypt_empty : encryptFile sampleCrypto 120000 .absent 7 (fun i => i) [] =
      (.returned ⟨js "AAECAwQFBgcICQoLeXl5eXl5eXl5eXl5eXl5eQ==", .str (js "default")⟩,
        sampleStore) := by
  rfl

/-- C2 (as amended) for the empty plaintext: bit 0 of byte 13, a byte of the
tag, is inverted. -/
theorem decryptFile_altered_witness :
    decryptFile sampleCrypto sampleStore (base64Encode (flipBit (getRandomValues 12 (fun i => i) ++
        sampleCrypto.encrypt (decimal 7) (getRandomValues 12 (fun i => i)) (textEncode []))
        13 0)) = (.threw .operationError, sampleStore) :=
  (decryptFile_altered sampleCrypto 120000 sampleCrypto_lawful sampleCrypto_authentic .absent 7
    (fun i => i) [] (by decide)
    ⟨js "AAECAwQFBgcICQoLeXl5eXl5eXl5eXl5eXl5eQ==", .str (js "default")⟩ sampleStore
    sampleEncrypt_empty (storedKey sampleCrypto 7) (decimal 7) rfl rfl).2.1 13 0 (by decide)
    (by decide)

/-- C2 as stated fails: inverting bit 1 of the last character before the
padding of the base64 text changes the text (`Q` becomes `S`) and not the
bytes it decodes to, and `decryptFile` returns the plaintext. -/
theorem decryptFile_altered_counterexample :
    encryptFile sampleCrypto 120000 .absent 7 (fun i => i) [] =
      (.returned ⟨js "AAECAwQFBgcICQoLeXl5eXl5eXl5eXl5eXl5eQ==", .str (js "default")⟩,
        sampleStore) ∧
    flipBit (js "AAECAwQFBgcICQoLeXl5eXl5eXl5eXl5eXl5eQ==") 37 1 =
      js "AAECAwQFBgcICQoLeXl5eXl5eXl5eXl5eXl5eS==" ∧
    decryptFile sampleCrypto sampleStore (js "AAECAwQFBgcICQoLeXl5eXl5eXl5eXl5eXl5eS==") =
      (.returned [], sampleStore) :=
  ⟨rfl, by decide, rfl⟩

/-! ## The content publisher -/

/-- C9. `uploadEncryptedFile` always returns a record and never raises. When
the credentials are missing, the pinning request is rejected, or it is
answered with a status that is not OK, the record is the fallback record:
`success` and `mock` are `true` and the identifier is the locally generated
one. A record without the `mock` member is returned only when the credentials
are configured and the request was answered OK with a readable body, and its
`ipfsHash` is then the `IpfsHash` of that body. -/
theorem uploadEncryptedFile_never_raises (c : Credentials) (w : Browser) (env : MockEnv)
    (pin : FetchResult PinBody) (encryptedContent : JSString) (metadata : JSValue) :
    ∃ record w1,
      uploadEncryptedFile c w env pin encryptedContent metadata = (.returned record, w1) ∧
      record.success = true ∧
      ((c.configured = false ∨ pin = .rejected ∨
          (∃ statusText body, pin = .response false statusText body)) →
        record = (mockUpload w env encryptedContent).1 ∧ record.mock = some true ∧
          record.ipfsHash = some (mockHashOf env)) ∧
      (record.mock ≠ some true →
        c.configured = true ∧ record.mock = none ∧
          ∃ statusText pinSize timestamp,
            pin = .response true statusText (.result record.ipfsHash pinSize timestamp)) := by
  unfold uploadEncryptedFile uploadTry
  by_cases hc : c.configured = true
  · simp only [hc, Bool.not_true, Bool.false_eq_true, if_false]
    cases metadata <;> cases pin with
    | rejected => simp [mockUpload]
    | response ok statusText body =>
      cases ok <;> cases body <;> simp [mockUpload]
  · have hc : c.configured = false := by simpa using hc
    simp [hc, mockUpload]

theorem startsWith_mockHashOf (env : MockEnv) : startsWith (mockHashOf env) (js "Qmmock") = true := by
  unfold startsWith mockHashOf
  rw [List.append_assoc]
  simp [List.isPrefixOf_iff_prefix]

theorem mockHashOf_not_inherited (env : MockEnv) : mockHashOf env ∉ objectPrototypeNames := by
  have hhead : (mockHashOf env).head? = some 81 := rfl
  have hnames : ∀ name ∈ objectPrototypeNames, name.head? ≠ some 81 := by decide
  intro h
  exact hnames _ h hhead

theorem getEntry_setEntry (t : List (JSString × JSString)) (k v : JSString) :
    getEntry (setEntry t k v) k = some v := by
  induction t with
  | nil => simp [setEntry, getEntry]
  | cons p ps ih =>
    obtain ⟨a, b⟩ := p
    by_cases h : a = k
    · simp [setEntry, getEntry, h]
    · simp [setEntry, getEntry, h, ih]

theorem downloadEncryptedFile_local (w : Browser) (g : Gateways) (ipfsHash : JSString)
    (h1 : g.primary.failed = true) (h2 : g.alternate.failed = true)
    (hq : startsWith ipfsHash (js "Qmmock") = true) :
    (downloadEncryptedFile w g ipfsHash).1 = mockDownload w ipfsHash := by
  obtain ⟨p, a⟩ := g
  unfold downloadEncryptedFile downloadTry
  cases p with
  | rejected => simp [hq]
  | response ok1 st1 b1 =>
    have ho1 : ok1 = false := by simpa [FetchResult.failed] using h1
    subst ho1
    cases a with
    | rejected => simp [downloadFinish, hq]
    | response ok2 st2 b2 =>
      have ho2 : ok2 = false := by simpa [FetchResult.failed] using h2
      subst ho2
      simp only [downloadFinish, hq, Bool.not_false, if_true]
      cases hm : mockDownload w ipfsHash <;> simp [hq, hm]

/-- C8, at the content that breaks it and at every other content. With no
credentials configured `uploadEncryptedFile` returns a record with `mock`
`true` and an identifier that starts with `Qmmock`. When neither gateway
delivers and the identifier is new to both local stores, `downloadEncryptedFile`
of that identifier returns the published content if the content is not empty,
whether `localStorage` took it or the in-memory table did; for the empty
string it raises "Mock IPFS file not found". -/
theorem publish_then_fetch (c : Credentials) (w : Browser) (env : MockEnv)
    (pin : FetchResult PinBody) (content : JSString) (metadata : JSValue) (g : Gateways)
    (hc : c.configured = false) (h1 : g.primary.failed = true) (h2 : g.alternate.failed = true)
    (hnew1 : getEntry w.localStorage (js "ipfs_" ++ mockHashOf env) = none)
    (hnew2 : ∀ table, w.mockIPFS = some table → getEntry table (mockHashOf env) = none) :
    ∃ record w1, uploadEncryptedFile c w env pin content metadata = (.returned record, w1) ∧
      record.mock = some true ∧ record.ipfsHash = some (mockHashOf env) ∧
      startsWith (mockHashOf env) (js "Qmmock") = true ∧
      (downloadEncryptedFile w1 g (mockHashOf env)).1 =
        if content.isEmpty then
          .threw (.error (js "Mock IPFS file not found: " ++ mockHashOf env))
        else .returned ⟨true, .text content, some true⟩ := by
  refine ⟨(mockUpload w env content).1, (mockUpload w env content).2, ?_, rfl, rfl,
    startsWith_mockHashOf env, ?_⟩
  · unfold uploadEncryptedFile uploadTry
    simp [hc]
  · rw [downloadEncryptedFile_local _ g _ h1 h2 (startsWith_mockHashOf env)]
    have hnot := mockHashOf_not_inherited env
    unfold mockDownload mockUpload
    cases hthrows : env.setItemThrows
    · simp only [Bool.false_eq_true, if_false, getEntry_setEntry]
      cases hm : w.mockIPFS with
      | none =>
        cases content <;> simp [List.isEmpty]
      | some table =>
        cases content with
        | nil => simp [isBlank, List.isEmpty, memberOf, hnew2 table hm, hnot]
        | cons x xs => simp [isBlank, List.isEmpty]
    · simp only [if_true, hnew1, isBlank, memberOf, getEntry_setEntry]

/-- C8 at the empty content: published without credentials, not found again. -/
theorem publish_then_fetch_witness :
    (downloadEncryptedFile
        (mockUpload ⟨[], none⟩ ⟨1730000000000, js "k3j9x0a1b", js "2024-10-27T03:33:20.000Z", false⟩
          []).2
        ⟨.rejected, .rejected⟩ (js "Qmmock1730000000000k3j9x0a1b")).1 =
      .threw (.error (js "Mock IPFS file not found: Qmmock1730000000000k3j9x0a1b")) := by
  obtain ⟨record, w1, hup, _, _, _, hdown⟩ :=
    publish_then_fetch ⟨[], []⟩ ⟨[], none⟩
      ⟨1730000000000, js "k3j9x0a1b", js "2024-10-27T03:33:20.000Z", false⟩ .rejected []
      (.obj []) ⟨.rejected, .rejected⟩ rfl rfl rfl rfl (fun _ h => by cases h)
  have hw : w1 = (mockUpload ⟨[], none⟩
      ⟨1730000000000, js "k3j9x0a1b", js "2024-10-27T03:33:20.000Z", false⟩ []).2 :=
    (congrArg Prod.snd hup).symm
  rw [← hw]
  exact hdown

/-- C10, where the code departs from it. When the `fetch` of the primary
gateway is rejected, `downloadEncryptedFile` never asks the alternate
gateway, whatever that gateway would answer: for an identifier that starts
with `Qmmock` it goes on to the local store, for any other it raises the
network error. When the primary gateway answers with a status that is not OK,
the alternate gateway is asked and its content returned. -/
theorem downloadEncryptedFile_primary_rejected (w : Browser)
    (alternate : FetchResult (Option JSString)) (ipfsHash : JSString)
    (text statusText1 statusText2 : JSString) (body1 : Option JSString) :
    downloadEncryptedFile w ⟨.rejected, alternate⟩ ipfsHash =
      (if startsWith ipfsHash (js "Qmmock") then
        (mockDownload w ipfsHash, [.fetch (primaryUrl ipfsHash), .localRead ipfsHash])
      else (.threw .networkError, [.fetch (primaryUrl ipfsHash)])) ∧
    downloadEncryptedFile w
        ⟨.response false statusText1 body1, .response true statusText2 (some text)⟩ ipfsHash =
      (.returned ⟨true, .text text, none⟩,
        [.fetch (primaryUrl ipfsHash), .fetch (alternateUrl ipfsHash)]) := by
  unfold downloadEncryptedFile downloadTry
  simp [downloadFinish]

/-! ## `JSON.parse` after `JSON.stringify` -/

theorem hexValue_hexDigit (n : Nat) (h : n < 16) : hexValue (hexDigit n) = some n := by
  unfold hexDigit hexValue
  split_ifs <;> first | omega | simp_all

theorem hex4Value_escape (u : Nat) (h : u < 65536) :
    hex4Value (hexDigit (u / 4096 % 16)) (hexDigit (u / 256 % 16)) (hexDigit (u / 16 % 16))
      (hexDigit (u % 16)) = some u := by
  unfold hex4Value
  rw [hexValue_hexDigit _ (Nat.mod_lt _ (by decide)), hexValue_hexDigit _ (Nat.mod_lt _ (by decide)),
    hexValue_hexDigit _ (Nat.mod_lt _ (by decide)), hexValue_hexDigit _ (Nat.mod_lt _ (by decide))]
  simp only [Option.some.injEq]
  omega

theorem parseStringBody_plain (u : Nat) (tail : JSString) (h1 : 32 ≤ u) (h2 : u ≠ 34)
    (h3 : u ≠ 92) : parseStringBody (u :: tail) = consParsed u (parseStringBody tail) := by
  rw [parseStringBody]
  · rw [if_neg (by omega)]
    unfold consParsed
    cases parseStringBody tail <;> rfl
  · intro h; omega
  · intro a b c d rest h; omega
  · intro e rest h; omega


theorem parseStringBody_quoteUnit (u : Nat) (tail : JSString) (h : u < 65536) :
    parseStringBody (quoteUnit u ++ tail) = consParsed u (parseStringBody tail) := by
  have hesc : ∀ (e val : Nat), e ≠ 117 →
      (if e = 34 then some 34 else if e = 92 then some 92 else if e = 47 then some 47
        else if e = 98 then some 8 else if e = 102 then some 12 else if e = 110 then some 10
        else if e = 114 then some 13 else if e = 116 then some 9 else none) = some val →
      parseStringBody (92 :: e :: tail) = consParsed val (parseStringBody tail) := by
    intro e val he hv
    rw [parseStringBody]
    · simp only [hv]
      unfold consParsed
      cases parseStringBody tail <;> rfl
    · intro a b c d rest h; omega
  unfold quoteUnit
  split_ifs with c1 c2 c3 c4 c5 c6 c7 c8
  · subst c1; exact hesc 98 8 (by decide) (by decide)
  · subst c2; exact hesc 116 9 (by decide) (by decide)
  · subst c3; exact hesc 110 10 (by decide) (by decide)
  · subst c4; exact hesc 102 12 (by decide) (by decide)
  · subst c5; exact hesc 114 13 (by decide) (by decide)
  · subst c6; exact hesc 34 34 (by decide) (by decide)
  · subst c7; exact hesc 92 92 (by decide) (by decide)
  · show parseStringBody (92 :: 117 :: _ :: _ :: _ :: _ :: tail) = _
    rw [parseStringBody, hex4Value_escape u h]
    unfold consParsed
    cases parseStringBody tail <;> rfl
  · have hs : ¬ (isLeadSurrogate u = true ∨ isTrailSurrogate u = true) := fun hh => c8 (Or.inr hh)
    exact parseStringBody_plain u tail (by omega) c6 c7

theorem parseStringBody_quoteUnits (s : JSString) (hs : IsJSString s) (rest : JSString) :
    parseStringBody (quoteUnits s ++ 34 :: rest) = .ok s rest := by
  induction s using quoteUnits.induct with
  | case1 => rw [quoteUnits, List.nil_append, parseStringBody]
  | case2 u =>
    rw [quoteUnits, parseStringBody_quoteUnit u _ (hs u (by simp)), parseStringBody]
    rfl
  | case3 u v tail h ih =>
    have hu : u < 65536 := hs u (by simp)
    have hv : v < 65536 := hs v (by simp)
    simp only [isLeadSurrogate, isTrailSurrogate, Bool.and_eq_true, decide_eq_true_eq] at h
    rw [quoteUnits, if_pos (by simp [isLeadSurrogate, isTrailSurrogate]; omega)]
    rw [List.cons_append, List.cons_append,
      parseStringBody_plain u _ (by omega) (by omega) (by omega),
      parseStringBody_plain v _ (by omega) (by omega) (by omega),
      ih (fun x hx => hs x (by simp [hx]))]
    rfl
  | case4 u v tail h ih =>
    rw [quoteUnits, if_neg h, List.append_assoc,
      parseStringBody_quoteUnit u _ (hs u (by simp)), ih (fun x hx => hs x (by simp [hx]))]
    rfl

theorem getProp_none_of_not_mem (acc : List (JSString × JSValue)) (k : JSString)
    (h : k ∉ acc.map Prod.fst) : getProp acc k = none := by
  induction acc with
  | nil => rfl
  | cons p ps ih =>
    obtain ⟨a, b⟩ := p
    simp only [List.map_cons, List.mem_cons, not_or] at h
    simp only [getProp]
    rw [if_neg (fun hh => h.1 hh.symm)]
    exact ih h.2

theorem insertIndexProp_last (i : Nat) (k : JSString) (v : JSValue)
    (acc : List (JSString × JSValue))
    (h : ∀ k1 ∈ acc.map Prod.fst, ∃ j, arrayIndex k1 = some j ∧ j < i) :
    insertIndexProp i k v acc = acc ++ [(k, v)] := by
  induction acc with
  | nil => rfl
  | cons p ps ih =>
    obtain ⟨a, b⟩ := p
    obtain ⟨j, hj, hlt⟩ := h a (by simp)
    simp only [insertIndexProp, hj, if_pos hlt, List.cons_append]
    rw [ih (fun k1 hk1 => h k1 (by simp only [List.map_cons, List.mem_cons]; exact Or.inr hk1))]

theorem setProp_last (acc : List (JSString × JSValue)) (k : JSString) (v : JSValue)
    (h : keyFollows (acc.map Prod.fst) k = true) : setProp acc k v = acc ++ [(k, v)] := by
  unfold keyFollows at h
  simp only [Bool.and_eq_true, decide_eq_true_eq] at h
  obtain ⟨hmem, hidx⟩ := h
  unfold setProp
  rw [getProp_none_of_not_mem acc k hmem]
  cases hi : arrayIndex k with
  | none => rfl
  | some i =>
    simp only
    apply insertIndexProp_last
    intro k1 hk1
    rw [hi] at hidx
    simp only [List.all_eq_true] at hidx
    have := hidx k1 hk1
    cases hj : arrayIndex k1 with
    | none => rw [hj] at this; cases this
    | some j =>
      rw [hj] at this
      exact ⟨j, rfl, by simpa using this⟩

theorem foldl_setProp (members acc : List (JSString × JSValue))
    (h : canonicalFrom (acc.map Prod.fst) members = true) :
    members.foldl (fun o m => setProp o m.1 m.2) acc = acc ++ members := by
  induction members generalizing acc with
  | nil => simp
  | cons m ms ih =>
    obtain ⟨k, v⟩ := m
    simp only [canonicalFrom, Bool.and_eq_true] at h
    simp only [List.foldl_cons]
    rw [setProp_last acc k v h.1, ih (acc ++ [(k, v)]) (by simpa using h.2)]
    simp

theorem stringify_head (v : JSValue) : ∃ c tail, v.stringify = c :: tail ∧ IsValueHead c := by
  cases v with
  | null => exact ⟨110, _, rfl, Or.inl rfl⟩
  | bool b =>
    cases b
    · exact ⟨102, _, rfl, Or.inr (Or.inr (Or.inl rfl))⟩
    · exact ⟨116, _, rfl, Or.inr (Or.inl rfl)⟩
  | str s => exact ⟨34, _, rfl, Or.inr (Or.inr (Or.inr (Or.inl rfl)))⟩
  | arr items props =>
    exact ⟨91, JSValue.stringifyItems items ++ [93], by rw [JSValue.stringify]; rfl, Or.inr (Or.inr (Or.inr (Or.inr (Or.inl rfl))))⟩
  | obj props =>
    exact ⟨123, JSValue.stringifyProps props ++ [125], by rw [JSValue.stringify]; rfl, Or.inr (Or.inr (Or.inr (Or.inr (Or.inr rfl))))⟩

theorem parseValue_null (f : Nat) (rest : JSString) :
    parseValue (f + 1) (110 :: 117 :: 108 :: 108 :: rest) = .ok .null rest := rfl

theorem parseValue_true (f : Nat) (rest : JSString) :
    parseValue (f + 1) (116 :: 114 :: 117 :: 101 :: rest) = .ok (.bool true) rest := rfl

theorem parseValue_false (f : Nat) (rest : JSString) :
    parseValue (f + 1) (102 :: 97 :: 108 :: 115 :: 101 :: rest) = .ok (.bool false) rest := rfl

theorem parseValue_str (f : Nat) (body : JSString) :
    parseValue (f + 1) (34 :: body) =
      match parseStringBody body with
      | .ok s r => .ok (.str s) r
      | .syntaxError => .syntaxError
      | .unmodelled => .unmodelled := rfl

theorem parseValue_emptyArr (f : Nat) (rest : JSString) :
    parseValue (f + 1) (91 :: 93 :: rest) = .ok (.arr [] []) rest := rfl

theorem parseValue_emptyObj (f : Nat) (rest : JSString) :
    parseValue (f + 1) (123 :: 125 :: rest) = .ok (.obj []) rest := rfl

theorem parseValue_arr (f c : Nat) (xs : JSString) (hc : IsValueHead c) :
    parseValue (f + 1) (91 :: c :: xs) =
      match parseElements f (c :: xs) with
      | .ok items r1 => .ok (.arr items []) r1
      | .syntaxError => .syntaxError
      | .unmodelled => .unmodelled := by
  rcases hc with h | h | h | h | h | h <;> subst h <;> rfl

theorem parseValue_obj (f : Nat) (xs : JSString) :
    parseValue (f + 1) (123 :: 34 :: xs) =
      match parseMembers f (34 :: xs) with
      | .ok members r1 => .ok (.obj (members.foldl (fun o m => setProp o m.1 m.2) [])) r1
      | .syntaxError => .syntaxError
      | .unmodelled => .unmodelled := rfl


theorem skipWs_head (c : Nat) (xs : JSString) (h : c ≠ 9 ∧ c ≠ 10 ∧ c ≠ 13 ∧ c ≠ 32) :
    skipWs (c :: xs) = c :: xs := by
  rw [skipWs, if_neg (by omega)]

theorem stringifyProps_head (p : JSString × JSValue) (ps : List (JSString × JSValue)) :
    ∃ tail, JSValue.stringifyProps (p :: ps) = 34 :: tail := by
  obtain ⟨k, v⟩ := p
  cases ps with
  | nil => exact ⟨_, by rw [JSValue.stringifyProps]; rfl⟩
  | cons q qs => exact ⟨_, by rw [JSValue.stringifyProps]; rfl⟩

theorem stringifyItems_head (v : JSValue) (vs : List JSValue) :
    ∃ c tail, JSValue.stringifyItems (v :: vs) = c :: tail ∧ IsValueHead c := by
  obtain ⟨c, tail, h, hc⟩ := stringify_head v
  cases vs with
  | nil => exact ⟨c, tail, by rw [JSValue.stringifyItems, h], hc⟩
  | cons w ws => exact ⟨c, _, by rw [JSValue.stringifyItems, h]; rfl, hc⟩

mutual
theorem parseValue_stringify : ∀ (v : JSValue), v.isPlain = true → ∀ (fuel : Nat)
    (rest : JSString), 2 * v.stringify.length ≤ fuel →
    parseValue fuel (v.stringify ++ rest) = .ok v rest
  | .null, _, fuel, rest, hf => by
    obtain ⟨f, rfl⟩ : ∃ f, fuel = f + 1 := ⟨fuel - 1, by
      have : (JSValue.null).stringify.length = 4 := rfl
      omega⟩
    exact parseValue_null f rest
  | .bool true, _, fuel, rest, hf => by
    obtain ⟨f, rfl⟩ : ∃ f, fuel = f + 1 := ⟨fuel - 1, by
      have : (JSValue.bool true).stringify.length = 4 := rfl
      omega⟩
    exact parseValue_true f rest
  | .bool false, _, fuel, rest, hf => by
    obtain ⟨f, rfl⟩ : ∃ f, fuel = f + 1 := ⟨fuel - 1, by
      have : (JSValue.bool false).stringify.length = 5 := rfl
      omega⟩
    exact parseValue_false f rest
  | .str s, hp, fuel, rest, hf => by
    have hs : IsJSString s := by simpa [JSValue.isPlain] using hp
    have hlen : (JSValue.str s).stringify.length = (quoteUnits s).length + 2 := by
      simp [JSValue.stringify, quoteJSONString]
    obtain ⟨f, rfl⟩ : ∃ f, fuel = f + 1 := ⟨fuel - 1, by omega⟩
    have htext : (JSValue.str s).stringify ++ rest = 34 :: (quoteUnits s ++ 34 :: rest) := by
      simp [JSValue.stringify, quoteJSONString]
    rw [htext, parseValue_str, parseStringBody_quoteUnits s hs]
  | .arr [] props, hp, fuel, rest, hf => by
    have hprops : props = [] := by
      simp only [JSValue.isPlain, Bool.and_eq_true, List.isEmpty_iff] at hp
      exact hp.1
    subst hprops
    have hlen : (JSValue.arr [] []).stringify.length = 2 := rfl
    obtain ⟨f, rfl⟩ : ∃ f, fuel = f + 1 := ⟨fuel - 1, by omega⟩
    exact parseValue_emptyArr f rest
  | .arr (v :: vs) props, hp, fuel, rest, hf => by
    have hprops : props = [] := by
      simp only [JSValue.isPlain, Bool.and_eq_true, List.isEmpty_iff] at hp
      exact hp.1
    subst hprops
    have hitems : isPlainItems (v :: vs) = true := by
      simp only [JSValue.isPlain, Bool.and_eq_true] at hp
      exact hp.2
    have hlen : (JSValue.arr (v :: vs) []).stringify.length =
        (JSValue.stringifyItems (v :: vs)).length + 2 := by
      simp [JSValue.stringify]
    obtain ⟨f, rfl⟩ : ∃ f, fuel = f + 1 := ⟨fuel - 1, by omega⟩
    obtain ⟨c, tail, htail, hc⟩ := stringifyItems_head v vs
    have htext : (JSValue.arr (v :: vs) []).stringify ++ rest =
        91 :: (JSValue.stringifyItems (v :: vs) ++ 93 :: rest) := by
      simp [JSValue.stringify]
    have hpe := parseElements_stringify (v :: vs) (by simp) hitems f rest (by omega)
    rw [htext, htail, List.cons_append, parseValue_arr f c _ hc, ← List.cons_append, ← htail, hpe]
  | .obj [], _, fuel, rest, hf => by
    have hlen : (JSValue.obj []).stringify.length = 2 := rfl
    obtain ⟨f, rfl⟩ : ∃ f, fuel = f + 1 := ⟨fuel - 1, by omega⟩
    exact parseValue_emptyObj f rest
  | .obj (p :: ps), hp, fuel, rest, hf => by
    have hcanon : canonicalFrom [] (p :: ps) = true := by
      simp only [JSValue.isPlain, Bool.and_eq_true] at hp
      exact hp.1
    have hprops : isPlainProps (p :: ps) = true := by
      simp only [JSValue.isPlain, Bool.and_eq_true] at hp
      exact hp.2
    have hlen : (JSValue.obj (p :: ps)).stringify.length =
        (JSValue.stringifyProps (p :: ps)).length + 2 := by
      simp [JSValue.stringify]
    obtain ⟨f, rfl⟩ : ∃ f, fuel = f + 1 := ⟨fuel - 1, by omega⟩
    obtain ⟨tail, htail⟩ := stringifyProps_head p ps
    have htext : (JSValue.obj (p :: ps)).stringify ++ rest =
        123 :: (JSValue.stringifyProps (p :: ps) ++ 125 :: rest) := by
      simp [JSValue.stringify]
    have hpm := parseMembers_stringify (p :: ps) (by simp) hprops f rest (by omega)
    rw [htext, htail, List.cons_append, parseValue_obj f, ← List.cons_append, ← htail, hpm]
    simp only
    rw [foldl_setProp (p :: ps) [] hcanon]
    rfl
theorem parseElements_stringify : ∀ (items : List JSValue), items ≠ [] →
    isPlainItems items = true → ∀ (fuel : Nat) (rest : JSString),
    2 * (JSValue.stringifyItems items).length + 1 ≤ fuel →
    parseElements fuel (JSValue.stringifyItems items ++ 93 :: rest) = .ok items rest
  | [], h, _, _, _, _ => absurd rfl h
  | [v], _, hp, fuel, rest, hf => by
    have hv : v.isPlain = true := by
      simp only [isPlainItems, Bool.and_eq_true] at hp
      exact hp.1
    obtain ⟨f, rfl⟩ : ∃ f, fuel = f + 1 := ⟨fuel - 1, by omega⟩
    have hlen : (JSValue.stringifyItems [v]).length = v.stringify.length := by
      rw [JSValue.stringifyItems]
    rw [JSValue.stringifyItems, parseElements,
      parseValue_stringify v hv f (93 :: rest) (by omega)]
    rfl
  | v :: w :: ws, _, hp, fuel, rest, hf => by
    have hv : v.isPlain = true := by
      simp only [isPlainItems, Bool.and_eq_true] at hp
      exact hp.1
    have hws : isPlainItems (w :: ws) = true := by
      rw [isPlainItems, Bool.and_eq_true] at hp
      exact hp.2
    obtain ⟨f, rfl⟩ : ∃ f, fuel = f + 1 := ⟨fuel - 1, by omega⟩
    have hlen : (JSValue.stringifyItems (v :: w :: ws)).length =
        v.stringify.length + 1 + (JSValue.stringifyItems (w :: ws)).length := by
      rw [JSValue.stringifyItems]; simp; omega
    have htext : JSValue.stringifyItems (v :: w :: ws) ++ 93 :: rest =
        v.stringify ++ 44 :: (JSValue.stringifyItems (w :: ws) ++ 93 :: rest) := by
      rw [JSValue.stringifyItems]; simp
    rw [htext, parseElements, parseValue_stringify v hv f _ (by omega)]
    simp only [skipWs_head 44 _ (by decide)]
    rw [parseElements_stringify (w :: ws) (by simp) hws f rest (by omega)]
theorem parseMembers_stringify : ∀ (props : List (JSString × JSValue)), props ≠ [] →
    isPlainProps props = true → ∀ (fuel : Nat) (rest : JSString),
    2 * (JSValue.stringifyProps props).length + 1 ≤ fuel →
    parseMembers fuel (JSValue.stringifyProps props ++ 125 :: rest) = .ok props rest
  | [], h, _, _, _, _ => absurd rfl h
  | [(k, v)], _, hp, fuel, rest, hf => by
    have hk : IsJSString k := by
      simp only [isPlainProps, Bool.and_eq_true, decide_eq_true_eq] at hp
      exact hp.1.1
    have hv : v.isPlain = true := by
      simp only [isPlainProps, Bool.and_eq_true] at hp
      exact hp.1.2
    obtain ⟨f, rfl⟩ : ∃ f, fuel = f + 1 := ⟨fuel - 1, by omega⟩
    have hlen : (JSValue.stringifyProps [(k, v)]).length =
        (quoteUnits k).length + 3 + v.stringify.length := by
      rw [JSValue.stringifyProps]; simp [quoteJSONString]; omega
    have htext : JSValue.stringifyProps [(k, v)] ++ 125 :: rest =
        34 :: (quoteUnits k ++ 34 :: 58 :: (v.stringify ++ 125 :: rest)) := by
      rw [JSValue.stringifyProps]; simp [quoteJSONString]
    rw [htext, parseMembers]
    simp only [skipWs_head 34 _ (by decide), parseStringBody_quoteUnits k hk,
      skipWs_head 58 _ (by decide)]
    rw [parseValue_stringify v hv f _ (by omega)]
    rfl
  | (k, v) :: q :: qs, _, hp, fuel, rest, hf => by
    have hk : IsJSString k := by
      simp only [isPlainProps, Bool.and_eq_true, decide_eq_true_eq] at hp
      exact hp.1.1
    have hv : v.isPlain = true := by
      simp only [isPlainProps, Bool.and_eq_true] at hp
      exact hp.1.2
    have hqs : isPlainProps (q :: qs) = true := by
      rw [isPlainProps, Bool.and_eq_true] at hp
      exact hp.2
    obtain ⟨f, rfl⟩ : ∃ f, fuel = f + 1 := ⟨fuel - 1, by omega⟩
    have hlen : (JSValue.stringifyProps ((k, v) :: q :: qs)).length =
        (quoteUnits k).length + 3 + v.stringify.length + 1 +
          (JSValue.stringifyProps (q :: qs)).length := by
      rw [JSValue.stringifyProps]; simp [quoteJSONString]; omega
    have htext : JSValue.stringifyProps ((k, v) :: q :: qs) ++ 125 :: rest =
        34 :: (quoteUnits k ++ 34 :: 58 ::
          (v.stringify ++ 44 :: (JSValue.stringifyProps (q :: qs) ++ 125 :: rest))) := by
      rw [JSValue.stringifyProps]; simp [quoteJSONString]
    rw [htext, parseMembers]
    simp only [skipWs_head 34 _ (by decide), parseStringBody_quoteUnits k hk,
      skipWs_head 58 _ (by decide)]
    rw [parseValue_stringify v hv f _ (by omega)]
    simp only [skipWs_head 44 _ (by decide)]
    rw [parseMembers_stringify (q :: qs) (by simp) hqs f rest (by omega)]
end

theorem jsonParse_stringify (v : JSValue) (h : v.isPlain = true) :
    jsonParse v.stringify = some (.ok v) := by
  unfold jsonParse
  have := parseValue_stringify v h (2 * v.stringify.length + 2) [] (by omega)
  rw [List.append_nil] at this
  rw [this]
  rfl

/-! ## One key under `"default"` -/

theorem ensureKid_kid (v v1 : JSValue) (h : ensureKid v = some v1)
    (hk : isTruthy (kidOf v) = false ∨ kidOf v = some (.str (js "default"))) :
    kidOf v1 = some (.str (js "default")) := by
  have ht : isTruthy (some (JSValue.str (js "default"))) = true := by decide
  cases v with
  | null => simp [ensureKid] at h
  | bool b => simp [ensureKid] at h
  | str s => simp [ensureKid] at h
  | arr items props =>
    simp only [kidOf] at hk
    simp only [ensureKid] at h
    by_cases hp : isTruthy (getProp props (js "kid")) = true
    · rw [if_pos hp] at h
      rcases hk with hk | hk
      · rw [hk] at hp; cases hp
      · rw [← Option.some.inj h]; exact hk
    · rw [if_neg hp] at h
      rw [← Option.some.inj h]
      exact getProp_setProp_kid props _
  | obj props =>
    simp only [kidOf] at hk
    simp only [ensureKid] at h
    by_cases hp : isTruthy (getProp props (js "kid")) = true
    · rw [if_pos hp] at h
      rcases hk with hk | hk
      · rw [hk] at hp; cases hp
      · rw [← Option.some.inj h]; exact hk
    · rw [if_neg hp] at h
      rw [← Option.some.inj h]
      exact getProp_setProp_kid props _

theorem singleDefaultKey_open (db : DB) (h : SingleDefaultKey db) :
    SingleDefaultKey (openWithUpgrade db) := by
  unfold SingleDefaultKey at *
  rw [openWithUpgrade_records]
  exact h

theorem singleDefaultKey_put (rs : List (IDBKey × JSValue)) (v : JSValue)
    (h : SingleDefaultKey (.keys rs)) (hv : kidOf v = some (.str (js "default"))) :
    SingleDefaultKey (.keys (putRecord defaultKey v rs)) := by
  right
  refine ⟨v, ?_, hv⟩
  rcases h with h | ⟨K, h, _⟩
  · have : rs = [] := h
    subst this
    rfl
  · have : rs = [(defaultKey, K)] := h
    subst this
    simp [DB.records, putRecord, defaultKey_beq]

theorem singleDefaultKey_storeKey (db : DB) (v : JSValue) (h : SingleDefaultKey db)
    (hk : isTruthy (kidOf v) = false ∨ kidOf v = some (.str (js "default"))) :
    SingleDefaultKey (storeKey db v).2 := by
  have main : ∀ rs, SingleDefaultKey (.keys rs) → SingleDefaultKey (storeKey (.keys rs) v).2 := by
    intro rs hrs
    unfold storeKey
    simp only [openWithUpgrade]
    cases he : ensureKid v with
    | none => exact hrs
    | some v1 =>
      have hv1 := ensureKid_kid v v1 he hk
      simp only [hv1, Option.some_bind, JSValue.toKey]
      exact singleDefaultKey_put rs v1 hrs hv1
  cases db with
  | absent => exact main [] (Or.inl rfl)
  | noStore => exact Or.inl rfl
  | keys rs => exact main rs h

theorem singleDefaultKey_generateKey (W : WebCrypto) (hW : W.Lawful) (db : DB) (seed : Nat)
    (h : SingleDefaultKey db) : SingleDefaultKey (generateKey W db seed).2 := by
  unfold generateKey
  apply singleDefaultKey_storeKey db _ h
  left
  simp only [kidOf, hW.generated_kid seed]
  rfl

theorem encryptFile_snd (W : WebCrypto) {maxArguments : Nat} (db : DB) (seed : Nat)
    (random : Nat → Nat)
    (fileContent : JSString) :
    (encryptFile W maxArguments db seed random fileContent).2 = openWithUpgrade db ∨
      (encryptFile W maxArguments db seed random fileContent).2 =
        (generateKey W (openWithUpgrade db) seed).2 := by
  unfold encryptFile
  rw [getKey_eq]
  cases lookupRecord defaultKey db.records with
  | none =>
    right
    simp only
    cases hg : generateKey W (openWithUpgrade db) seed with
    | mk o d => cases o <;> rfl
  | some K =>
    by_cases hK : K.truthy = true
    · left; simp only [hK, if_true]
    · right
      simp only [hK, Bool.false_eq_true, if_false]
      cases hg : generateKey W (openWithUpgrade db) seed with
      | mk o d => cases o <;> rfl

theorem singleDefaultKey_deleteKey (db : DB) (h : SingleDefaultKey db) :
    SingleDefaultKey (deleteKey db).2 := by
  cases db with
  | absent => exact Or.inl rfl
  | noStore => exact Or.inl rfl
  | keys rs =>
    left
    rcases h with h | ⟨K, h, _⟩
    · have : rs = [] := h
      subst this
      rfl
    · have : rs = [(defaultKey, K)] := h
      subst this
      simp [deleteKey, openPlain, DB.records, deleteRecord, defaultKey_beq]

theorem singleDefaultKey_runCall (W : WebCrypto) {maxArguments : Nat} (hW : W.Lawful)
    (db db1 : DB) (c : Call)
    (h : SingleDefaultKey db) (hc : DefaultKid c) (hrun : runCall W maxArguments db c = some db1) :
    SingleDefaultKey db1 := by
  cases c with
  | generateKey seed =>
    simp only [runCall, Option.some.injEq] at hrun
    subst hrun
    exact singleDefaultKey_generateKey W hW db seed h
  | encryptFile seed random fileContent =>
    simp only [runCall, Option.some.injEq] at hrun
    subst hrun
    rcases encryptFile_snd W db seed random fileContent with he | he <;> rw [he]
    · exact singleDefaultKey_open db h
    · exact singleDefaultKey_generateKey W hW _ seed (singleDefaultKey_open db h)
  | importKey base64Key =>
    simp only [runCall, importKey] at hrun
    cases ha : atob base64Key with
    | error e =>
      simp only [ha, Option.map_some', Option.some.injEq] at hrun
      subst hrun; exact h
    | ok keyJson =>
      simp only [ha] at hrun
      cases hp : jsonParse keyJson with
      | none => simp [hp] at hrun
      | some res =>
        cases res with
        | error e =>
          simp only [hp, Option.map_some', Option.some.injEq] at hrun
          subst hrun; exact h
        | ok keyData =>
          have hk := hc keyJson keyData ha hp
          have hs := singleDefaultKey_storeKey db keyData h hk
          simp only [hp] at hrun
          cases hst : storeKey db keyData with
          | mk o d =>
            rw [hst] at hrun hs
            cases o <;> simp only [Option.map_some', Option.some.injEq] at hrun <;>
              (subst hrun; exact hs)
  | deleteKey =>
    simp only [runCall, Option.some.injEq] at hrun
    subst hrun
    exact singleDefaultKey_deleteKey db h

theorem singleDefaultKey_runCalls (W : WebCrypto) {maxArguments : Nat} (hW : W.Lawful)
    (calls : List Call)
    (db db1 : DB) (h : SingleDefaultKey db) (hc : ∀ c ∈ calls, DefaultKid c)
    (hrun : runCalls W maxArguments db calls = some db1) : SingleDefaultKey db1 := by
  induction calls generalizing db with
  | nil =>
    simp only [runCalls, Option.some.injEq] at hrun
    subst hrun; exact h
  | cons c rest ih =>
    simp only [runCalls] at hrun
    cases hr : runCall W maxArguments db c with
    | none => simp [hr] at hrun
    | some db2 =>
      rw [hr] at hrun
      exact ih db2 (singleDefaultKey_runCall W hW db db2 c h (hc c (by simp)) hr)
        (fun x hx => hc x (by simp [hx])) hrun

/-- C7 (as amended). After every sequence of `generateKey`, `encryptFile`,
`deleteKey` and `importKey` calls that starts from an empty key store, the
`importKey` calls being of records whose `kid` is absent, falsy or
`"default"`, the store holds at most one key record; if it holds one, the
record is stored under `"default"`, its `kid` is `"default"`, and it is the
record `getKey` returns. -/
theorem key_store_single_default (W : WebCrypto) (maxArguments : Nat) (hW : W.Lawful)
    (db0 : DB) (h0 : db0 = .absent ∨ db0 = .keys []) (calls : List Call)
    (hcalls : ∀ c ∈ calls, DefaultKid c) (db : DB)
    (hrun : runCalls W maxArguments db0 calls = some db) :
    db.records.length ≤ 1 ∧
      ∀ key K, (key, K) ∈ db.records →
        key = defaultKey ∧ kidOf K = some (.str (js "default")) ∧ (getKey db).1 = some K := by
  have hinit : SingleDefaultKey db0 := by
    rcases h0 with h | h <;> subst h <;> exact Or.inl rfl
  have h := singleDefaultKey_runCalls W hW calls db0 db hinit hcalls hrun
  rcases h with h | ⟨K, h, hk⟩
  · rw [h]
    simp
  · rw [getKey_fst, h]
    refine ⟨by simp, ?_⟩
    intro key K1 hmem
    simp only [List.mem_singleton, Prod.mk.injEq] at hmem
    obtain ⟨rfl, rfl⟩ := hmem
    exact ⟨rfl, hk, by simp [lookupRecord, defaultKey_beq]⟩

/-- C7 (as amended) for the calls `importKey` of an empty object, `encryptFile`,
`deleteKey`, `generateKey`. -/
theorem key_store_single_default_witness :
    (DB.keys [(defaultKey, storedKey sampleCrypto 3)]).records.length ≤ 1 ∧
      ∀ key K, (key, K) ∈ (DB.keys [(defaultKey, storedKey sampleCrypto 3)]).records →
        key = defaultKey ∧ kidOf K = some (.str (js "default")) ∧
          (getKey (.keys [(defaultKey, storedKey sampleCrypto 3)])).1 = some K :=
  key_store_single_default sampleCrypto 120000 sampleCrypto_lawful .absent (Or.inl rfl)
    [.importKey (js "e30="), .encryptFile 7 (fun i => i) (js "hi"), .deleteKey, .generateKey 3]
    (by
      intro c hc
      simp only [List.mem_cons, List.mem_singleton, List.not_mem_nil, or_false] at hc
      rcases hc with h | h | h | h <;> subst h
      · intro keyJson keyData ha hp
        have h1 : atob (js "e30=") = .ok (js "\x7b\x7d") := rfl
        rw [h1] at ha
        cases ha
        have h2 : jsonParse (js "\x7b\x7d") = some (.ok (.obj [])) := rfl
        rw [h2] at hp
        cases hp
        exact Or.inl rfl
      · trivial
      · trivial
      · trivial)
    (.keys [(defaultKey, storedKey sampleCrypto 3)]) rfl

/-- C7 as stated fails: `importKey` of the record with `kid` `"backup"` stores
it under `"backup"`, where `getKey` does not find it, and a key generated
afterwards is a second record of the store. -/
theorem key_store_single_default_counterexample :
    atob (js "eyJraWQiOiJiYWNrdXAiLCJrIjoiYWJjIn0=") = .ok (js "\x7b\"kid\":\"backup\",\"k\":\"abc\"\x7d") ∧
    importKey .absent (js "eyJraWQiOiJiYWNrdXAiLCJrIjoiYWJjIn0=") =
      some (.returned (), .keys [(.str (js "backup"),
        .obj [(js "kid", .str (js "backup")), (js "k", .str (js "abc"))])]) ∧
    (getKey (.keys [(.str (js "backup"),
        .obj [(js "kid", .str (js "backup")), (js "k", .str (js "abc"))])])).1 = none ∧
    runCalls sampleCrypto 120000 .absent
        [.importKey (js "eyJraWQiOiJiYWNrdXAiLCJrIjoiYWJjIn0="), .generateKey 7] =
      some (.keys [(.str (js "backup"),
          .obj [(js "kid", .str (js "backup")), (js "k", .str (js "abc"))]),
        (defaultKey, storedKey sampleCrypto 7)]) :=
  ⟨rfl, rfl, rfl, rfl⟩

theorem btoa_latin1 (text : JSString) (h : ∀ u ∈ text, u ≤ 255) :
    btoa text = .ok (base64Encode text) :=
  btoa_of_bytes text (fun u hu => by have := h u hu; omega)

theorem storeKey_default (db : DB) (hdb : db = .absent ∨ db = .keys [])
    (props : List (JSString × JSValue))
    (hkid : getProp props (js "kid") = some (.str (js "default"))) :
    storeKey db (.obj props) = (.returned (.obj props), .keys [(defaultKey, .obj props)]) := by
  have ht : isTruthy (some (JSValue.str (js "default"))) = true := by decide
  rcases hdb with h | h <;> subst h <;>
    simp only [storeKey, openWithUpgrade, ensureKid, hkid, ht, if_true, kidOf, Option.some_bind,
      JSValue.toKey] <;> rfl

/-- C6 (as amended). Let the key store hold under `"default"` a record `K`
that is an object as `JSON.parse` returns them (`isPlain`), with `kid`
`"default"`, whose JSON text has no code unit above U+00FF; every key the
service generates is such a record. Then `exportKey` returns a string `s`,
`importKey(s)` on a fresh key store succeeds, `getKey` on that store returns
`K`, and `decryptFile` there gives for every input what it gives on the first
store. -/
theorem exportKey_importKey (W : WebCrypto) (db : DB) (props : List (JSString × JSValue))
    (hget : (getKey db).1 = some (.obj props))
    (hkid : getProp props (js "kid") = some (.str (js "default")))
    (hlatin : ∀ u ∈ (JSValue.obj props).stringify, u ≤ 255)
    (hplain : (JSValue.obj props).isPlain = true)
    (fresh : DB) (hfresh : fresh = .absent ∨ fresh = .keys []) :
    ∃ s, (exportKey db).1 = .returned s ∧
      importKey fresh s = some (.returned (), .keys [(defaultKey, .obj props)]) ∧
      (getKey (.keys [(defaultKey, .obj props)])).1 = some (.obj props) ∧
      ∀ encryptedBase64, (decryptFile W (.keys [(defaultKey, .obj props)]) encryptedBase64).1 =
        (decryptFile W db encryptedBase64).1 := by
  have hlook : lookupRecord defaultKey [(defaultKey, JSValue.obj props)] =
      some (JSValue.obj props) := by
    simp [lookupRecord, defaultKey_beq]
  rw [getKey_fst] at hget
  refine ⟨base64Encode (JSValue.obj props).stringify, ?_, ?_, ?_, ?_⟩
  · unfold exportKey
    rw [getKey_eq, hget]
    simp only [JSValue.truthy, if_true, btoa_latin1 _ hlatin]
  · unfold importKey
    rw [atob_base64Encode _ (fun u hu => by have := hlatin u hu; omega)]
    simp only [jsonParse_stringify _ hplain, storeKey_default fresh hfresh props hkid]
  · rw [getKey_keys, hlook]
  · intro encryptedBase64
    unfold decryptFile
    rw [getKey_keys, hlook, getKey_eq, hget]
    simp only [JSValue.truthy, if_true]

/-- C6 (as amended) for the key the sample implementation generates. -/
theorem exportKey_importKey_witness :
    ∃ s, (exportKey sampleStore).1 = .returned s ∧
      importKey .absent s = some (.returned (), sampleStore) ∧
      (getKey sampleStore).1 = some (storedKey sampleCrypto 7) :=
  match exportKey_importKey sampleCrypto sampleStore
      (setProp (sampleJwk 7) (js "kid") (.str (js "default"))) rfl rfl (by decide) (by decide)
      .absent (Or.inl rfl) with
  | ⟨s, h1, h2, h3, _⟩ => ⟨s, h1, h2, h3⟩

/-- C6 as stated fails: a record with a string outside Latin-1, stored by
`importKey`, is held under `"default"`, and `exportKey` raises the
`InvalidCharacterError` of `btoa`. -/
theorem exportKey_importKey_counterexample :
    importKey .absent (js "eyJraWQiOiJkZWZhdWx0Iiwibm90ZSI6Ilx1NGUyZCJ9") =
      some (.returned (), .keys [(defaultKey,
        .obj [(js "kid", .str (js "default")), (js "note", .str [0x4E2D])])]) ∧
    (getKey (.keys [(defaultKey,
        .obj [(js "kid", .str (js "default")), (js "note", .str [0x4E2D])])])).1 =
      some (.obj [(js "kid", .str (js "default")), (js "note", .str [0x4E2D])]) ∧
    (exportKey (.keys [(defaultKey,
        .obj [(js "kid", .str (js "default")), (js "note", .str [0x4E2D])])])).1 =
      .threw .invalidCharacter :=
  ⟨rfl, rfl, rfl⟩

/-! ## The ledger client -/

theorem unconfigured_cases :
    unconfigured none = true ∧ unconfigured (some []) = true ∧
      unconfigured (some (js "0x...")) = true ∧
      ∀ address : JSString, address.length < 10 → unconfigured (some address) = true := by
  refine ⟨rfl, rfl, by decide, ?_⟩
  intro address h
  simp [unconfigured, h]

theorem requestAnalysis_mock (w : Wallets) (contract : Option JSString) (client : LedgerClient)
    (now : Nat) (h : Option JSString) (kind : WalletKind) (wallet : Wallet)
    (hw : anyWallet w = some (kind, wallet)) (hc : unconfigured contract = true) :
    requestAnalysis w contract client now h = (.returned (mockAnalysis now), []) := by
  unfold requestAnalysis
  rw [hw]
  cases contract with
  | none => rfl
  | some address => simp only [hc, if_true]

theorem anyWallet_isSome (w : Wallets) (h : w.aptos.isSome = true ∨ w.martian.isSome = true) :
    ∃ kind wallet, anyWallet w = some (kind, wallet) := by
  unfold anyWallet
  cases ha : w.aptos with
  | some wallet => exact ⟨_, _, rfl⟩
  | none =>
    cases hm : w.martian with
    | some wallet => exact ⟨_, _, rfl⟩
    | none => simp [ha, hm] at h

theorem anyWallet_none (w : Wallets) (ha : w.aptos = none) (hm : w.martian = none) :
    anyWallet w = none := by
  unfold anyWallet
  rw [ha, hm]

/-- C11 (as amended). When the contract address is unset, empty, the
placeholder `0x...` or shorter than 10 characters and a wallet (Petra or
Martian) is installed, `requestAnalysis` makes no call to a wallet or to the
ledger node and returns, for every identifier, the record with `success` and
`mock` `true`, the `analysisId` 1 and a `transactionHash` that is `0xmock`
followed by the time in milliseconds. When no wallet is installed it raises
the error "No Aptos wallet connected" also then. -/
theorem requestAnalysis_unconfigured (w : Wallets) (contract : Option JSString)
    (client : LedgerClient) (now : Nat) (encryptedFileHash : Option JSString)
    (hc : contract = none ∨ contract = some [] ∨ contract = some (js "0x...") ∨
      ∃ address, contract = some address ∧ address.length < 10) :
    (w.aptos.isSome = true ∨ w.martian.isSome = true →
      ∃ record, requestAnalysis w contract client now encryptedFileHash = (.returned record, []) ∧
        record.success = true ∧ record.mock = some true ∧ record.analysisId = .int 1 ∧
        record.transactionHash = js "0xmock" ++ decimal now ∧
        startsWith record.transactionHash (js "0xmock") = true ∧
        record.transactionHash ≠ []) ∧
    (w.aptos = none → w.martian = none →
      requestAnalysis w contract client now encryptedFileHash =
        (.threw (.error (js "No Aptos wallet connected. Please install Petra or Martian.")),
          [])) := by
  have hun : unconfigured contract = true := by
    rcases hc with h | h | h | ⟨address, h, hlen⟩ <;> subst h
    · exact unconfigured_cases.1
    · exact unconfigured_cases.2.1
    · exact unconfigured_cases.2.2.1
    · exact unconfigured_cases.2.2.2 address hlen
  constructor
  · intro hw
    obtain ⟨kind, wallet, hany⟩ := anyWallet_isSome w hw
    refine ⟨mockAnalysis now, requestAnalysis_mock w contract client now _ kind wallet hany hun,
      rfl, rfl, rfl, rfl, ?_, ?_⟩
    · simp [mockAnalysis, startsWith, List.isPrefixOf_iff_prefix]
    · have hj : js "0xmock" = [48, 120, 109, 111, 99, 107] := by decide
      show js "0xmock" ++ decimal now ≠ []
      rw [hj]
      simp
  · intro ha hm
    unfold requestAnalysis
    rw [anyWallet_none w ha hm]

/-- C11 (as amended) for an address that was never set and the Petra wallet. -/
theorem requestAnalysis_unconfigured_witness :
    ∃ record, requestAnalysis ⟨some sampleWallet, none⟩ none (sampleClient .null) 1730000000000
        (some (js "QmX")) = (.returned record, []) ∧
      record.success = true ∧ record.mock = some true ∧ record.analysisId = .int 1 ∧
      record.transactionHash = js "0xmock" ++ decimal 1730000000000 ∧
      startsWith record.transactionHash (js "0xmock") = true ∧
      record.transactionHash ≠ [] :=
  (requestAnalysis_unconfigured ⟨some sampleWallet, none⟩ none (sampleClient .null)
    1730000000000 (some (js "QmX")) (Or.inl rfl)).1 (Or.inl rfl)

/-- C11 as stated fails: with no wallet installed `requestAnalysis` raises an
error although the contract address is not set. -/
theorem requestAnalysis_unconfigured_counterexample :
    requestAnalysis ⟨none, none⟩ none (sampleClient .null) 1730000000000 (some (js "QmX")) =
      (.threw (.error (js "No Aptos wallet connected. Please install Petra or Martian.")), []) :=
  rfl

theorem confirmAnalysis_returned (client : LedgerClient) (txHash : JSString)
    (trace trace1 : List LedgerCall) (record : AnalysisRecord)
    (h : confirmAnalysis client txHash trace = (.returned record, trace1)) :
    client.waitForTransaction txHash = .returned () ∧ record.transactionHash = txHash ∧
      record.mock = none ∧ record.success = true := by
  unfold confirmAnalysis at h
  cases hw : client.waitForTransaction txHash with
  | threw e => rw [hw] at h; cases h
  | pending => rw [hw] at h; cases h
  | returned u =>
    rw [hw] at h
    simp only at h
    cases hg : client.getTransactionByHash txHash with
    | threw e => rw [hg] at h; cases h
    | pending => rw [hg] at h; cases h
    | returned txn =>
      rw [hg] at h
      simp only [Prod.mk.injEq, Outcome.returned.injEq] at h
      obtain ⟨h1, _⟩ := h
      subst h1
      exact ⟨rfl, rfl, rfl, rfl⟩

theorem submitAnalysis_returned (client : LedgerClient) (kind : WalletKind) (wallet : Wallet)
    (payload : Payload) (record : AnalysisRecord) (trace : List LedgerCall)
    (h : submitAnalysis client kind wallet payload = (.returned record, trace)) :
    ∃ txHash, wallet.signAndSubmitTransaction payload = .returned (some (some txHash)) ∧
      txHash ≠ [] ∧ client.waitForTransaction txHash = .returned () ∧
      record.transactionHash = txHash ∧ record.mock = none ∧ record.success = true := by
  unfold submitAnalysis at h
  cases ha : wallet.account with
  | threw e => rw [ha] at h; cases h
  | pending => rw [ha] at h; cases h
  | returned account =>
    rw [ha] at h
    simp only at h
    cases hadr : account.bind (·.address) with
    | none => rw [hadr] at h; cases h
    | some address =>
      rw [hadr] at h
      simp only at h
      by_cases hempty : address.isEmpty = true
      · rw [if_pos hempty] at h; cases h
      · rw [if_neg hempty] at h
        cases hg : client.generateTransaction address payload with
        | threw e => rw [hg] at h; cases h
        | pending => rw [hg] at h; cases h
        | returned ok =>
          rw [hg] at h
          cases ok with
          | false => cases h
          | true =>
            simp only at h
            cases hs : wallet.signAndSubmitTransaction payload with
            | threw e => rw [hs] at h; cases h
            | pending => rw [hs] at h; cases h
            | returned pendingTxn =>
              rw [hs] at h
              cases pendingTxn with
              | none => cases h
              | some hash =>
                cases hash with
                | none => cases h
                | some txHash =>
                  simp only at h
                  by_cases hte : txHash.isEmpty = true
                  · rw [if_pos hte] at h; cases h
                  · rw [if_neg hte] at h
                    obtain ⟨h1, h2, h3, h4⟩ := confirmAnalysis_returned client txHash _ _ _ h
                    refine ⟨txHash, rfl, ?_, h1, h2, h3, h4⟩
                    intro hnil
                    exact hte (by rw [hnil]; rfl)

/-- C12. A record that `requestAnalysis` returns has `mock` `true` exactly
when the contract address is unconfigured. With a configured address a record
is returned only if `signAndSubmitTransaction` of the wallet returned a
non-empty hash and `waitForTransaction` of that hash completed, and the
`transactionHash` of the record is that hash. If the wallet returns a pending
transaction without a hash (or with an empty one), the call raises "Failed to
get transaction hash" and has neither waited for the confirmation nor fetched
the transaction; if it returns `null`, the call raises a `TypeError` at the
same place. -/
theorem requestAnalysis_record (w : Wallets) (contract : Option JSString)
    (client : LedgerClient) (now : Nat) (encryptedFileHash : Option JSString) :
    (∀ record trace,
      requestAnalysis w contract client now encryptedFileHash = (.returned record, trace) →
      (record.mock = some true ↔ unconfigured contract = true) ∧
      (unconfigured contract = false →
        ∃ kind wallet address txHash, anyWallet w = some (kind, wallet) ∧
          contract = some address ∧
          wallet.signAndSubmitTransaction (requestPayload address encryptedFileHash) =
            .returned (some (some txHash)) ∧
          txHash ≠ [] ∧ client.waitForTransaction txHash = .returned () ∧
          record.transactionHash = txHash)) ∧
    (∀ kind wallet address account sender hash,
      anyWallet w = some (kind, wallet) → contract = some address →
      unconfigured contract = false →
      wallet.account = .returned (some account) → account.address = some sender →
      sender ≠ [] →
      client.generateTransaction sender (requestPayload address encryptedFileHash) =
        .returned true →
      (wallet.signAndSubmitTransaction (requestPayload address encryptedFileHash) =
          .returned (some hash) → isFalsyString hash = true →
        requestAnalysis w contract client now encryptedFileHash =
          (.threw (.error (js "Failed to get transaction hash")),
            [.account kind,
              .generateTransaction sender (requestPayload address encryptedFileHash),
              .signAndSubmitTransaction kind (requestPayload address encryptedFileHash)])) ∧
      (wallet.signAndSubmitTransaction (requestPayload address encryptedFileHash) =
          .returned none →
        requestAnalysis w contract client now encryptedFileHash =
          (.threw .typeError,
            [.account kind,
              .generateTransaction sender (requestPayload address encryptedFileHash),
              .signAndSubmitTransaction kind (requestPayload address encryptedFileHash)]))) := by
  constructor
  · intro record trace h
    unfold requestAnalysis at h
    cases hany : anyWallet w with
    | none => rw [hany] at h; cases h
    | some kw =>
      obtain ⟨kind, wallet⟩ := kw
      rw [hany] at h
      simp only at h
      cases contract with
      | none =>
        simp only [Prod.mk.injEq, Outcome.returned.injEq] at h
        obtain ⟨h1, _⟩ := h
        subst h1
        exact ⟨⟨fun _ => rfl, fun _ => rfl⟩, fun hc => by cases hc⟩
      | some address =>
        simp only at h
        by_cases hc : unconfigured (some address) = true
        · rw [if_pos hc] at h
          simp only [Prod.mk.injEq, Outcome.returned.injEq] at h
          obtain ⟨h1, _⟩ := h
          subst h1
          exact ⟨⟨fun _ => hc, fun _ => rfl⟩, fun hc1 => by rw [hc] at hc1; cases hc1⟩
        · rw [if_neg hc] at h
          obtain ⟨txHash, hs, hne, hwait, hrec, hmock, _⟩ :=
            submitAnalysis_returned client kind wallet _ record trace h
          refine ⟨⟨fun hm => ?_, fun hu => absurd hu hc⟩, fun _ =>
            ⟨kind, wallet, address, txHash, rfl, rfl, hs, hne, hwait, hrec⟩⟩
          rw [hmock] at hm
          cases hm
  · intro kind wallet address account sender hash hany hcon hun hacc hadr hsender hgen
    subst hcon
    have hse : sender.isEmpty = false := by
      cases sender with
      | nil => exact absurd rfl hsender
      | cons x xs => rfl
    have hstart : requestAnalysis w (some address) client now encryptedFileHash =
        submitAnalysis client kind wallet (requestPayload address encryptedFileHash) := by
      unfold requestAnalysis
      rw [hany]
      simp only [hun, Bool.false_eq_true, if_false]
    constructor
    · intro hs hf
      rw [hstart]
      unfold submitAnalysis
      simp only [hacc, Option.some_bind, hadr, hse, Bool.false_eq_true, if_false, hgen, hs]
      cases hash with
      | none => rfl
      | some txHash =>
        have : txHash.isEmpty = true := hf
        simp only [this, if_true]
    · intro hs
      rw [hstart]
      unfold submitAnalysis
      simp only [hacc, Option.some_bind, hadr, hse, Bool.false_eq_true, if_false, hgen, hs]

theorem requestAnalysis_record_witness :
    ∃ record trace,
      requestAnalysis ⟨some sampleWallet, none⟩ (some (js "0x1234567890")) (sampleClient .null)
        1730000000000 (some (js "QmX")) = (.returned record, trace) ∧
      record.mock ≠ some true ∧ record.transactionHash = js "0xtx1" ∧
      record.analysisId = .str (js "7") ∧
      trace = [.account .petra,
        .generateTransaction (js "0xabc") (requestPayload (js "0x1234567890") (some (js "QmX"))),
        .signAndSubmitTransaction .petra (requestPayload (js "0x1234567890") (some (js "QmX"))),
        .waitForTransaction (js "0xtx1"), .getTransactionByHash (js "0xtx1")] :=
  ⟨_, _, rfl,
    fun h => absurd (((requestAnalysis_record ⟨some sampleWallet, none⟩
      (some (js "0x1234567890")) (sampleClient .null) 1730000000000 (some (js "QmX"))).1
      _ _ rfl).1.1 h) (by decide),
    rfl, rfl, rfl⟩

theorem submitAnalysis_payload (client : LedgerClient) (kind : WalletKind) (wallet : Wallet)
    (payload : Payload) :
    ∀ call ∈ (submitAnalysis client kind wallet payload).2,
      (∀ sender p, call = .generateTransaction sender p → p = payload) ∧
      (∀ k p, call = .signAndSubmitTransaction k p → p = payload) := by
  unfold submitAnalysis confirmAnalysis
  intro call hcall
  split at hcall
  · simp_all
  · simp_all
  · split at hcall
    · simp_all
    · split at hcall
      · simp_all
      · split at hcall
        · simp at hcall; rcases hcall with h | h <;> subst h <;> simp
        · simp at hcall; rcases hcall with h | h <;> subst h <;> simp
        · simp at hcall; rcases hcall with h | h <;> subst h <;> simp
        · split at hcall
          · simp at hcall; rcases hcall with h | h | h <;> subst h <;> simp
          · simp at hcall; rcases hcall with h | h | h <;> subst h <;> simp
          · simp at hcall; rcases hcall with h | h | h <;> subst h <;> simp
          · split at hcall
            · simp at hcall; rcases hcall with h | h | h <;> subst h <;> simp
            · split at hcall
              · simp at hcall; rcases hcall with h | h | h <;> subst h <;> simp
              · split at hcall
                · simp at hcall; rcases hcall with h | h | h | h <;> subst h <;> simp
                · simp at hcall; rcases hcall with h | h | h | h <;> subst h <;> simp
                · split at hcall
                  · simp at hcall; rcases hcall with h | h | h | h | h <;> subst h <;> simp
                  · simp at hcall; rcases hcall with h | h | h | h | h <;> subst h <;> simp
                  · simp at hcall; rcases hcall with h | h | h | h | h <;> subst h <;> simp

/-- C13. With a configured contract address, `requestAnalysis` raises an error
without any call when no wallet is installed, and raises "Wallet not connected.
Please connect your wallet first." after the single call `account()` when the
wallet answers with no account or with an account without an address (a
rejected `account()` is passed on the same way): no call to the ledger node and
no `signAndSubmitTransaction` has been made. When the account has an address,
the next call is `generateTransaction` for that address, and every payload
handed to `generateTransaction` or `signAndSubmitTransaction` names the function
`<contract>::privacy_analysis::request_analysis` with the content identifier
as its only argument. -/
theorem requestAnalysis_wallet_first (w : Wallets) (contract : Option JSString)
    (address : JSString) (client : LedgerClient) (now : Nat)
    (encryptedFileHash : Option JSString)
    (hc : contract = some address) (hu : unconfigured contract = false) :
    (anyWallet w = none →
      requestAnalysis w contract client now encryptedFileHash =
        (.threw (.error (js "No Aptos wallet connected. Please install Petra or Martian.")),
          [])) ∧
    (∀ kind wallet, anyWallet w = some (kind, wallet) →
      (∀ account, wallet.account = .returned account →
        isFalsyString (account.bind (·.address)) = true →
        requestAnalysis w contract client now encryptedFileHash =
          (.threw (.error (js "Wallet not connected. Please connect your wallet first.")),
            [.account kind])) ∧
      (∀ e, wallet.account = .threw e →
        requestAnalysis w contract client now encryptedFileHash =
          (.threw e, [.account kind])) ∧
      (∀ account sender, wallet.account = .returned (some account) →
        account.address = some sender → sender ≠ [] →
        ∃ rest, (requestAnalysis w contract client now encryptedFileHash).2 =
          .account kind ::
            .generateTransaction sender (requestPayload address encryptedFileHash) :: rest)) ∧
    (∀ call ∈ (requestAnalysis w contract client now encryptedFileHash).2,
      (∀ sender p, call = .generateTransaction sender p →
        p = requestPayload address encryptedFileHash) ∧
      (∀ k p, call = .signAndSubmitTransaction k p →
        p = requestPayload address encryptedFileHash)) ∧
    (requestPayload address encryptedFileHash).function =
      address ++ js "::privacy_analysis::request_analysis" ∧
    (requestPayload address encryptedFileHash).arguments = [encryptedFileHash] := by
  subst hc
  refine ⟨?_, ?_, ?_, rfl, rfl⟩
  · intro hany
    unfold requestAnalysis
    rw [hany]
  · intro kind wallet hany
    have hstart : requestAnalysis w (some address) client now encryptedFileHash =
        submitAnalysis client kind wallet (requestPayload address encryptedFileHash) := by
      unfold requestAnalysis
      rw [hany]
      simp only [hu, Bool.false_eq_true, if_false]
    rw [hstart]
    refine ⟨?_, ?_, ?_⟩
    · intro account hacc hfalsy
      unfold submitAnalysis
      rw [hacc]
      simp only
      cases hadr : account.bind (·.address) with
      | none => rfl
      | some sender =>
        rw [hadr] at hfalsy
        have : sender.isEmpty = true := hfalsy
        simp only [this, if_true]
    · intro e hacc
      unfold submitAnalysis
      rw [hacc]
    · intro account sender hacc hadr hsender
      have hse : sender.isEmpty = false := by
        cases sender with
        | nil => exact absurd rfl hsender
        | cons x xs => rfl
      unfold submitAnalysis confirmAnalysis
      simp only [hacc, Option.some_bind, hadr, hse, Bool.false_eq_true, if_false]
      split
      · exact ⟨_, rfl⟩
      · exact ⟨_, rfl⟩
      · exact ⟨_, rfl⟩
      · split
        · exact ⟨_, rfl⟩
        · exact ⟨_, rfl⟩
        · exact ⟨_, rfl⟩
        · split
          · exact ⟨_, rfl⟩
          · split
            · exact ⟨_, rfl⟩
            · split
              · exact ⟨_, rfl⟩
              · exact ⟨_, rfl⟩
              · split
                · exact ⟨_, rfl⟩
                · exact ⟨_, rfl⟩
                · exact ⟨_, rfl⟩
  · intro call hcall
    cases hany : anyWallet w with
    | none =>
      unfold requestAnalysis at hcall
      rw [hany] at hcall
      simp at hcall
    | some kw =>
      obtain ⟨kind, wallet⟩ := kw
      have hstart : requestAnalysis w (some address) client now encryptedFileHash =
          submitAnalysis client kind wallet (requestPayload address encryptedFileHash) := by
        unfold requestAnalysis
        rw [hany]
        simp only [hu, Bool.false_eq_true, if_false]
      rw [hstart] at hcall
      exact submitAnalysis_payload client kind wallet _ call hcall

theorem requestAnalysis_wallet_first_witness :
    requestAnalysis ⟨none, none⟩ (some (js "0x1234567890")) (sampleClient .null)
        1730000000000 (some (js "QmX")) =
      (.threw (.error (js "No Aptos wallet connected. Please install Petra or Martian.")), []) ∧
    requestAnalysis ⟨none, some lockedWallet⟩ (some (js "0x1234567890")) (sampleClient .null)
        1730000000000 (some (js "QmX")) =
      (.threw (.error (js "Wallet not connected. Please connect your wallet first.")),
        [.account .martian]) :=
  ⟨(requestAnalysis_wallet_first ⟨none, none⟩ (some (js "0x1234567890")) (js "0x1234567890")
      (sampleClient .null) 1730000000000 (some (js "QmX")) rfl (by decide)).1 rfl,
    ((requestAnalysis_wallet_first ⟨none, some lockedWallet⟩ (some (js "0x1234567890"))
      (js "0x1234567890") (sampleClient .null) 1730000000000 (some (js "QmX")) rfl
      (by decide)).2.1 .martian lockedWallet rfl).1 none rfl rfl⟩

theorem connectWith_spec (kind : WalletKind) (wallet : Wallet) (walletType failure : JSString) :
    (connectWith kind wallet walletType failure).2 = [.connect kind] ∧
    ∀ c, (connectWith kind wallet walletType failure).1 = .returned c →
      c.walletType = walletType ∧ c.connected = true ∧ c.address ≠ [] ∧
      ∃ response, wallet.connect = .returned (some response) ∧
        response.address = some c.address ∧ response.publicKey = c.publicKey := by
  unfold connectWith
  cases hcon : wallet.connect with
  | threw e => exact ⟨rfl, fun c h => by cases h⟩
  | pending => exact ⟨rfl, fun c h => by cases h⟩
  | returned response =>
    cases response with
    | none => exact ⟨rfl, fun c h => by cases h⟩
    | some response =>
      simp only
      cases hadr : response.address with
      | none => exact ⟨rfl, fun c h => by cases h⟩
      | some address =>
        simp only
        by_cases he : address.isEmpty = true
        · rw [if_pos he]
          exact ⟨rfl, fun c h => by cases h⟩
        · rw [if_neg he]
          refine ⟨rfl, fun c h => ?_⟩
          simp only [Outcome.returned.injEq] at h
          subst h
          refine ⟨rfl, rfl, ?_, response, rfl, hadr, rfl⟩
          intro hnil
          have hnil1 : address = [] := hnil
          exact he (by rw [hnil1]; rfl)

/-- C15. The method `connectWallet` asks `window.aptos` first: when it is
present its `connect()` is the only call and a record returned has `walletType`
"petra"; when only `window.martian` is present its `connect()` is the only call
and a record returned has `walletType` "martian"; when neither is present the
call raises the no-wallet-found error without any call. Every record returned
has `connected` `true` and a non-empty `address`, the one in the response of
the wallet. -/
theorem connectWallet_order (w : Wallets) :
    (∀ petra, w.aptos = some petra →
      (connectWallet w).2 = [.connect .petra] ∧
      ∀ c, (connectWallet w).1 = .returned c → c.walletType = js "petra") ∧
    (w.aptos = none → ∀ martian, w.martian = some martian →
      (connectWallet w).2 = [.connect .martian] ∧
      ∀ c, (connectWallet w).1 = .returned c → c.walletType = js "martian") ∧
    (w.aptos = none → w.martian = none → connectWallet w = (.threw noWalletFound, [])) ∧
    (∀ c, (connectWallet w).1 = .returned c →
      c.connected = true ∧ c.address ≠ [] ∧
      ∃ kind wallet response, anyWallet w = some (kind, wallet) ∧
        wallet.connect = .returned (some response) ∧ response.address = some c.address) := by
  refine ⟨?_, ?_, ?_, ?_⟩
  · intro petra hp
    unfold connectWallet
    rw [hp]
    exact ⟨(connectWith_spec _ _ _ _).1, fun c h => ((connectWith_spec _ _ _ _).2 c h).1⟩
  · intro ha martian hm
    unfold connectWallet
    rw [ha, hm]
    exact ⟨(connectWith_spec _ _ _ _).1, fun c h => ((connectWith_spec _ _ _ _).2 c h).1⟩
  · intro ha hm
    unfold connectWallet
    rw [ha, hm]
  · intro c h
    unfold connectWallet at h
    unfold anyWallet
    cases ha : w.aptos with
    | some petra =>
      rw [ha] at h
      obtain ⟨_, h2, h3, response, h4, h5, _⟩ := (connectWith_spec _ _ _ _).2 c h
      exact ⟨h2, h3, .petra, petra, response, rfl, h4, h5⟩
    | none =>
      rw [ha] at h
      cases hm : w.martian with
      | some martian =>
        rw [hm] at h
        obtain ⟨_, h2, h3, response, h4, h5, _⟩ := (connectWith_spec _ _ _ _).2 c h
        exact ⟨h2, h3, .martian, martian, response, rfl, h4, h5⟩
      | none =>
        rw [hm] at h
        cases h

theorem connectWallet_order_witness :
    connectWallet ⟨some sampleWallet, some lockedWallet⟩ =
      (.returned ⟨js "0xabc", some (js "0xpub"), true, js "petra"⟩, [.connect .petra]) ∧
    (connectWallet ⟨some sampleWallet, some lockedWallet⟩).2 = [.connect .petra] :=
  ⟨rfl, ((connectWallet_order ⟨some sampleWallet, some lockedWallet⟩).1 sampleWallet rfl).1⟩

/-! ## The status of an analysis -/

theorem toDigitsCore_length_pos (b f m : Nat) (ds : List Char) :
    ds.length + 1 ≤ (Nat.toDigitsCore b (f + 1) m ds).length := by
  induction f generalizing m ds with
  | zero =>
    unfold Nat.toDigitsCore
    simp only
    split
    · simp
    · unfold Nat.toDigitsCore
      simp
  | succ f ih =>
    unfold Nat.toDigitsCore
    simp only
    split
    · simp
    · have := ih (m / b) (Nat.digitChar (m % b) :: ds)
      simp only [List.length_cons] at this
      omega

theorem toDigits_length_two (b n : Nat) (hb : 0 < b) (h : b ≤ n) :
    2 ≤ (Nat.toDigits b n).length := by
  unfold Nat.toDigits
  unfold Nat.toDigitsCore
  have hq : n / b ≠ 0 := by
    have : 0 < n / b := Nat.div_pos h hb
    omega
  simp only [hq, if_false]
  obtain ⟨f, hf⟩ : ∃ f, n = f + 1 := ⟨n - 1, by omega⟩
  rw [hf]
  have := toDigitsCore_length_pos b f ((f + 1) / b) [Nat.digitChar ((f + 1) % b)]
  simpa using this

theorem decimal_small (n : Nat) (h : n < 10) : decimal n = [48 + n] := by
  interval_cases n <;> rfl

theorem decimal_eq_digit (n k : Nat) (hk : k < 10) : decimal n = [48 + k] ↔ n = k := by
  constructor
  · intro h
    by_cases hn : n < 10
    · rw [decimal_small n hn] at h
      simpa using h
    · have h2 := toDigits_length_two 10 n (by omega) (by omega)
      have h1 : (decimal n).length = 1 := by rw [h]; rfl
      unfold decimal at h1
      rw [List.length_map] at h1
      omega
  · intro h
    subst h
    exact decimal_small n hk

theorem toDigitsCore_digit (f m : Nat) (ds : List Char) :
    ∀ c ∈ Nat.toDigitsCore 10 f m ds, c ∈ ds ∨ c.toNat < 58 := by
  induction f generalizing m ds with
  | zero =>
    intro c hc
    unfold Nat.toDigitsCore at hc
    exact Or.inl hc
  | succ f ih =>
    intro c hc
    unfold Nat.toDigitsCore at hc
    simp only at hc
    have hd : (Nat.digitChar (m % 10)).toNat < 58 := by
      have : m % 10 < 10 := Nat.mod_lt _ (by omega)
      interval_cases (m % 10) <;> decide
    split at hc
    · rcases List.mem_cons.1 hc with h | h
      · exact Or.inr (h ▸ hd)
      · exact Or.inl h
    · rcases ih _ _ c hc with h | h
      · rcases List.mem_cons.1 h with h | h
        · exact Or.inr (h ▸ hd)
        · exact Or.inl h
      · exact Or.inr h

theorem decimal_digit (n : Nat) : ∀ u ∈ decimal n, u < 58 := by
  intro u hu
  unfold decimal at hu
  obtain ⟨c, hc, rfl⟩ := List.mem_map.1 hu
  rcases toDigitsCore_digit _ _ _ c hc with h | h
  · cases h
  · exact h

theorem propertyKey_int (n : Int) :
    propertyKey (.int n) = if n < 0 then 45 :: decimal n.natAbs else decimal n.toNat := rfl

theorem propertyKey_int_digit (n : Int) : ∀ u ∈ propertyKey (.int n), u < 58 := by
  intro u hu
  rw [propertyKey_int] at hu
  by_cases hn : n < 0
  · rw [if_pos hn] at hu
    rcases List.mem_cons.1 hu with h | h
    · omega
    · exact decimal_digit _ u h
  · rw [if_neg hn] at hu
    exact decimal_digit _ u hu

theorem objectPrototypeNames_letter : ∀ name ∈ objectPrototypeNames, ∃ u ∈ name, 58 ≤ u := by
  decide

theorem propertyKey_int_not_inherited (n : Int) :
    propertyKey (.int n) ∉ objectPrototypeNames := by
  intro h
  obtain ⟨u, hu, h58⟩ := objectPrototypeNames_letter _ h
  have := propertyKey_int_digit n u hu
  omega

theorem propertyKey_int_eq (n : Int) (k : Nat) (hk : k < 10) :
    propertyKey (.int n) = [48 + k] ↔ n = k := by
  rw [propertyKey_int]
  by_cases hn : n < 0
  · rw [if_pos hn]
    constructor
    · intro h
      simp only [List.cons.injEq] at h
      omega
    · intro h
      omega
  · rw [if_neg hn, decimal_eq_digit _ k hk]
    omega

theorem statusOf_int (n : Int) :
    statusOf (.int n) =
      .text (if n = 0 then js "PENDING" else if n = 1 then js "PROCESSING"
        else if n = 2 then js "COMPLETED" else if n = 3 then js "FAILED" else js "UNKNOWN") := by
  have h0 := propertyKey_int_eq n 0 (by omega)
  have h1 := propertyKey_int_eq n 1 (by omega)
  have h2 := propertyKey_int_eq n 2 (by omega)
  have h3 := propertyKey_int_eq n 3 (by omega)
  have j0 : js "0" = [48 + 0] := by decide
  have j1 : js "1" = [48 + 1] := by decide
  have j2 : js "2" = [48 + 2] := by decide
  have j3 : js "3" = [48 + 3] := by decide
  unfold statusOf
  rw [j0, j1, j2, j3]
  simp only [h0, h1, h2, h3, propertyKey_int_not_inherited, if_false]
  simp only [Nat.cast_zero, Nat.cast_one, Nat.cast_ofNat]
  split_ifs <;> rfl

theorem statusOf_str (s : JSString) :
    (s = js "0" → statusOf (.str s) = .text (js "PENDING")) ∧
    (s = js "1" → statusOf (.str s) = .text (js "PROCESSING")) ∧
    (s = js "2" → statusOf (.str s) = .text (js "COMPLETED")) ∧
    (s = js "3" → statusOf (.str s) = .text (js "FAILED")) ∧
    (s ∈ objectPrototypeNames → statusOf (.str s) = .inherited s) ∧
    (s ∉ [js "0", js "1", js "2", js "3"] → s ∉ objectPrototypeNames →
      statusOf (.str s) = .text (js "UNKNOWN")) := by
  refine ⟨?_, ?_, ?_, ?_, ?_, ?_⟩
  · intro h; subst h; rfl
  · intro h; subst h; rfl
  · intro h; subst h; rfl
  · intro h; subst h; rfl
  · intro h
    have hl : ∀ name ∈ objectPrototypeNames,
        name ≠ js "0" ∧ name ≠ js "1" ∧ name ≠ js "2" ∧ name ≠ js "3" := by decide
    obtain ⟨h0, h1, h2, h3⟩ := hl s h
    unfold statusOf
    simp only [propertyKey, h0, h1, h2, h3, h, if_false, if_true]
  · intro h hn
    simp only [List.mem_cons, List.mem_singleton, List.not_mem_nil, or_false, not_or] at h
    obtain ⟨h0, h1, h2, h3⟩ := h
    unfold statusOf
    simp only [propertyKey, h0, h1, h2, h3, hn, if_false]

/-- C14, at the values that break it and at every other value. When the view
call answers with a list, `getAnalysisStatus` returns after that single call:
"PENDING", "PROCESSING", "COMPLETED", "FAILED" when the first element is the
integer 0, 1, 2, 3 (or the string "0", "1", "2", "3", the key of the lookup
being the string of the value); "UNKNOWN" for every other integer (negative or
above 3), for `null`, `undefined`, a boolean, an empty list, and for every other
string that is not the name of a member of `Object.prototype`. For a string
that is such a name the lookup finds the inherited member and the call returns
it, where "UNKNOWN" is meant. -/
theorem getAnalysisStatus_mapping (contract : Option JSString) (client : LedgerClient)
    (analysisId : LedgerValue) (status : List LedgerValue)
    (hv : client.view (moduleFunction contract (js "get_analysis_status")) analysisId =
      .returned (some status)) :
    ∃ r, getAnalysisStatus contract client analysisId =
        (.returned r, [.view (moduleFunction contract (js "get_analysis_status")) analysisId]) ∧
      (∀ n : Int, status.head? = some (.int n) →
        r = .text (if n = 0 then js "PENDING" else if n = 1 then js "PROCESSING"
          else if n = 2 then js "COMPLETED" else if n = 3 then js "FAILED"
          else js "UNKNOWN")) ∧
      (status.head? = none ∨ status.head? = some .null ∨ status.head? = some .undefined →
        r = .text (js "UNKNOWN")) ∧
      (∀ b, status.head? = some (.bool b) → r = .text (js "UNKNOWN")) ∧
      (∀ s, status.head? = some (.str s) →
        (s = js "0" → r = .text (js "PENDING")) ∧
        (s = js "1" → r = .text (js "PROCESSING")) ∧
        (s = js "2" → r = .text (js "COMPLETED")) ∧
        (s = js "3" → r = .text (js "FAILED")) ∧
        (s ∈ objectPrototypeNames → r = .inherited s) ∧
        (s ∉ [js "0", js "1", js "2", js "3"] → s ∉ objectPrototypeNames →
          r = .text (js "UNKNOWN"))) := by
  refine ⟨statusOf (status.head?.getD .undefined), ?_, ?_, ?_, ?_, ?_⟩
  · unfold getAnalysisStatus
    rw [hv]
  · intro n hn
    rw [hn]
    exact statusOf_int n
  · intro h
    rcases h with h | h | h <;> rw [h] <;> rfl
  · intro b hb
    rw [hb]
    cases b <;> rfl
  · intro s hs
    rw [hs]
    exact statusOf_str s

/-- C14 where it breaks: for the status `"constructor"` the call returns the
member `statusMap` inherits, not "UNKNOWN"; the integers 2 and -1 give
"COMPLETED" and "UNKNOWN". -/
theorem getAnalysisStatus_mapping_witness :
    (getAnalysisStatus (some (js "0x1234567890")) (sampleClient (.str (js "constructor")))
      (.int 7)).1 = .returned (.inherited (js "constructor")) ∧
    StatusResult.inherited (js "constructor") ≠ .text (js "UNKNOWN") ∧
    (getAnalysisStatus (some (js "0x1234567890")) (sampleClient (.int 2)) (.int 7)).1 =
      .returned (.text (js "COMPLETED")) ∧
    (getAnalysisStatus (some (js "0x1234567890")) (sampleClient (.int (-1))) (.int 7)).1 =
      .returned (.text (js "UNKNOWN")) := by
  obtain ⟨r0, h0, _, _, _, hstr⟩ := getAnalysisStatus_mapping (some (js "0x1234567890"))
    (sampleClient (.str (js "constructor"))) (.int 7) [.str (js "constructor")] rfl
  obtain ⟨r, h, hint, _⟩ := getAnalysisStatus_mapping (some (js "0x1234567890"))
    (sampleClient (.int 2)) (.int 7) [.int 2] rfl
  obtain ⟨r1, h1, hint1, _⟩ := getAnalysisStatus_mapping (some (js "0x1234567890"))
    (sampleClient (.int (-1))) (.int 7) [.int (-1)] rfl
  rw [h0, h, h1, hint 2 rfl, hint1 (-1) rfl,
    (hstr (js "constructor") rfl).2.2.2.2.1 (by decide)]
  exact ⟨rfl, by decide, rfl, rfl⟩

/-! ## Pinning and hashing -/

set_option maxRecDepth 100000 in
theorem padStart2_toString16 (b : Nat) (h : b < 256) :
    padStart2 (toString16 b) = [hexDigit (b / 16), hexDigit (b % 16)] := by
  interval_cases b <;> rfl

theorem hexDigit_range (n : Nat) (h : n < 16) :
    (48 ≤ hexDigit n ∧ hexDigit n ≤ 57) ∨ (97 ≤ hexDigit n ∧ hexDigit n ≤ 102) := by
  unfold hexDigit
  split_ifs <;> omega

theorem flatMap_pair_length {α β : Type} (f g : α → β) (l : List α) :
    (l.flatMap fun b => [f b, g b]).length = 2 * l.length := by
  induction l with
  | nil => rfl
  | cons x xs ih => simp only [List.flatMap_cons, List.length_append, List.length_cons,
      List.length_nil, ih]; omega

theorem generateHash_eq (sha256 : List Nat → List Nat) (content : JSString) :
    generateHash sha256 content =
      (uint8Array (sha256 (textEncode content))).flatMap fun b =>
        [hexDigit (b / 16), hexDigit (b % 16)] := by
  unfold generateHash
  have hb : ∀ b ∈ uint8Array (sha256 (textEncode content)), b < 256 := by
    intro b hb
    unfold uint8Array at hb
    obtain ⟨x, _, rfl⟩ := List.mem_map.1 hb
    exact Nat.mod_lt _ (by omega)
  generalize uint8Array (sha256 (textEncode content)) = l at hb
  induction l with
  | nil => rfl
  | cons x xs ih =>
    simp only [List.flatMap_cons]
    rw [padStart2_toString16 x (hb x (List.mem_cons_self _ _)),
      ih (fun b h => hb b (List.mem_cons_of_mem _ h))]

/-- C20. When the digest has 32 bytes, `generateHash` returns a string of 64
characters, each one of `0`-`9` or `a`-`f`: the concatenation, byte after byte
of the SHA-256 digest of the UTF-8 encoding of the content, of the two
lowercase hexadecimal digits of the byte (the high one first, `0` when the
byte is below 16). Equal contents give equal results. -/
theorem generateHash_hex (sha256 : List Nat → List Nat) (content : JSString)
    (h32 : (sha256 (textEncode content)).length = 32)
    (hbytes : IsBytes (sha256 (textEncode content))) :
    (generateHash sha256 content).length = 64 ∧
    (∀ u ∈ generateHash sha256 content, (48 ≤ u ∧ u ≤ 57) ∨ (97 ≤ u ∧ u ≤ 102)) ∧
    generateHash sha256 content =
      (sha256 (textEncode content)).flatMap (fun b => [hexDigit (b / 16), hexDigit (b % 16)]) ∧
    (∀ b, b < 256 → padStart2 (toString16 b) = [hexDigit (b / 16), hexDigit (b % 16)]) ∧
    (∀ other, other = content → generateHash sha256 other = generateHash sha256 content) := by
  have hu : uint8Array (sha256 (textEncode content)) = sha256 (textEncode content) := by
    unfold uint8Array
    conv_rhs => rw [← List.map_id (sha256 (textEncode content))]
    apply List.map_congr_left
    intro b hb
    exact Nat.mod_eq_of_lt (hbytes b hb)
  have heq := generateHash_eq sha256 content
  rw [hu] at heq
  refine ⟨?_, ?_, heq, padStart2_toString16, fun other h => by rw [h]⟩
  · rw [heq, flatMap_pair_length, h32]
  · intro u hu1
    rw [heq] at hu1
    obtain ⟨b, hb, hub⟩ := List.mem_flatMap.1 hu1
    have hb256 := hbytes b hb
    simp only [List.mem_cons, List.mem_singleton, List.not_mem_nil, or_false] at hub
    rcases hub with h | h
    · rw [h]; exact hexDigit_range _ (by omega)
    · rw [h]; exact hexDigit_range _ (Nat.mod_lt _ (by omega))

set_option maxRecDepth 100000 in
theorem generateHash_hex_witness :
    (generateHash sampleDigest (js "chr1")).length = 64 ∧
    generateHash sampleDigest (js "chr1") =
      js "6e757c838a91989fa6adb4bbc2c9d0d7dee5ecf3fa01080f161d242b32394047" := by
  refine ⟨(generateHash_hex sampleDigest (js "chr1") rfl (by decide)).1, ?_⟩
  rfl

/-- C19 (amended). The method `pinFile` never raises: it returns a record for
every identifier, every credential state and every answer of the pinning
service. Without credentials it reports success without a request, whatever the
identifier. With credentials it sends the pin-by-hash request, whatever the
identifier, and reports success exactly when the response is OK; a rejected
request or a response that is not OK gives `success` `false` and the error. -/
theorem pinFile_never_raises (c : Credentials) (pin : FetchResult Unit) (ipfsHash : JSString) :
    (∃ record, (pinFile c pin ipfsHash).1 = .returned record) ∧
    (c.configured = false →
      pinFile c pin ipfsHash =
        (.returned ⟨true, some (js "Mock pinning successful"), none⟩, [])) ∧
    (c.configured = true →
      (pinFile c pin ipfsHash).2 = [.fetch pinByHashUrl] ∧
      (∀ statusText body, pin = .response true statusText body →
        (pinFile c pin ipfsHash).1 =
          .returned ⟨true, some (js "File pinned successfully"), none⟩) ∧
      (∀ statusText body, pin = .response false statusText body →
        (pinFile c pin ipfsHash).1 =
          .returned ⟨false, none, some (.error (js "Pin failed: " ++ statusText))⟩) ∧
      (pin = .rejected →
        (pinFile c pin ipfsHash).1 = .returned ⟨false, none, some .networkError⟩)) := by
  have hoff : c.configured = false →
      pinFile c pin ipfsHash =
        (.returned ⟨true, some (js "Mock pinning successful"), none⟩, []) := by
    intro hc
    unfold pinFile pinTry
    simp only [hc, Bool.not_false, if_true]
  have hon : c.configured = true →
      pinFile c pin ipfsHash =
        match pin with
        | .rejected => (.returned ⟨false, none, some .networkError⟩, [.fetch pinByHashUrl])
        | .response true _ _ =>
          (.returned ⟨true, some (js "File pinned successfully"), none⟩, [.fetch pinByHashUrl])
        | .response false statusText _ =>
          (.returned ⟨false, none, some (.error (js "Pin failed: " ++ statusText))⟩,
            [.fetch pinByHashUrl]) := by
    intro hc
    unfold pinFile pinTry
    simp only [hc, Bool.not_true, Bool.false_eq_true, if_false]
    cases pin with
    | rejected => rfl
    | response ok statusText body => cases ok <;> rfl
  refine ⟨?_, hoff, fun hc => ?_⟩
  · cases hc : c.configured with
    | false => exact ⟨_, by rw [hoff hc]⟩
    | true =>
      rw [hon hc]
      cases pin with
      | rejected => exact ⟨_, rfl⟩
      | response ok statusText body => cases ok <;> exact ⟨_, rfl⟩
  · rw [hon hc]
    refine ⟨?_, ?_, ?_, ?_⟩
    · cases pin with
      | rejected => rfl
      | response ok statusText body => cases ok <;> rfl
    · intro st b h; subst h; rfl
    · intro st b h; subst h; rfl
    · intro h; subst h; rfl

theorem pinFile_never_raises_witness :
    pinFile ⟨[], []⟩ .rejected (js "Qmmock1730000000000abc") =
      (.returned ⟨true, some (js "Mock pinning successful"), none⟩, []) :=
  (pinFile_never_raises ⟨[], []⟩ .rejected (js "Qmmock1730000000000abc")).2.1 rfl

theorem pinFile_counterexample :
    startsWith (js "Qmmock1730000000000abc") (js "Qmmock") = true ∧
    pinFile ⟨js "key", js "secret"⟩ (.response false (js "Unauthorized") ())
        (js "Qmmock1730000000000abc") =
      (.returned ⟨false, none, some (.error (js "Pin failed: Unauthorized"))⟩,
        [.fetch pinByHashUrl]) :=
  ⟨by decide, rfl⟩

/-! ## The upload page -/

theorem finishUpload_trace (message : JSString) (trace : List Step)
    (answer : Outcome (Option LedgerValue)) :
    ∃ rest, (finishUpload message trace answer).2 = trace ++ rest ∧
      ∀ step ∈ rest, step.isStage = false := by
  cases answer with
  | threw e => exact ⟨[], by simp [finishUpload], by simp⟩
  | pending => exact ⟨[], by simp [finishUpload], by simp⟩
  | returned r =>
    cases r with
    | none => exact ⟨[], by simp [finishUpload], by simp⟩
    | some id =>
      refine ⟨[.setAnalysisId id, .toastSuccess message], rfl, ?_⟩
      intro step h
      simp only [List.mem_cons, List.mem_singleton, List.not_mem_nil, or_false] at h
      rcases h with h | h <;> subst h <;> rfl

theorem onDrop_name (s : Services) (useBlockchain walletConnected : Bool) (file : File)
    (rest : List File) (h : endsWith file.name (js ".vcf") = false) :
    onDrop s useBlockchain walletConnected (file :: rest) =
      (true, [.toastError (js "Please upload a VCF file")]) := by
  unfold onDrop
  simp only [h, Bool.not_false, if_true]

/-- C16. A drop of one file whose name does not end in ".vcf" or whose size is
above 100 MiB (104857600 bytes) ends with one error message and no stage of the
pipeline: no file read, no encryption, no publication, no attestation, no
backend upload. The name is tested by `onDrop` itself ("Please upload a VCF
file", for every list of files whose first one has such a name); the size is
tested by the dropzone (`maxSize`), which hands no file to `onDrop`, and
`onDrop` then reports "No file selected". -/
theorem dropFiles_rejects (s : Services) (useBlockchain walletConnected : Bool)
    (acceptsType : File → Bool) (file : File)
    (h : endsWith file.name (js ".vcf") = false ∨ 104857600 < file.size) :
    (∃ message, dropFiles s useBlockchain walletConnected acceptsType [file] =
      (true, [.toastError message])) ∧
    (∀ step ∈ (dropFiles s useBlockchain walletConnected acceptsType [file]).2,
      step.isStage = false) ∧
    (endsWith file.name (js ".vcf") = false → ∀ rest,
      onDrop s useBlockchain walletConnected (file :: rest) =
        (true, [.toastError (js "Please upload a VCF file")])) ∧
    (104857600 < file.size →
      dropzoneAccepted acceptsType [file] = [] ∧
      dropFiles s useBlockchain walletConnected acceptsType [file] =
        (true, [.toastError (js "No file selected")])) ∧
    maxSize = 104857600 := by
  have hsize : 104857600 < file.size → dropzoneAccepted acceptsType [file] = [] := by
    intro hs
    have hd : decide (file.size ≤ maxSize) = false := by
      simp only [decide_eq_false_iff_not, maxSize]
      omega
    unfold dropzoneAccepted
    simp only [List.filter, hd, Bool.and_false, List.length_nil, Nat.zero_le, if_true]
  have hcases : dropzoneAccepted acceptsType [file] = [] ∨
      dropzoneAccepted acceptsType [file] = [file] := by
    unfold dropzoneAccepted
    cases hk : (acceptsType file && decide (file.size ≤ maxSize)) with
    | false => left; simp only [List.filter, hk, List.length_nil, Nat.zero_le, if_true]
    | true =>
      right
      simp only [List.filter, hk, List.length_cons, List.length_nil, Nat.zero_add,
        Nat.le_refl, if_true]
  have hmain : ∃ message, dropFiles s useBlockchain walletConnected acceptsType [file] =
      (true, [.toastError message]) := by
    unfold dropFiles
    rcases h with hn | hs
    · rcases hcases with hk | hk
      · rw [hk]; exact ⟨_, rfl⟩
      · rw [hk]; exact ⟨_, onDrop_name s useBlockchain walletConnected file [] hn⟩
    · rw [hsize hs]; exact ⟨_, rfl⟩
  refine ⟨hmain, ?_, fun hn rest => onDrop_name s useBlockchain walletConnected file rest hn,
    fun hs => ⟨hsize hs, ?_⟩, rfl⟩
  · obtain ⟨message, hm⟩ := hmain
    rw [hm]
    intro step hstep
    simp only [List.mem_singleton] at hstep
    subst hstep
    rfl
  · unfold dropFiles
    rw [hsize hs]
    rfl

theorem dropFiles_rejects_witness :
    dropFiles sampleServices true true (fun _ => true) [⟨js "genome.vcf", 150000000⟩] =
      (true, [.toastError (js "No file selected")]) ∧
    onDrop sampleServices true true [⟨js "genome.txt", 1000⟩] =
      (true, [.toastError (js "Please upload a VCF file")]) :=
  ⟨((dropFiles_rejects sampleServices true true (fun _ => true) ⟨js "genome.vcf", 150000000⟩
      (Or.inr (by decide))).2.2.2.1 (by decide)).2,
    (dropFiles_rejects sampleServices true true (fun _ => true) ⟨js "genome.txt", 1000⟩
      (Or.inl (by decide))).2.2.1 (by decide) []⟩

/-- C17 (amended). For a file whose name ends in ".vcf", with the blockchain
path requested and the wallet not connected, `onDrop` does what it does when
the blockchain path is not requested: it calls the backend upload with the file
and no blockchain data as its only stage (no file read, no encryption, no
publication, no attestation) and raises no error of its own; when the backend
answers with an analysis identifier the handler ends with the success
message. -/
theorem onDrop_wallet_not_connected (s : Services) (file : File) (rest : List File)
    (hname : endsWith file.name (js ".vcf") = true) :
    onDrop s true false (file :: rest) = onDrop s false false (file :: rest) ∧
    (∃ tail, (onDrop s true false (file :: rest)).2 =
        .setUploading true :: .backendUpload file none :: tail ∧
      ∀ step ∈ tail, step.isStage = false) ∧
    (∀ id, s.upload file none = .returned (some id) →
      onDrop s true false (file :: rest) =
        (true, [.setUploading true, .backendUpload file none, .setAnalysisId id,
          .toastSuccess (js "File uploaded successfully! Analysis started."),
          .setUploading false])) ∧
    (∀ e, s.upload file none = .threw e →
      onDrop s true false (file :: rest) =
        (true, [.setUploading true, .backendUpload file none, .toastFailure e,
          .setUploading false])) := by
  have hstart : onDrop s true false (file :: rest) =
      match handleTraditionalUpload s file with
      | (.returned _, trace) => (true, .setUploading true :: trace ++ [.setUploading false])
      | (.threw e, trace) =>
        (true, .setUploading true :: trace ++ [.toastFailure e, .setUploading false])
      | (.pending, trace) => (false, .setUploading true :: trace) := by
    unfold onDrop
    simp only [hname, Bool.not_true, Bool.false_eq_true, if_false, Bool.and_false]
  refine ⟨?_, ?_, ?_, ?_⟩
  · unfold onDrop
    simp only [hname, Bool.not_true, Bool.false_eq_true, if_false, Bool.and_false,
      Bool.and_self]
  · rw [hstart]
    unfold handleTraditionalUpload finishUpload
    cases s.upload file none with
    | threw e =>
      refine ⟨[.toastFailure e, .setUploading false], rfl, ?_⟩
      intro step h
      simp only [List.mem_cons, List.mem_singleton, List.not_mem_nil, or_false] at h
      rcases h with h | h <;> subst h <;> rfl
    | pending => exact ⟨[], rfl, by simp⟩
    | returned r =>
      cases r with
      | none =>
        refine ⟨[.toastFailure .typeError, .setUploading false], rfl, ?_⟩
        intro step h
        simp only [List.mem_cons, List.mem_singleton, List.not_mem_nil, or_false] at h
        rcases h with h | h <;> subst h <;> rfl
      | some id =>
        refine ⟨[.setAnalysisId id,
          .toastSuccess (js "File uploaded successfully! Analysis started."),
          .setUploading false], rfl, ?_⟩
        intro step h
        simp only [List.mem_cons, List.mem_singleton, List.not_mem_nil, or_false] at h
        rcases h with h | h | h <;> subst h <;> rfl
  · intro id hid
    rw [hstart]
    unfold handleTraditionalUpload finishUpload
    rw [hid]
    rfl
  · intro e he
    rw [hstart]
    unfold handleTraditionalUpload finishUpload
    rw [he]
    rfl

theorem onDrop_wallet_not_connected_witness :
    onDrop sampleServices true false [⟨js "genome.vcf", 1000⟩] =
      (true, [.setUploading true, .backendUpload ⟨js "genome.vcf", 1000⟩ none,
        .setAnalysisId (.str (js "a1")),
        .toastSuccess (js "File uploaded successfully! Analysis started."),
        .setUploading false]) :=
  (onDrop_wallet_not_connected sampleServices ⟨js "genome.vcf", 1000⟩ [] (by decide)).2.2.1
    (.str (js "a1")) rfl

theorem onDrop_wallet_not_connected_counterexample :
    endsWith (js "genome.vcf") (js ".vcf") = true ∧
    onDrop sampleServices true false [⟨js "genome.vcf", 1000⟩] =
      (true, [.setUploading true, .backendUpload ⟨js "genome.vcf", 1000⟩ none,
        .setAnalysisId (.str (js "a1")),
        .toastSuccess (js "File uploaded successfully! Analysis started."),
        .setUploading false]) ∧
    Step.backendUpload ⟨js "genome.vcf", 1000⟩ none ∈
      (onDrop sampleServices true false [⟨js "genome.vcf", 1000⟩]).2 :=
  ⟨by decide, rfl, by decide⟩

/-- C18. In `handleBlockchainUpload` the stages run in the order read, encrypt,
publish, `requestAnalysis`, backend upload, each one on what the stage before
returned, and a stage that does not return (it raises, or never settles) is the
last step taken and the handler does not return. The backend upload is called
only when `encryptFile`, `uploadEncryptedFile` and `requestAnalysis` have all
returned, and the `ipfsHash` and `txHash` it is given are the identifier of the
record `uploadEncryptedFile` returned and the `transactionHash` of the record
`requestAnalysis` returned for that identifier. -/
theorem handleBlockchainUpload_order (s : Services) (file : File) :
    ((∀ r, s.readFileAsText file ≠ .returned r) →
      (handleBlockchainUpload s file).2 = [.readFile file] ∧
      ∀ u, (handleBlockchainUpload s file).1 ≠ .returned u) ∧
    (∀ content, s.readFileAsText file = .returned content →
      ((∀ r, s.encryptFile content ≠ .returned r) →
        (handleBlockchainUpload s file).2 = [.readFile file, .encrypt content] ∧
        ∀ u, (handleBlockchainUpload s file).1 ≠ .returned u) ∧
      (∀ enc, s.encryptFile content = .returned enc →
        ((∀ r, s.uploadEncryptedFile enc.encrypted file.name file.size ≠ .returned r) →
          (handleBlockchainUpload s file).2 =
            [.readFile file, .encrypt content, .publish enc.encrypted file.name file.size] ∧
          ∀ u, (handleBlockchainUpload s file).1 ≠ .returned u) ∧
        (∀ record, s.uploadEncryptedFile enc.encrypted file.name file.size = .returned record →
          ((∀ r, s.requestAnalysis record.ipfsHash ≠ .returned r) →
            (handleBlockchainUpload s file).2 =
              [.readFile file, .encrypt content, .publish enc.encrypted file.name file.size,
                .attest record.ipfsHash] ∧
            ∀ u, (handleBlockchainUpload s file).1 ≠ .returned u) ∧
          (∀ tx, s.requestAnalysis record.ipfsHash = .returned tx →
            ∃ rest, (handleBlockchainUpload s file).2 =
                [.readFile file, .encrypt content, .publish enc.encrypted file.name file.size,
                  .attest record.ipfsHash,
                  .backendUpload file (some ⟨true, record.ipfsHash, tx.transactionHash,
                    tx.analysisId, tx.mock.getD false⟩)] ++ rest ∧
              ∀ step ∈ rest, step.isStage = false)))) ∧
    (∀ target data, .backendUpload target data ∈ (handleBlockchainUpload s file).2 →
      ∃ content enc record tx, s.readFileAsText file = .returned content ∧
        s.encryptFile content = .returned enc ∧
        s.uploadEncryptedFile enc.encrypted file.name file.size = .returned record ∧
        s.requestAnalysis record.ipfsHash = .returned tx ∧ target = file ∧
        data = some ⟨true, record.ipfsHash, tx.transactionHash, tx.analysisId,
          tx.mock.getD false⟩) := by
  refine ⟨?_, ?_, ?_⟩
  · intro h1
    unfold handleBlockchainUpload
    cases hr : s.readFileAsText file with
    | returned content => exact absurd hr (h1 content)
    | threw e => exact ⟨rfl, fun u h => by cases h⟩
    | pending => exact ⟨rfl, fun u h => by cases h⟩
  · intro content h1
    refine ⟨?_, ?_⟩
    · intro h2
      unfold handleBlockchainUpload
      rw [h1]
      simp only
      cases he : s.encryptFile content with
      | returned enc => exact absurd he (h2 enc)
      | threw e => exact ⟨rfl, fun u h => by cases h⟩
      | pending => exact ⟨rfl, fun u h => by cases h⟩
    · intro enc h2
      refine ⟨?_, ?_⟩
      · intro h3
        unfold handleBlockchainUpload
        rw [h1]
        simp only
        rw [h2]
        simp only
        cases hp : s.uploadEncryptedFile enc.encrypted file.name file.size with
        | returned record => exact absurd hp (h3 record)
        | threw e => exact ⟨rfl, fun u h => by cases h⟩
        | pending => exact ⟨rfl, fun u h => by cases h⟩
      · intro record h3
        refine ⟨?_, ?_⟩
        · intro h4
          unfold handleBlockchainUpload
          rw [h1]
          simp only
          rw [h2]
          simp only
          rw [h3]
          simp only
          cases ha : s.requestAnalysis record.ipfsHash with
          | returned tx => exact absurd ha (h4 tx)
          | threw e => exact ⟨rfl, fun u h => by cases h⟩
          | pending => exact ⟨rfl, fun u h => by cases h⟩
        · intro tx h4
          unfold handleBlockchainUpload
          rw [h1]
          simp only
          rw [h2]
          simp only
          rw [h3]
          simp only
          rw [h4]
          exact finishUpload_trace _ _ _
  · intro target data hmem
    unfold handleBlockchainUpload at hmem
    cases h1 : s.readFileAsText file with
    | threw e => rw [h1] at hmem; simp at hmem
    | pending => rw [h1] at hmem; simp at hmem
    | returned content =>
      rw [h1] at hmem
      simp only at hmem
      cases h2 : s.encryptFile content with
      | threw e => rw [h2] at hmem; simp at hmem
      | pending => rw [h2] at hmem; simp at hmem
      | returned enc =>
        rw [h2] at hmem
        simp only at hmem
        cases h3 : s.uploadEncryptedFile enc.encrypted file.name file.size with
        | threw e => rw [h3] at hmem; simp at hmem
        | pending => rw [h3] at hmem; simp at hmem
        | returned record =>
          rw [h3] at hmem
          simp only at hmem
          cases h4 : s.requestAnalysis record.ipfsHash with
          | threw e => rw [h4] at hmem; simp at hmem
          | pending => rw [h4] at hmem; simp at hmem
          | returned tx =>
            rw [h4] at hmem
            simp only at hmem
            obtain ⟨tail, htail, hstage⟩ := finishUpload_trace
              (js "✅ Blockchain-secured analysis started!")
              [.readFile file, .encrypt content, .publish enc.encrypted file.name file.size,
                .attest record.ipfsHash,
                .backendUpload file (some ⟨true, record.ipfsHash, tx.transactionHash,
                  tx.analysisId, tx.mock.getD false⟩)]
              (s.upload file (some ⟨true, record.ipfsHash, tx.transactionHash,
                tx.analysisId, tx.mock.getD false⟩))
            rw [htail] at hmem
            refine ⟨content, enc, record, tx, rfl, h2, h3, h4, ?_⟩
            rcases List.mem_append.1 hmem with h | h
            · simp only [List.mem_cons, List.mem_singleton, List.not_mem_nil, or_false,
                Step.backendUpload.injEq, reduceCtorEq, false_or] at h
              exact h
            · have := hstage _ h
              cases this

theorem handleBlockchainUpload_order_witness :
    handleBlockchainUpload sampleServices ⟨js "genome.vcf", 1000⟩ =
      (.returned (),
        [.readFile ⟨js "genome.vcf", 1000⟩, .encrypt (js "##fileformat=VCFv4.2"),
          .publish (js "AAAAAAAAAAAAAAAAAAAA") (js "genome.vcf") 1000,
          .attest (some (js "QmX")),
          .backendUpload ⟨js "genome.vcf", 1000⟩
            (some ⟨true, some (js "QmX"), js "0xtx1", .str (js "7"), false⟩),
          .setAnalysisId (.str (js "a1")),
          .toastSuccess (js "✅ Blockchain-secured analysis started!")]) ∧
    (handleBlockchainUpload failingServices ⟨js "genome.vcf", 1000⟩).2 =
      [.readFile ⟨js "genome.vcf", 1000⟩, .encrypt (js "##fileformat=VCFv4.2")] :=
  ⟨rfl,
    (((handleBlockchainUpload_order failingServices ⟨js "genome.vcf", 1000⟩).2.1
      (js "##fileformat=VCFv4.2") rfl).1 (fun r h => by cases h)).1⟩

/-! ## The request event of a transaction -/

theorem includes_substring (s p : JSString) : includes s p = true ↔ p <:+: s := by
  induction s with
  | nil =>
    unfold includes
    cases p with
    | nil => simp
    | cons c p => simp
  | cons c rest ih =>
    unfold includes
    rw [Bool.or_eq_true, ih, List.infix_cons_iff]
    unfold startsWith
    rw [List.isPrefixOf_iff_prefix]

theorem findRequestEvent_passedOver (before rest : List (Option TxnEvent))
    (h : ∀ event ∈ before, passedOver event = true) :
    findRequestEvent (before ++ rest) = findRequestEvent rest := by
  induction before with
  | nil => rfl
  | cons event before ih =>
    have hev := h event (List.mem_cons_self _ _)
    have ih1 := ih (fun ev hmem => h ev (List.mem_cons_of_mem _ hmem))
    cases event with
    | none => cases hev
    | some e =>
      unfold passedOver at hev
      simp only at hev
      cases ht : e.type with
      | none => rw [ht] at hev; cases hev
      | some t =>
        rw [ht] at hev
        simp only [Bool.not_eq_true'] at hev
        rw [List.cons_append]
        have hstep : findRequestEvent (some e :: (before ++ rest)) =
            findRequestEvent (before ++ rest) := by
          simp only [findRequestEvent, ht, hev, Bool.false_eq_true, if_false]
        rw [hstep]
        exact ih1

/-- C21. The method `extractAnalysisIdFromTransaction` returns a value for
every transaction. When the events before the first one whose `type` contains
"AnalysisRequestedEvent" are objects with a string `type`, it returns the
`analysis_id` of the `data` of that first event, whatever follows it, and
`null` when that event has no `data`. It returns `null` when the transaction is
`null`, has no `events` or `events` that are not a list, when every event has a
string `type` without the substring (no such event), and when the search meets
a `null` event or an event without a string `type` before any match. -/
theorem extractAnalysisIdFromTransaction_first (txn : Txn) :
    (∃ result, extractAnalysisIdFromTransaction txn = result) ∧
    (txn = .nullish ∨ txn = .noEventList ∨ txn = .value none →
      extractAnalysisIdFromTransaction txn = .null) ∧
    (∀ before e t after, txn = .value (some (before ++ some e :: after)) →
      (∀ event ∈ before, passedOver event = true) →
      e.type = some t → js "AnalysisRequestedEvent" <:+: t →
      (∀ analysisId, e.data = some analysisId →
        extractAnalysisIdFromTransaction txn = analysisId) ∧
      (e.data = none → extractAnalysisIdFromTransaction txn = .null)) ∧
    (∀ events, txn = .value (some events) →
      (∀ event ∈ events, passedOver event = true) →
      extractAnalysisIdFromTransaction txn = .null) ∧
    (∀ before event after, txn = .value (some (before ++ event :: after)) →
      (∀ ev ∈ before, passedOver ev = true) →
      (event = none ∨ ∃ e, event = some e ∧ e.type = none) →
      extractAnalysisIdFromTransaction txn = .null) ∧
    (∀ event, passedOver event = true ↔
      ∃ e t, event = some e ∧ e.type = some t ∧ ¬ js "AnalysisRequestedEvent" <:+: t) := by
  refine ⟨⟨_, rfl⟩, ?_, ?_, ?_, ?_, ?_⟩
  · intro h
    rcases h with h | h | h <;> subst h <;> rfl
  · intro before e t after htxn hbefore ht hinfix
    subst htxn
    have hinc : includes t (js "AnalysisRequestedEvent") = true :=
      (includes_substring _ _).2 hinfix
    have hfind : findRequestEvent (before ++ some e :: after) = some (some e) := by
      rw [findRequestEvent_passedOver before _ hbefore]
      unfold findRequestEvent
      simp only [ht, hinc, if_true]
    refine ⟨?_, ?_⟩
    · intro analysisId hdata
      unfold extractAnalysisIdFromTransaction
      simp only [hfind, hdata]
    · intro hdata
      unfold extractAnalysisIdFromTransaction
      simp only [hfind, hdata]
  · intro events htxn hall
    subst htxn
    have hfind : findRequestEvent events = some none := by
      have := findRequestEvent_passedOver events [] hall
      rw [List.append_nil] at this
      rw [this]
      rfl
    unfold extractAnalysisIdFromTransaction
    simp only [hfind]
  · intro before event after htxn hbefore hbad
    subst htxn
    have hfind : findRequestEvent (before ++ event :: after) = none := by
      rw [findRequestEvent_passedOver before _ hbefore]
      rcases hbad with h | ⟨e, h, ht⟩
      · subst h; rfl
      · subst h
        unfold findRequestEvent
        simp only [ht]
    unfold extractAnalysisIdFromTransaction
    simp only [hfind]
  · intro event
    unfold passedOver
    cases event with
    | none => simp
    | some e =>
      cases ht : e.type with
      | none => simp [ht]
      | some t =>
        simp only [Bool.not_eq_true', Option.some.injEq, exists_and_left, exists_eq_left', ht,
          true_and]
        rw [← includes_substring]
        simp

theorem extractAnalysisIdFromTransaction_first_witness :
    extractAnalysisIdFromTransaction (.value (some sampleEvents)) = .int 7 ∧
    extractAnalysisIdFromTransaction (.value (some (none :: sampleEvents))) = .null :=
  ⟨((extractAnalysisIdFromTransaction_first (.value (some sampleEvents))).2.2.1
      [some ⟨some (js "0x1::coin::DepositEvent"), some (.int 100)⟩]
      ⟨some (js "0x1::privacy_analysis::AnalysisRequestedEvent"), some (.int 7)⟩
      (js "0x1::privacy_analysis::AnalysisRequestedEvent")
      [some ⟨some (js "0x2::other::AnalysisRequestedEvent"), some (.int 9)⟩]
      rfl (by decide) rfl ⟨js "0x1::privacy_analysis::", [], by decide⟩).1 (.int 7) rfl,
    (extractAnalysisIdFromTransaction_first (.value (some (none :: sampleEvents)))).2.2.2.2.1
      [] none sampleEvents rfl (by simp) (Or.inl rfl)⟩

/-! ## The mock flag sent to the backend -/

theorem handleBlockchainUpload_backend (s : Services) (file : File) (target : File)
    (data : Option BlockchainData)
    (hmem : .backendUpload target data ∈ (handleBlockchainUpload s file).2) :
    ∃ content enc record tx, s.readFileAsText file = .returned content ∧
      s.encryptFile content = .returned enc ∧
      s.uploadEncryptedFile enc.encrypted file.name file.size = .returned record ∧
      s.requestAnalysis record.ipfsHash = .returned tx ∧ target = file ∧
      data = some ⟨true, record.ipfsHash, tx.transactionHash, tx.analysisId,
        tx.mock.getD false⟩ := by
  unfold handleBlockchainUpload at hmem
  cases h1 : s.readFileAsText file with
  | threw e => rw [h1] at hmem; simp at hmem
  | pending => rw [h1] at hmem; simp at hmem
  | returned content =>
    rw [h1] at hmem
    simp only at hmem
    cases h2 : s.encryptFile content with
    | threw e => rw [h2] at hmem; simp at hmem
    | pending => rw [h2] at hmem; simp at hmem
    | returned enc =>
      rw [h2] at hmem
      simp only at hmem
      cases h3 : s.uploadEncryptedFile enc.encrypted file.name file.size with
      | threw e => rw [h3] at hmem; simp at hmem
      | pending => rw [h3] at hmem; simp at hmem
      | returned record =>
        rw [h3] at hmem
        simp only at hmem
        cases h4 : s.requestAnalysis record.ipfsHash with
        | threw e => rw [h4] at hmem; simp at hmem
        | pending => rw [h4] at hmem; simp at hmem
        | returned tx =>
          rw [h4] at hmem
          simp only at hmem
          obtain ⟨tail, htail, hstage⟩ := finishUpload_trace
            (js "✅ Blockchain-secured analysis started!")
            [.readFile file, .encrypt content, .publish enc.encrypted file.name file.size,
              .attest record.ipfsHash,
              .backendUpload file (some ⟨true, record.ipfsHash, tx.transactionHash,
                tx.analysisId, tx.mock.getD false⟩)]
            (s.upload file (some ⟨true, record.ipfsHash, tx.transactionHash,
              tx.analysisId, tx.mock.getD false⟩))
          rw [htail] at hmem
          refine ⟨content, enc, record, tx, rfl, h2, h3, h4, ?_⟩
          rcases List.mem_append.1 hmem with h | h
          · simp only [List.mem_cons, List.mem_singleton, List.not_mem_nil, or_false,
              Step.backendUpload.injEq, reduceCtorEq, false_or] at h
            exact h
          · have := hstage _ h
            cases this

theorem requestAnalysis_mock_flag (w : Wallets) (contract : Option JSString)
    (client : LedgerClient) (now : Nat) (encryptedFileHash : Option JSString)
    (record : AnalysisRecord)
    (h : (requestAnalysis w contract client now encryptedFileHash).1 = .returned record) :
    record.mock.getD false = unconfigured contract := by
  unfold requestAnalysis at h
  cases hany : anyWallet w with
  | none => rw [hany] at h; cases h
  | some kw =>
    obtain ⟨kind, wallet⟩ := kw
    rw [hany] at h
    simp only at h
    cases contract with
    | none =>
      simp only [Outcome.returned.injEq] at h
      subst h
      rfl
    | some address =>
      simp only at h
      by_cases hc : unconfigured (some address) = true
      · rw [if_pos hc] at h
        simp only [Outcome.returned.injEq] at h
        subst h
        rw [hc]
        rfl
      · rw [if_neg hc] at h
        obtain ⟨_, _, _, _, _, hmock, _⟩ := submitAnalysis_returned client kind wallet
          (requestPayload address encryptedFileHash) record
          (submitAnalysis client kind wallet (requestPayload address encryptedFileHash)).2
          (Prod.ext h rfl)
        rw [hmock]
        simp only [Bool.not_eq_true] at hc
        rw [hc]
        rfl

/-- C22. In `handleBlockchainUpload` the data of a backend upload carry as
`mock` the `mock` flag of the record `requestAnalysis` returned, `false` when
the record has none, and as `ipfsHash` the identifier of the content record,
whatever the `mock` flag of the content record is. With the `requestAnalysis`
of the ledger client the flag sent says whether the contract address is
unconfigured. In the run of `fallbackServices` the content record has `mock`
`true`, the record of `requestAnalysis` has no `mock`, and the backend receives
`mock` `false` with an identifier that begins with "Qmmock". -/
theorem handleBlockchainUpload_mock_flag (s : Services) (file : File) :
    (∀ target sent, .backendUpload target (some sent) ∈ (handleBlockchainUpload s file).2 →
      ∃ content enc record tx, s.readFileAsText file = .returned content ∧
        s.encryptFile content = .returned enc ∧
        s.uploadEncryptedFile enc.encrypted file.name file.size = .returned record ∧
        s.requestAnalysis record.ipfsHash = .returned tx ∧
        sent.mock = tx.mock.getD false ∧ sent.ipfsHash = record.ipfsHash ∧
        sent.txHash = tx.transactionHash) ∧
    (∀ w contract client now,
      (s.requestAnalysis = fun hash => (requestAnalysis w contract client now hash).1) →
      ∀ target sent, .backendUpload target (some sent) ∈ (handleBlockchainUpload s file).2 →
        sent.mock = unconfigured contract) ∧
    (∃ enc record tx hash,
      fallbackServices.encryptFile (js "##fileformat") = .returned enc ∧
      fallbackServices.uploadEncryptedFile enc.encrypted (js "sample.vcf") 12 =
        .returned record ∧
      record.mock = some true ∧ record.ipfsHash = some hash ∧
      startsWith hash (js "Qmmock") = true ∧
      fallbackServices.requestAnalysis record.ipfsHash = .returned tx ∧ tx.mock = none ∧
      .backendUpload ⟨js "sample.vcf", 12⟩
          (some ⟨true, some hash, tx.transactionHash, tx.analysisId, false⟩) ∈
        (handleBlockchainUpload fallbackServices ⟨js "sample.vcf", 12⟩).2) := by
  refine ⟨?_, ?_, ?_⟩
  · intro target sent hmem
    obtain ⟨content, enc, record, tx, h1, h2, h3, h4, _, hdata⟩ :=
      handleBlockchainUpload_backend s file target _ hmem
    simp only [Option.some.injEq] at hdata
    subst hdata
    exact ⟨content, enc, record, tx, h1, h2, h3, h4, rfl, rfl, rfl⟩
  · intro w contract client now hs target sent hmem
    obtain ⟨content, enc, record, tx, h1, h2, h3, h4, _, hdata⟩ :=
      handleBlockchainUpload_backend s file target _ hmem
    simp only [Option.some.injEq] at hdata
    subst hdata
    rw [hs] at h4
    exact requestAnalysis_mock_flag w contract client now record.ipfsHash tx h4
  · exact ⟨_, _, _, _, rfl, rfl, rfl, rfl, rfl, rfl, rfl,
      .tail _ (.tail _ (.tail _ (.tail _ (.head _))))⟩

set_option maxRecDepth 100000 in
theorem handleBlockchainUpload_mock_flag_witness :
    (handleBlockchainUpload fallbackServices ⟨js "sample.vcf", 12⟩).2 =
      [.readFile ⟨js "sample.vcf", 12⟩, .encrypt (js "##fileformat"),
        .publish (js "AAAAAAAAAAAAAAAAIyNmaWxlZm9ybWF0pqampqampqampqampqampg==") (js "sample.vcf") 12,
        .attest (some (js "Qmmock1730000000000k3j9x2m1q")),
        .backendUpload ⟨js "sample.vcf", 12⟩
          (some ⟨true, some (js "Qmmock1730000000000k3j9x2m1q"), js "0xtx1", .str (js "7"),
            false⟩),
        .setAnalysisId (.str (js "a1")),
        .toastSuccess (js "✅ Blockchain-secured analysis started!")] ∧
    ∃ enc record tx hash,
      fallbackServices.encryptFile (js "##fileformat") = .returned enc ∧
      fallbackServices.uploadEncryptedFile enc.encrypted (js "sample.vcf") 12 =
        .returned record ∧
      record.mock = some true ∧ record.ipfsHash = some hash ∧
      startsWith hash (js "Qmmock") = true ∧
      fallbackServices.requestAnalysis record.ipfsHash = .returned tx ∧ tx.mock = none ∧
      .backendUpload ⟨js "sample.vcf", 12⟩
          (some ⟨true, some hash, tx.transactionHash, tx.analysisId, false⟩) ∈
        (handleBlockchainUpload fallbackServices ⟨js "sample.vcf", 12⟩).2 :=
  ⟨rfl, (handleBlockchainUpload_mock_flag fallbackServices ⟨js "sample.vcf", 12⟩).2.2⟩

end GenomeGuard
